import Mathlib

/-!
# Zen-Lang: lexer, parser and tree-walking interpreter

A shallow embedding of `src/lexer.cpp`, `src/parser.cpp` and `src/interpreter.cpp`.

Modelling conventions.

* A `std::string` is a sequence of characters. The lexer only ever reads `source[pos ..]`, so the
  lexer state carries the unread remainder of the source instead of the pair `(source, pos)`.
  `peek()` is the head of the remainder (`'\0'` when it is empty) and `source[pos + 1]` is its
  second character (`'\0'` when there is none).
* `isspace`, `isalpha`, `isdigit`, `isalnum` are the C-locale classifications.
* Every loop of the lexer is a structurally recursive function on the remainder. `nextToken`
  (which calls itself after a comment) and the loops of `tokenize`, of the parser and of the
  interpreter take a fuel argument; running out of fuel is a result of its own, distinct from every
  result the C++ code can produce.
  More fuel never changes a result that is not fuel exhaustion (`runSource_stable`,
  `runSource_unique`), so a result computed with some fuel is the result of the program.
* A C++ exception (`throw std::runtime_error(msg)`) is the result `Res.error`: of the message
  in the parser, of the message and the state of the interpreter at the `throw` in the
  interpreter, of the message and the lines written so far in a whole run.
* `double` is modelled by exact rational arithmetic (`ℚ`); this is exact on the integers and short
  decimals that occur in the programs considered here.
* `std::cout` is modelled as the list of lines written so far.
* Names are those of the source, except `vars` for `variables` and `limit` for `end`, which are
  reserved words.
-/

namespace Zen

/-! ## Tokens (`src/lexer.h`) -/

inductive TokenType
  | Identifier
  | Number
  | Decimal
  | String
  | Keyword
  | Operator
  | Header
  | LParen
  | RParen
  | LBracket
  | RBracket
  | LBrace
  | RBrace
  | Comma
  | Assign
  | EndOfFile
  | Unknown
  deriving DecidableEq, Repr

structure Token where
  type : TokenType
  value : String
  line : Nat
  column : Nat
  deriving DecidableEq, Repr

/-- Modelled from the spec: the keyword set `KEYWORDS` of the header `tokens.h`, which is not among
the sources. The spec lists `let, print, if, else, while, for, to, step, func, return, len` and the
boolean literals `true`, `false`. -/
def KEYWORDS : List String :=
  ["let", "print", "if", "else", "while", "for", "to", "step", "func", "return", "len",
   "true", "false"]

/-! ## Lexer (`src/lexer.cpp`) -/

/-- The C-locale `isspace`. -/
def isspace (c : Char) : Bool :=
  c = ' ' || c = '\t' || c = '\n' || c = '\x0b' || c = '\x0c' || c = '\r'

/-- The C-locale `isalpha`. -/
def isalpha (c : Char) : Bool :=
  ('a' ≤ c && c ≤ 'z') || ('A' ≤ c && c ≤ 'Z')

/-- The C-locale `isdigit`. -/
def isdigit (c : Char) : Bool :=
  '0' ≤ c && c ≤ '9'

/-- The C-locale `isalnum`. -/
def isalnum (c : Char) : Bool :=
  isalpha c || isdigit c

/-- The lexer state: the unread remainder `source[pos ..]` and the current line and column. -/
structure Lexer where
  rest : List Char
  line : Nat
  column : Nat
  deriving DecidableEq, Repr

/-- The line counter after `get()` has returned `c`. -/
def nextLine (c : Char) (line : Nat) : Nat :=
  if c = '\n' then line + 1 else line

/-- The column counter after `get()` has returned `c`. -/
def nextColumn (c : Char) (column : Nat) : Nat :=
  if c = '\n' then 1 else column + 1

/-- Model of `Lexer::peek`. -/
def Lexer.peek (L : Lexer) : Char :=
  match L.rest with
  | [] => '\x00'
  | c :: _ => c

/-- The character `source[pos + 1]`, as read by the comment test. -/
def Lexer.peekNext (L : Lexer) : Char :=
  match L.rest with
  | _ :: c :: _ => c
  | _ => '\x00'

/-- Model of `Lexer::get`. -/
def Lexer.get (L : Lexer) : Char × Lexer :=
  match L.rest with
  | [] => ('\x00', L)
  | c :: cs => (c, ⟨cs, nextLine c L.line, nextColumn c L.column⟩)

/-- Model of `Lexer::skipWhitespace`: `while (isspace(peek())) get();`. -/
def skipWhitespace : List Char → Nat → Nat → Lexer
  | [], l, k => ⟨[], l, k⟩
  | c :: cs, l, k =>
    if isspace c then skipWhitespace cs (nextLine c l) (nextColumn c k) else ⟨c :: cs, l, k⟩

/-- The header loop: `while (c != '\0' && c != '\n') { value += get(); c = peek(); }`. -/
def readHeader : List Char → Nat → Nat → String → String × Lexer
  | [], l, k, v => (v, ⟨[], l, k⟩)
  | c :: cs, l, k, v =>
    if c ≠ '\x00' ∧ c ≠ '\n' then readHeader cs (nextLine c l) (nextColumn c k) (v.push c)
    else (v, ⟨c :: cs, l, k⟩)

/-- The comment loop: `while (peek() != '\n' && peek() != '\0') get();`. -/
def skipComment : List Char → Nat → Nat → Lexer
  | [], l, k => ⟨[], l, k⟩
  | c :: cs, l, k =>
    if c ≠ '\n' ∧ c ≠ '\x00' then skipComment cs (nextLine c l) (nextColumn c k)
    else ⟨c :: cs, l, k⟩

/-- The identifier loop: `while (isalnum(peek()) || peek() == '_') value += get();`. -/
def readIdentifier : List Char → Nat → Nat → String → String × Lexer
  | [], l, k, v => (v, ⟨[], l, k⟩)
  | c :: cs, l, k, v =>
    if isalnum c || c = '_' then readIdentifier cs (nextLine c l) (nextColumn c k) (v.push c)
    else (v, ⟨c :: cs, l, k⟩)

/-- The number loop: digits and points are taken, and a second point ends the literal. -/
def readNumber : List Char → Nat → Nat → String → Bool → String × Bool × Lexer
  | [], l, k, v, d => (v, d, ⟨[], l, k⟩)
  | c :: cs, l, k, v, d =>
    if isdigit c || c = '.' then
      if c = '.' then
        if d then (v, d, ⟨c :: cs, l, k⟩)
        else readNumber cs (nextLine c l) (nextColumn c k) (v.push c) true
      else readNumber cs (nextLine c l) (nextColumn c k) (v.push c) d
    else (v, d, ⟨c :: cs, l, k⟩)

/-- The string loop: up to the closing quote or the end of the source; a backslash is dropped and
the character after it is copied (at the end of the source `get()` returns `'\0'`). -/
def readString : List Char → Nat → Nat → String → String × Lexer
  | [], l, k, v => (v, ⟨[], l, k⟩)
  | c :: cs, l, k, v =>
    if c ≠ '\x22' ∧ c ≠ '\x00' then
      if c = '\x5c' then
        match cs with
        | [] => (v.push '\x00', ⟨[], nextLine c l, nextColumn c k⟩)
        | n :: cs' =>
          readString cs' (nextLine n (nextLine c l)) (nextColumn n (nextColumn c k)) (v.push n)
      else readString cs (nextLine c l) (nextColumn c k) (v.push c)
    else (v, ⟨c :: cs, l, k⟩)

/-- A two-character operator test: after `get()` of the first character, `peek() == second`
selects the long token (and consumes the second character), else the short one. -/
def twoChar (L : Lexer) (second : Char) (long short : Token) : Token × Lexer :=
  let L1 := L.get.2
  if L1.peek = second then (long, L1.get.2) else (short, L1)

/-- Model of `Lexer::nextToken`. The fuel bounds the number of comments skipped by the recursive
call. -/
def nextTokenFuel : Nat → Lexer → Option (Token × Lexer)
  | 0, _ => none
  | fuel + 1, L0 =>
    let L := skipWhitespace L0.rest L0.line L0.column
    let startLine := L.line
    let startCol := L.column
    let c := L.peek
    if c = '\x00' then some (⟨.EndOfFile, "", startLine, startCol⟩, L)
    else if c = '#' then
      let r := readHeader L.rest L.line L.column ""
      some (⟨.Header, r.1, startLine, startCol⟩, r.2)
    else if c = '/' ∧ L.peekNext = '/' then
      nextTokenFuel fuel (skipComment L.rest L.line L.column)
    else if isalpha c || c = '_' then
      let r := readIdentifier L.rest L.line L.column ""
      if r.1 = "true" ∨ r.1 = "false" then some (⟨.Keyword, r.1, startLine, startCol⟩, r.2)
      else if r.1 ∈ KEYWORDS then some (⟨.Keyword, r.1, startLine, startCol⟩, r.2)
      else some (⟨.Identifier, r.1, startLine, startCol⟩, r.2)
    else if isdigit c then
      let r := readNumber L.rest L.line L.column "" false
      some (⟨if r.2.1 then .Decimal else .Number, r.1, startLine, startCol⟩, r.2.2)
    else if c = '\x22' then
      let L1 := L.get.2
      let r := readString L1.rest L1.line L1.column ""
      some (⟨.String, r.1, startLine, startCol⟩, r.2.get.2)
    else if c = '=' then
      some (twoChar L '=' ⟨.Operator, "==", startLine, startCol⟩ ⟨.Assign, "=", startLine, startCol⟩)
    else if c = '!' then
      some (twoChar L '=' ⟨.Operator, "!=", startLine, startCol⟩ ⟨.Operator, "!", startLine, startCol⟩)
    else if c = '<' then
      some (twoChar L '=' ⟨.Operator, "<=", startLine, startCol⟩ ⟨.Operator, "<", startLine, startCol⟩)
    else if c = '>' then
      some (twoChar L '=' ⟨.Operator, ">=", startLine, startCol⟩ ⟨.Operator, ">", startLine, startCol⟩)
    else if c = '&' then
      some (twoChar L '&' ⟨.Operator, "&&", startLine, startCol⟩ ⟨.Unknown, "&", startLine, startCol⟩)
    else if c = '|' then
      some (twoChar L '|' ⟨.Operator, "||", startLine, startCol⟩ ⟨.Unknown, "|", startLine, startCol⟩)
    else if c = '+' ∨ c = '-' ∨ c = '*' ∨ c = '/' then
      some (⟨.Operator, String.singleton c, startLine, startCol⟩, L.get.2)
    else if c = '(' then some (⟨.LParen, "(", startLine, startCol⟩, L.get.2)
    else if c = ')' then some (⟨.RParen, ")", startLine, startCol⟩, L.get.2)
    else if c = '[' then some (⟨.LBracket, "[", startLine, startCol⟩, L.get.2)
    else if c = ']' then some (⟨.RBracket, "]", startLine, startCol⟩, L.get.2)
    else if c = '\x7b' then some (⟨.LBrace, "\x7b", startLine, startCol⟩, L.get.2)
    else if c = '\x7d' then some (⟨.RBrace, "\x7d", startLine, startCol⟩, L.get.2)
    else if c = ',' then some (⟨.Comma, ",", startLine, startCol⟩, L.get.2)
    else some (⟨.Unknown, String.singleton c, startLine, startCol⟩, L.get.2)

/-- Model of `Lexer::nextToken` with fuel for as many comments as the remainder can hold. -/
def nextToken (L : Lexer) : Option (Token × Lexer) :=
  nextTokenFuel (L.rest.length + 1) L

/-- The `do … while (token.type != EndOfFile)` loop of `Lexer::tokenize`. -/
def tokenizeLoop : Nat → Lexer → Option (List Token)
  | 0, _ => none
  | fuel + 1, L =>
    match nextToken L with
    | none => none
    | some (token, L1) =>
      if token.type = .EndOfFile then some [token]
      else (tokenizeLoop fuel L1).map (token :: ·)

/-- Model of `Lexer::tokenize` on a lexer constructed from `src` (`pos = 0`, `line = 1`,
`column = 1`). -/
def tokenize (src : String) : Option (List Token) :=
  tokenizeLoop (src.length + 1) ⟨src.data, 1, 1⟩

/-- The characters that start a token form of their own, or are skipped or end the input. -/
def startsToken (c : Char) : Bool :=
  c = '\x00' || isspace c || c = '#' || isalpha c || c = '_' || isdigit c || c = '\x22'
    || c = '=' || c = '!' || c = '<' || c = '>' || c = '&' || c = '|'
    || c = '+' || c = '-' || c = '*' || c = '/'
    || c = '(' || c = ')' || c = '[' || c = ']' || c = '\x7b' || c = '\x7d' || c = ','

/-! ## Results -/

/-- The outcome of a run of the parser or the interpreter: a value, a C++ exception, or
exhaustion of the fuel of the model. An exception of the parser is its message (`ε = String`); an
exception of the interpreter is its message together with the state of the interpreter at the
`throw` (no code runs between a `throw` and the end of the process). -/
inductive Res (ε α : Type) where
  | ok (a : α)
  | error (e : ε)
  | outOfFuel
  deriving DecidableEq, Repr

/-- Sequencing: an exception or fuel exhaustion of the first computation ends the run. -/
def Res.bind {ε α β : Type} (r : Res ε α) (k : α → Res ε β) : Res ε β :=
  match r with
  | .ok a => k a
  | .error e => .error e
  | .outOfFuel => .outOfFuel

instance {ε : Type} : Monad (Res ε) where
  pure := Res.ok
  bind := Res.bind

/-- The result with its exception transformed by `g` and its value by `f`. -/
def Res.map {ε ε' α β : Type} (g : ε → ε') (f : α → β) (r : Res ε α) : Res ε' β :=
  match r with
  | .ok a => .ok (f a)
  | .error e => .error (g e)
  | .outOfFuel => .outOfFuel

/-! ## Syntax trees (`src/ast.h`)

`ExprNode` holds the expression classes and `ASTNode` the statement classes. `PointerNode` and
`SwitchNode` are never built by the parser and are left out. A `ForNode` keeps the loop variable
(the name of the `IdentifierNode` in `init`), the start expression (`condition`) and the end
expression, possibly wrapped in a `"step"` binary node (`increment`). -/

inductive ExprNode where
  | BinaryExprNode (op : String) (left right : ExprNode)
  | IdentifierNode (name : String)
  | NumberNode (value : String)
  | StringNode (value : String)
  | ArrayNode (elements : List ExprNode)
  | IndexNode (array index : ExprNode)
  | CallNode (func : String) (args : List ExprNode)
  deriving Repr

mutual

/-- Decidable equality of `ExprNode`. -/
def ExprNode.decEq : (a b : ExprNode) → Decidable (a = b)
  | .BinaryExprNode op1 left1 right1, .BinaryExprNode op2 left2 right2 =>
    if h0 : op1 = op2 then
      match ExprNode.decEq left1 left2 with
      | isFalse h1 => isFalse (by intro e; cases e; exact h1 rfl)
      | isTrue h1 =>
        match ExprNode.decEq right1 right2 with
        | isFalse h2 => isFalse (by intro e; cases e; exact h2 rfl)
        | isTrue h2 =>
          isTrue (by rw [h0, h1, h2])
    else isFalse (by intro e; cases e; exact h0 rfl)
  | .IdentifierNode name1, .IdentifierNode name2 =>
    if h0 : name1 = name2 then
      isTrue (by rw [h0])
    else isFalse (by intro e; cases e; exact h0 rfl)
  | .NumberNode value1, .NumberNode value2 =>
    if h0 : value1 = value2 then
      isTrue (by rw [h0])
    else isFalse (by intro e; cases e; exact h0 rfl)
  | .StringNode value1, .StringNode value2 =>
    if h0 : value1 = value2 then
      isTrue (by rw [h0])
    else isFalse (by intro e; cases e; exact h0 rfl)
  | .ArrayNode elements1, .ArrayNode elements2 =>
    match ExprNode.decEqList elements1 elements2 with
    | isFalse h0 => isFalse (by intro e; cases e; exact h0 rfl)
    | isTrue h0 =>
      isTrue (by rw [h0])
  | .IndexNode array1 index1, .IndexNode array2 index2 =>
    match ExprNode.decEq array1 array2 with
    | isFalse h0 => isFalse (by intro e; cases e; exact h0 rfl)
    | isTrue h0 =>
      match ExprNode.decEq index1 index2 with
      | isFalse h1 => isFalse (by intro e; cases e; exact h1 rfl)
      | isTrue h1 =>
        isTrue (by rw [h0, h1])
  | .CallNode func1 args1, .CallNode func2 args2 =>
    if h0 : func1 = func2 then
      match ExprNode.decEqList args1 args2 with
      | isFalse h1 => isFalse (by intro e; cases e; exact h1 rfl)
      | isTrue h1 =>
        isTrue (by rw [h0, h1])
    else isFalse (by intro e; cases e; exact h0 rfl)
  | .BinaryExprNode _ _ _, .IdentifierNode _ => isFalse (by intro e; cases e)
  | .BinaryExprNode _ _ _, .NumberNode _ => isFalse (by intro e; cases e)
  | .BinaryExprNode _ _ _, .StringNode _ => isFalse (by intro e; cases e)
  | .BinaryExprNode _ _ _, .ArrayNode _ => isFalse (by intro e; cases e)
  | .BinaryExprNode _ _ _, .IndexNode _ _ => isFalse (by intro e; cases e)
  | .BinaryExprNode _ _ _, .CallNode _ _ => isFalse (by intro e; cases e)
  | .IdentifierNode _, .BinaryExprNode _ _ _ => isFalse (by intro e; cases e)
  | .IdentifierNode _, .NumberNode _ => isFalse (by intro e; cases e)
  | .IdentifierNode _, .StringNode _ => isFalse (by intro e; cases e)
  | .IdentifierNode _, .ArrayNode _ => isFalse (by intro e; cases e)
  | .IdentifierNode _, .IndexNode _ _ => isFalse (by intro e; cases e)
  | .IdentifierNode _, .CallNode _ _ => isFalse (by intro e; cases e)
  | .NumberNode _, .BinaryExprNode _ _ _ => isFalse (by intro e; cases e)
  | .NumberNode _, .IdentifierNode _ => isFalse (by intro e; cases e)
  | .NumberNode _, .StringNode _ => isFalse (by intro e; cases e)
  | .NumberNode _, .ArrayNode _ => isFalse (by intro e; cases e)
  | .NumberNode _, .IndexNode _ _ => isFalse (by intro e; cases e)
  | .NumberNode _, .CallNode _ _ => isFalse (by intro e; cases e)
  | .StringNode _, .BinaryExprNode _ _ _ => isFalse (by intro e; cases e)
  | .StringNode _, .IdentifierNode _ => isFalse (by intro e; cases e)
  | .StringNode _, .NumberNode _ => isFalse (by intro e; cases e)
  | .StringNode _, .ArrayNode _ => isFalse (by intro e; cases e)
  | .StringNode _, .IndexNode _ _ => isFalse (by intro e; cases e)
  | .StringNode _, .CallNode _ _ => isFalse (by intro e; cases e)
  | .ArrayNode _, .BinaryExprNode _ _ _ => isFalse (by intro e; cases e)
  | .ArrayNode _, .IdentifierNode _ => isFalse (by intro e; cases e)
  | .ArrayNode _, .NumberNode _ => isFalse (by intro e; cases e)
  | .ArrayNode _, .StringNode _ => isFalse (by intro e; cases e)
  | .ArrayNode _, .IndexNode _ _ => isFalse (by intro e; cases e)
  | .ArrayNode _, .CallNode _ _ => isFalse (by intro e; cases e)
  | .IndexNode _ _, .BinaryExprNode _ _ _ => isFalse (by intro e; cases e)
  | .IndexNode _ _, .IdentifierNode _ => isFalse (by intro e; cases e)
  | .IndexNode _ _, .NumberNode _ => isFalse (by intro e; cases e)
  | .IndexNode _ _, .StringNode _ => isFalse (by intro e; cases e)
  | .IndexNode _ _, .ArrayNode _ => isFalse (by intro e; cases e)
  | .IndexNode _ _, .CallNode _ _ => isFalse (by intro e; cases e)
  | .CallNode _ _, .BinaryExprNode _ _ _ => isFalse (by intro e; cases e)
  | .CallNode _ _, .IdentifierNode _ => isFalse (by intro e; cases e)
  | .CallNode _ _, .NumberNode _ => isFalse (by intro e; cases e)
  | .CallNode _ _, .StringNode _ => isFalse (by intro e; cases e)
  | .CallNode _ _, .ArrayNode _ => isFalse (by intro e; cases e)
  | .CallNode _ _, .IndexNode _ _ => isFalse (by intro e; cases e)

/-- Decidable equality of lists of `ExprNode`. -/
def ExprNode.decEqList : (as bs : List ExprNode) → Decidable (as = bs)
  | [], [] => isTrue rfl
  | [], _ :: _ => isFalse (by intro e; cases e)
  | _ :: _, [] => isFalse (by intro e; cases e)
  | a :: as, b :: bs =>
    match ExprNode.decEq a b, ExprNode.decEqList as bs with
    | isTrue h1, isTrue h2 => isTrue (by rw [h1, h2])
    | isFalse h1, _ => isFalse (by intro e; cases e; exact h1 rfl)
    | _, isFalse h2 => isFalse (by intro e; cases e; exact h2 rfl)

end

instance : DecidableEq ExprNode := ExprNode.decEq

inductive ASTNode where
  | VarDeclNode (name : String) (value : ExprNode)
  | PrintNode (expr : ExprNode)
  | IfNode (condition : ExprNode) (thenBranch elseBranch : List ASTNode)
  | WhileNode (condition : ExprNode) (body : List ASTNode)
  | ForNode (init : String) (condition increment : ExprNode) (body : List ASTNode)
  | FunctionNode (name : String) (params : List String) (body : List ASTNode)
  | ReturnNode (value : ExprNode)
  deriving Repr

mutual

/-- Decidable equality of `ASTNode`. -/
def ASTNode.decEq : (a b : ASTNode) → Decidable (a = b)
  | .VarDeclNode name1 value1, .VarDeclNode name2 value2 =>
    if h0 : name1 = name2 then
      if h1 : value1 = value2 then
        isTrue (by rw [h0, h1])
      else isFalse (by intro e; cases e; exact h1 rfl)
    else isFalse (by intro e; cases e; exact h0 rfl)
  | .PrintNode expr1, .PrintNode expr2 =>
    if h0 : expr1 = expr2 then
      isTrue (by rw [h0])
    else isFalse (by intro e; cases e; exact h0 rfl)
  | .IfNode condition1 thenBranch1 elseBranch1, .IfNode condition2 thenBranch2 elseBranch2 =>
    if h0 : condition1 = condition2 then
      match ASTNode.decEqList thenBranch1 thenBranch2 with
      | isFalse h1 => isFalse (by intro e; cases e; exact h1 rfl)
      | isTrue h1 =>
        match ASTNode.decEqList elseBranch1 elseBranch2 with
        | isFalse h2 => isFalse (by intro e; cases e; exact h2 rfl)
        | isTrue h2 =>
          isTrue (by rw [h0, h1, h2])
    else isFalse (by intro e; cases e; exact h0 rfl)
  | .WhileNode condition1 body1, .WhileNode condition2 body2 =>
    if h0 : condition1 = condition2 then
      match ASTNode.decEqList body1 body2 with
      | isFalse h1 => isFalse (by intro e; cases e; exact h1 rfl)
      | isTrue h1 =>
        isTrue (by rw [h0, h1])
    else isFalse (by intro e; cases e; exact h0 rfl)
  | .ForNode init1 condition1 increment1 body1, .ForNode init2 condition2 increment2 body2 =>
    if h0 : init1 = init2 then
      if h1 : condition1 = condition2 then
        if h2 : increment1 = increment2 then
          match ASTNode.decEqList body1 body2 with
          | isFalse h3 => isFalse (by intro e; cases e; exact h3 rfl)
          | isTrue h3 =>
            isTrue (by rw [h0, h1, h2, h3])
        else isFalse (by intro e; cases e; exact h2 rfl)
      else isFalse (by intro e; cases e; exact h1 rfl)
    else isFalse (by intro e; cases e; exact h0 rfl)
  | .FunctionNode name1 params1 body1, .FunctionNode name2 params2 body2 =>
    if h0 : name1 = name2 then
      if h1 : params1 = params2 then
        match ASTNode.decEqList body1 body2 with
        | isFalse h2 => isFalse (by intro e; cases e; exact h2 rfl)
        | isTrue h2 =>
          isTrue (by rw [h0, h1, h2])
      else isFalse (by intro e; cases e; exact h1 rfl)
    else isFalse (by intro e; cases e; exact h0 rfl)
  | .ReturnNode value1, .ReturnNode value2 =>
    if h0 : value1 = value2 then
      isTrue (by rw [h0])
    else isFalse (by intro e; cases e; exact h0 rfl)
  | .VarDeclNode _ _, .PrintNode _ => isFalse (by intro e; cases e)
  | .VarDeclNode _ _, .IfNode _ _ _ => isFalse (by intro e; cases e)
  | .VarDeclNode _ _, .WhileNode _ _ => isFalse (by intro e; cases e)
  | .VarDeclNode _ _, .ForNode _ _ _ _ => isFalse (by intro e; cases e)
  | .VarDeclNode _ _, .FunctionNode _ _ _ => isFalse (by intro e; cases e)
  | .VarDeclNode _ _, .ReturnNode _ => isFalse (by intro e; cases e)
  | .PrintNode _, .VarDeclNode _ _ => isFalse (by intro e; cases e)
  | .PrintNode _, .IfNode _ _ _ => isFalse (by intro e; cases e)
  | .PrintNode _, .WhileNode _ _ => isFalse (by intro e; cases e)
  | .PrintNode _, .ForNode _ _ _ _ => isFalse (by intro e; cases e)
  | .PrintNode _, .FunctionNode _ _ _ => isFalse (by intro e; cases e)
  | .PrintNode _, .ReturnNode _ => isFalse (by intro e; cases e)
  | .IfNode _ _ _, .VarDeclNode _ _ => isFalse (by intro e; cases e)
  | .IfNode _ _ _, .PrintNode _ => isFalse (by intro e; cases e)
  | .IfNode _ _ _, .WhileNode _ _ => isFalse (by intro e; cases e)
  | .IfNode _ _ _, .ForNode _ _ _ _ => isFalse (by intro e; cases e)
  | .IfNode _ _ _, .FunctionNode _ _ _ => isFalse (by intro e; cases e)
  | .IfNode _ _ _, .ReturnNode _ => isFalse (by intro e; cases e)
  | .WhileNode _ _, .VarDeclNode _ _ => isFalse (by intro e; cases e)
  | .WhileNode _ _, .PrintNode _ => isFalse (by intro e; cases e)
  | .WhileNode _ _, .IfNode _ _ _ => isFalse (by intro e; cases e)
  | .WhileNode _ _, .ForNode _ _ _ _ => isFalse (by intro e; cases e)
  | .WhileNode _ _, .FunctionNode _ _ _ => isFalse (by intro e; cases e)
  | .WhileNode _ _, .ReturnNode _ => isFalse (by intro e; cases e)
  | .ForNode _ _ _ _, .VarDeclNode _ _ => isFalse (by intro e; cases e)
  | .ForNode _ _ _ _, .PrintNode _ => isFalse (by intro e; cases e)
  | .ForNode _ _ _ _, .IfNode _ _ _ => isFalse (by intro e; cases e)
  | .ForNode _ _ _ _, .WhileNode _ _ => isFalse (by intro e; cases e)
  | .ForNode _ _ _ _, .FunctionNode _ _ _ => isFalse (by intro e; cases e)
  | .ForNode _ _ _ _, .ReturnNode _ => isFalse (by intro e; cases e)
  | .FunctionNode _ _ _, .VarDeclNode _ _ => isFalse (by intro e; cases e)
  | .FunctionNode _ _ _, .PrintNode _ => isFalse (by intro e; cases e)
  | .FunctionNode _ _ _, .IfNode _ _ _ => isFalse (by intro e; cases e)
  | .FunctionNode _ _ _, .WhileNode _ _ => isFalse (by intro e; cases e)
  | .FunctionNode _ _ _, .ForNode _ _ _ _ => isFalse (by intro e; cases e)
  | .FunctionNode _ _ _, .ReturnNode _ => isFalse (by intro e; cases e)
  | .ReturnNode _, .VarDeclNode _ _ => isFalse (by intro e; cases e)
  | .ReturnNode _, .PrintNode _ => isFalse (by intro e; cases e)
  | .ReturnNode _, .IfNode _ _ _ => isFalse (by intro e; cases e)
  | .ReturnNode _, .WhileNode _ _ => isFalse (by intro e; cases e)
  | .ReturnNode _, .ForNode _ _ _ _ => isFalse (by intro e; cases e)
  | .ReturnNode _, .FunctionNode _ _ _ => isFalse (by intro e; cases e)

/-- Decidable equality of lists of `ASTNode`. -/
def ASTNode.decEqList : (as bs : List ASTNode) → Decidable (as = bs)
  | [], [] => isTrue rfl
  | [], _ :: _ => isFalse (by intro e; cases e)
  | _ :: _, [] => isFalse (by intro e; cases e)
  | a :: as, b :: bs =>
    match ASTNode.decEq a b, ASTNode.decEqList as bs with
    | isTrue h1, isTrue h2 => isTrue (by rw [h1, h2])
    | isFalse h1, _ => isFalse (by intro e; cases e; exact h1 rfl)
    | _, isFalse h2 => isFalse (by intro e; cases e; exact h2 rfl)

end

instance : DecidableEq ASTNode := ASTNode.decEq

/-! ## Parser (`src/parser.cpp`)

The parser state is the token vector `toks` (never modified) and the index `pos`; every parsing
function returns the new `pos` together with its result. -/

/-- Model of `Parser::peek(offset)`. On an empty vector `tokens.back()` is undefined in C++; the
model reads an end-of-file token there. -/
def peek (toks : List Token) (pos : Nat) (offset : Nat := 0) : Token :=
  let idx := pos + offset
  if idx ≥ toks.length then toks.getLastD ⟨.EndOfFile, "", 0, 0⟩
  else toks.getD idx ⟨.EndOfFile, "", 0, 0⟩

/-- Model of `Parser::isAtEnd`. -/
def isAtEnd (toks : List Token) (pos : Nat) : Bool :=
  pos ≥ toks.length || (peek toks pos).type = .EndOfFile

/-- Model of `Parser::advance`, as a position update (its returned token is never used). -/
def advance (toks : List Token) (pos : Nat) : Nat :=
  if isAtEnd toks pos then pos else pos + 1

/-- The test `peek().type == TokenType::Keyword && peek().value == kw`. -/
def isKeyword (toks : List Token) (pos : Nat) (kw : String) : Bool :=
  (peek toks pos).type = .Keyword && (peek toks pos).value = kw

/-- The test `peek().type == TokenType::Operator && peek().value == ";"`. -/
def isSemicolon (toks : List Token) (pos : Nat) : Bool :=
  (peek toks pos).type = .Operator && (peek toks pos).value = ";"

/-- Model of `getPrecedence`. -/
def getPrecedence (op : String) : Nat :=
  if op = "||" then 1
  else if op = "&&" then 2
  else if op = "==" ∨ op = "!=" then 3
  else if op = "<" ∨ op = ">" ∨ op = "<=" ∨ op = ">=" then 4
  else if op = "+" ∨ op = "-" then 5
  else if op = "*" ∨ op = "/" then 6
  else 0

mutual

/-- Model of `Parser::parseExpression`. -/
def parseExpression : Nat → List Token → Nat → Res String (ExprNode × Nat)
  | 0, _, _ => .outOfFuel
  | fuel + 1, toks, pos => parseBinary fuel toks pos 0

/-- Model of `Parser::parseBinary(precedence)`. -/
def parseBinary : Nat → List Token → Nat → Nat → Res String (ExprNode × Nat)
  | 0, _, _, _ => .outOfFuel
  | fuel + 1, toks, pos, precedence => do
    let (left, pos) ← parsePrimary fuel toks pos
    parseBinaryLoop fuel toks pos precedence left

/-- The operator loop of `parseBinary`. -/
def parseBinaryLoop : Nat → List Token → Nat → Nat → ExprNode
    → Res String (ExprNode × Nat)
  | 0, _, _, _, _ => .outOfFuel
  | fuel + 1, toks, pos, precedence, left =>
    if (peek toks pos).type = .Operator
        ∧ getPrecedence (peek toks pos).value ≥ precedence then do
      let op := (peek toks pos).value
      let opPrec := getPrecedence op
      let pos := advance toks pos
      let (right, pos) ← parseBinary fuel toks pos (opPrec + 1)
      parseBinaryLoop fuel toks pos precedence (.BinaryExprNode op left right)
    else .ok (left, pos)

/-- Model of `Parser::parsePrimary`. -/
def parsePrimary : Nat → List Token → Nat → Res String (ExprNode × Nat)
  | 0, _, _ => .outOfFuel
  | fuel + 1, toks, pos =>
    if (peek toks pos).type = .LBracket then do
      let pos := advance toks pos
      let (elements, pos) ←
        if (peek toks pos).type ≠ .RBracket then parseElements fuel toks pos []
        else .ok ([], pos)
      if (peek toks pos).type ≠ .RBracket then .error "Expected ']' in array literal"
      else .ok (.ArrayNode elements, advance toks pos)
    else if isKeyword toks pos "len" then do
      let func := (peek toks pos).value
      let pos := advance toks pos
      if (peek toks pos).type ≠ .LParen then .error "Expected '(' after function name"
      else do
        let pos := advance toks pos
        let (args, pos) ←
          if (peek toks pos).type ≠ .RParen then do
            let (arg, pos) ← parseExpression fuel toks pos
            .ok ([arg], pos)
          else .ok ([], pos)
        if (peek toks pos).type ≠ .RParen then .error "Expected ')' after function argument"
        else .ok (.CallNode func args, advance toks pos)
    else do
      let (expr, pos) ← primary fuel toks pos
      parseIndexLoop fuel toks pos expr

/-- The element loop of an array literal. -/
def parseElements : Nat → List Token → Nat → List ExprNode
    → Res String (List ExprNode × Nat)
  | 0, _, _, _ => .outOfFuel
  | fuel + 1, toks, pos, elements => do
    let (element, pos) ← parseExpression fuel toks pos
    if (peek toks pos).type = .Comma then
      parseElements fuel toks (advance toks pos) (elements ++ [element])
    else .ok (elements ++ [element], pos)

/-- The lambda `primary` of `parsePrimary`. -/
def primary : Nat → List Token → Nat → Res String (ExprNode × Nat)
  | 0, _, _ => .outOfFuel
  | fuel + 1, toks, pos =>
    if (peek toks pos).type = .Identifier then
      .ok (.IdentifierNode (peek toks pos).value, advance toks pos)
    else if (peek toks pos).type = .Number ∨ (peek toks pos).type = .Decimal then
      .ok (.NumberNode (peek toks pos).value, advance toks pos)
    else if (peek toks pos).type = .String then
      .ok (.StringNode (peek toks pos).value, advance toks pos)
    else if (peek toks pos).type = .LParen then do
      let pos := advance toks pos
      let (expr, pos) ← parseExpression fuel toks pos
      if (peek toks pos).type ≠ .RParen then .error "Expected ')' after expression"
      else .ok (expr, advance toks pos)
    else if (peek toks pos).type = .Keyword
        ∧ ((peek toks pos).value = "true" ∨ (peek toks pos).value = "false") then
      .ok (.NumberNode (if (peek toks pos).value = "true" then "1" else "0"), advance toks pos)
    else .error "Unexpected token in expression"

/-- The postfix index loop of `parsePrimary`. -/
def parseIndexLoop : Nat → List Token → Nat → ExprNode → Res String (ExprNode × Nat)
  | 0, _, _, _ => .outOfFuel
  | fuel + 1, toks, pos, expr =>
    if (peek toks pos).type = .LBracket then do
      let pos := advance toks pos
      let (index, pos) ← parseExpression fuel toks pos
      if (peek toks pos).type ≠ .RBracket then .error "Expected ']' after array index"
      else parseIndexLoop fuel toks (advance toks pos) (.IndexNode expr index)
    else .ok (expr, pos)

end

/-- Model of `Parser::parseVarDecl`. -/
def parseVarDecl (fuel : Nat) (toks : List Token) (pos : Nat) : Res String (ASTNode × Nat) :=
  let pos := advance toks pos
  if (peek toks pos).type ≠ .Identifier then .error "Expected identifier after 'let'"
  else
    let name := (peek toks pos).value
    let pos := advance toks pos
    if (peek toks pos).type ≠ .Assign then .error "Expected '=' after identifier"
    else do
      let pos := advance toks pos
      let (value, pos) ← parseExpression fuel toks pos
      if (peek toks pos).type ≠ .Operator ∨ (peek toks pos).value ≠ ";" then
        if (peek toks pos).type ≠ .EndOfFile then .ok (.VarDeclNode name value, advance toks pos)
        else .ok (.VarDeclNode name value, pos)
      else .ok (.VarDeclNode name value, advance toks pos)

/-- Model of `Parser::parsePrint`. -/
def parsePrint (fuel : Nat) (toks : List Token) (pos : Nat) : Res String (ASTNode × Nat) :=
  let pos := advance toks pos
  if (peek toks pos).type ≠ .LParen then .error "Expected '(' after 'print'"
  else do
    let pos := advance toks pos
    let (expr, pos) ← parseExpression fuel toks pos
    if (peek toks pos).type ≠ .RParen then .error "Expected ')' after print expression"
    else
      let pos := advance toks pos
      if isSemicolon toks pos then .ok (.PrintNode expr, advance toks pos)
      else .ok (.PrintNode expr, pos)

/-- Model of `Parser::parseReturn`. -/
def parseReturn (fuel : Nat) (toks : List Token) (pos : Nat) : Res String (ASTNode × Nat) := do
  let pos := advance toks pos
  let (value, pos) ← parseExpression fuel toks pos
  if isSemicolon toks pos then .ok (.ReturnNode value, advance toks pos)
  else .error "Expected ';' after return statement"

/-- The parameter loop of `parseFunction`. -/
def parseParams : Nat → List Token → Nat → List String → Res String (List String × Nat)
  | 0, _, _, _ => .outOfFuel
  | fuel + 1, toks, pos, params =>
    if (peek toks pos).type ≠ .Identifier then .error "Expected parameter name"
    else
      let params := params ++ [(peek toks pos).value]
      let pos := advance toks pos
      if (peek toks pos).type = .Comma then parseParams fuel toks (advance toks pos) params
      else .ok (params, pos)

/-- What a block loop does after a statement: nothing (if and else blocks), consume a `;` if there
is one (function bodies), or require a `;` and throw `msg` without it (while and for blocks). -/
inductive Terminator where
  | none
  | optional
  | required (msg : String)
  deriving DecidableEq, Repr

mutual

/-- Model of `Parser::parseStatement`; `none` is the null pointer returned for an unrecognised
statement. -/
def parseStatement : Nat → List Token → Nat → Res String (Option ASTNode × Nat)
  | 0, _, _ => .outOfFuel
  | fuel + 1, toks, pos =>
    if isKeyword toks pos "func" then do
      let (node, pos) ← parseFunction fuel toks pos
      .ok (some node, pos)
    else if isKeyword toks pos "return" then do
      let (node, pos) ← parseReturn fuel toks pos
      .ok (some node, pos)
    else if isKeyword toks pos "let" then do
      let (node, pos) ← parseVarDecl fuel toks pos
      .ok (some node, pos)
    else if (peek toks pos).type = .Identifier ∧ (peek toks pos 1).type = .Assign then do
      let name := (peek toks pos).value
      let pos := advance toks pos
      let pos := advance toks pos
      let (value, pos) ← parseExpression fuel toks pos
      if isSemicolon toks pos then .ok (some (.VarDeclNode name value), advance toks pos)
      else .error "Expected ';' after assignment"
    else if (peek toks pos).type = .Identifier ∧ (peek toks pos 1).type = .LBracket then do
      let (arrayExpr, pos) ← parsePrimary fuel toks pos
      if (peek toks pos).type = .Assign then do
        let pos := advance toks pos
        let (value, pos) ← parseExpression fuel toks pos
        if isSemicolon toks pos then
          .ok (some (.VarDeclNode "" (.BinaryExprNode "[]=" arrayExpr value)), advance toks pos)
        else .error "Expected ';' after array assignment"
      else parseStatementTail fuel toks pos
    else parseStatementTail fuel toks pos

/-- The last four tests of `parseStatement` (print, if, while, for), reached also after the
array-assignment test has consumed an index expression that no `=` follows. -/
def parseStatementTail : Nat → List Token → Nat → Res String (Option ASTNode × Nat)
  | 0, _, _ => .outOfFuel
  | fuel + 1, toks, pos =>
    if isKeyword toks pos "print" then do
      let (node, pos) ← parsePrint fuel toks pos
      .ok (some node, pos)
    else if isKeyword toks pos "if" then do
      let (node, pos) ← parseIf fuel toks pos
      .ok (some node, pos)
    else if isKeyword toks pos "while" then do
      let (node, pos) ← parseWhile fuel toks pos
      .ok (some node, pos)
    else if isKeyword toks pos "for" then do
      let (node, pos) ← parseFor fuel toks pos
      .ok (some node, pos)
    else .ok (none, pos)

/-- A block loop `while (!isAtEnd() && peek().type != RBrace)`, with the terminator rule of the
enclosing statement. -/
def parseBlock : Nat → List Token → Nat → Terminator → List ASTNode
    → Res String (List ASTNode × Nat)
  | 0, _, _, _, _ => .outOfFuel
  | fuel + 1, toks, pos, term, body =>
    if !isAtEnd toks pos ∧ (peek toks pos).type ≠ .RBrace then do
      let (stmt, pos) ← parseStatement fuel toks pos
      match stmt with
      | some node =>
        match term with
        | .none => parseBlock fuel toks pos term (body ++ [node])
        | .optional =>
          if isSemicolon toks pos then parseBlock fuel toks (advance toks pos) term (body ++ [node])
          else parseBlock fuel toks pos term (body ++ [node])
        | .required msg =>
          if isSemicolon toks pos then parseBlock fuel toks (advance toks pos) term (body ++ [node])
          else .error msg
      | none => parseBlock fuel toks (advance toks pos) term body
    else .ok (body, pos)

/-- Model of `Parser::parseIf`. -/
def parseIf : Nat → List Token → Nat → Res String (ASTNode × Nat)
  | 0, _, _ => .outOfFuel
  | fuel + 1, toks, pos =>
    let pos := advance toks pos
    if (peek toks pos).type ≠ .LParen then .error "Expected '(' after 'if'"
    else do
      let pos := advance toks pos
      let (condition, pos) ← parseExpression fuel toks pos
      if (peek toks pos).type ≠ .RParen then .error "Expected ')' after if condition"
      else
        let pos := advance toks pos
        if (peek toks pos).type ≠ .LBrace then .error "Expected '\x7b' after if condition"
        else do
          let pos := advance toks pos
          let (thenBranch, pos) ← parseBlock fuel toks pos .none []
          if (peek toks pos).type ≠ .RBrace then .error "Expected '\x7d' after if block"
          else
            let pos := advance toks pos
            if !isAtEnd toks pos ∧ isKeyword toks pos "else" then
              let pos := advance toks pos
              if (peek toks pos).type ≠ .LBrace then .error "Expected '\x7b' after else"
              else do
                let pos := advance toks pos
                let (elseBranch, pos) ← parseBlock fuel toks pos .none []
                if (peek toks pos).type ≠ .RBrace then .error "Expected '\x7d' after else block"
                else .ok (.IfNode condition thenBranch elseBranch, advance toks pos)
            else .ok (.IfNode condition thenBranch [], pos)

/-- Model of `Parser::parseWhile`. -/
def parseWhile : Nat → List Token → Nat → Res String (ASTNode × Nat)
  | 0, _, _ => .outOfFuel
  | fuel + 1, toks, pos =>
    let pos := advance toks pos
    if (peek toks pos).type ≠ .LParen then .error "Expected '(' after 'while'"
    else do
      let pos := advance toks pos
      let (condition, pos) ← parseExpression fuel toks pos
      if (peek toks pos).type ≠ .RParen then .error "Expected ')' after while condition"
      else
        let pos := advance toks pos
        if (peek toks pos).type ≠ .LBrace then .error "Expected '\x7b' after while condition"
        else do
          let pos := advance toks pos
          let (body, pos) ← parseBlock fuel toks pos
            (.required "Expected ';' after statement in while block") []
          if (peek toks pos).type ≠ .RBrace then .error "Expected '\x7d' after while block"
          else .ok (.WhileNode condition body, advance toks pos)

/-- Model of `Parser::parseFor`. -/
def parseFor : Nat → List Token → Nat → Res String (ASTNode × Nat)
  | 0, _, _ => .outOfFuel
  | fuel + 1, toks, pos =>
    let pos := advance toks pos
    if (peek toks pos).type ≠ .Identifier then .error "Expected loop variable after 'for'"
    else
      let varName := (peek toks pos).value
      let pos := advance toks pos
      if (peek toks pos).type ≠ .Assign then .error "Expected '=' after loop variable"
      else do
        let pos := advance toks pos
        let (startExpr, pos) ← parseExpression fuel toks pos
        if (peek toks pos).type ≠ .Keyword ∨ (peek toks pos).value ≠ "to" then
          .error "Expected 'to' after for loop start value"
        else do
          let pos := advance toks pos
          let (endExpr, pos) ← parseExpression fuel toks pos
          let (stepExpr, pos) ←
            if isKeyword toks pos "step" then do
              let (stepExpr, pos) ← parseExpression fuel toks (advance toks pos)
              .ok (some stepExpr, pos)
            else .ok (none, pos)
          if (peek toks pos).type ≠ .LBrace then .error "Expected '\x7b' after for loop header"
          else do
            let pos := advance toks pos
            let (body, pos) ← parseBlock fuel toks pos
              (.required "Expected ';' after statement in for block") []
            if (peek toks pos).type ≠ .RBrace then .error "Expected '\x7d' after for block"
            else
              let increment :=
                match stepExpr with
                | some stepExpr => ExprNode.BinaryExprNode "step" endExpr stepExpr
                | none => endExpr
              .ok (.ForNode varName startExpr increment body, advance toks pos)

/-- Model of `Parser::parseFunction`. -/
def parseFunction : Nat → List Token → Nat → Res String (ASTNode × Nat)
  | 0, _, _ => .outOfFuel
  | fuel + 1, toks, pos =>
    let pos := advance toks pos
    if (peek toks pos).type ≠ .Identifier then .error "Expected function name after 'func'"
    else
      let name := (peek toks pos).value
      let pos := advance toks pos
      if (peek toks pos).type ≠ .LParen then .error "Expected '(' after function name"
      else do
        let pos := advance toks pos
        let (params, pos) ←
          if (peek toks pos).type ≠ .RParen then parseParams fuel toks pos []
          else .ok ([], pos)
        if (peek toks pos).type ≠ .RParen then .error "Expected ')' after parameter list"
        else
          let pos := advance toks pos
          if (peek toks pos).type ≠ .LBrace then .error "Expected '\x7b' after parameter list"
          else do
            let pos := advance toks pos
            let (body, pos) ← parseBlock fuel toks pos .optional []
            if (peek toks pos).type ≠ .RBrace then .error "Expected '\x7d' after function body"
            else .ok (.FunctionNode name params body, advance toks pos)

end

/-- The loop of `Parser::parse`: an unrecognised statement is skipped by one token. -/
def parseLoop : Nat → List Token → Nat → List ASTNode → Res String (List ASTNode)
  | 0, _, _, _ => .outOfFuel
  | fuel + 1, toks, pos, nodes =>
    if !isAtEnd toks pos then do
      let (stmt, pos) ← parseStatement fuel toks pos
      match stmt with
      | some node => parseLoop fuel toks pos (nodes ++ [node])
      | none => parseLoop fuel toks (advance toks pos) nodes
    else .ok nodes

/-- Model of `Parser::parse` on a parser constructed from `toks` (`pos = 0`). -/
def parse (fuel : Nat) (toks : List Token) : Res String (List ASTNode) :=
  parseLoop fuel toks 0 []

/-- Lexer followed by parser, as in `main`. -/
def parseSource (fuel : Nat) (src : String) : Res String (List ASTNode) :=
  match tokenize src with
  | some toks => parse fuel toks
  | none => .outOfFuel

/-! ## Runtime values (`src/interpreter.h`)

`Value = std::variant<double, std::string, std::vector<std::shared_ptr<Value>>>`. No code path
writes through a `shared_ptr<Value>`: element assignment replaces the pointer held in a slot of the
vector of the assigned variable. The contents of a cell therefore never change, and an array is
modelled by the list of the values its cells point to. -/

inductive Value where
  | num (d : ℚ)
  | str (s : String)
  | arr (cells : List Value)
  deriving Repr

mutual

/-- Decidable equality of values. -/
def Value.decEq : (a b : Value) → Decidable (a = b)
  | .num x, .num y =>
    if h : x = y then isTrue (by rw [h]) else isFalse (by intro e; cases e; exact h rfl)
  | .str x, .str y =>
    if h : x = y then isTrue (by rw [h]) else isFalse (by intro e; cases e; exact h rfl)
  | .arr xs, .arr ys =>
    match Value.decEqList xs ys with
    | isTrue h => isTrue (by rw [h])
    | isFalse h => isFalse (by intro e; cases e; exact h rfl)
  | .num _, .str _ => isFalse (by intro e; cases e)
  | .num _, .arr _ => isFalse (by intro e; cases e)
  | .str _, .num _ => isFalse (by intro e; cases e)
  | .str _, .arr _ => isFalse (by intro e; cases e)
  | .arr _, .num _ => isFalse (by intro e; cases e)
  | .arr _, .str _ => isFalse (by intro e; cases e)

/-- Decidable equality of lists of values. -/
def Value.decEqList : (as bs : List Value) → Decidable (as = bs)
  | [], [] => isTrue rfl
  | [], _ :: _ => isFalse (by intro e; cases e)
  | _ :: _, [] => isFalse (by intro e; cases e)
  | a :: as, b :: bs =>
    match Value.decEq a b, Value.decEqList as bs with
    | isTrue h1, isTrue h2 => isTrue (by rw [h1, h2])
    | isFalse h1, _ => isFalse (by intro e; cases e; exact h1 rfl)
    | _, isFalse h2 => isFalse (by intro e; cases e; exact h2 rfl)

end

instance : DecidableEq Value := Value.decEq

/-! ## Number conversions of the C++ library

`std::stod`, `std::to_string(double)` and `operator<<(std::ostream&, double)` are library code.
They are modelled on rationals: decimal text with optional sign, fraction and exponent for
`stod` (hexadecimal text, `inf` and `nan` are not covered and count as invalid), `%f` for
`to_string` and `%g` with precision 6 for the stream. -/

/-- The digits at the front of `cs`: their value, their number, and what follows them. -/
def readDigits : List Char → Nat → Nat → Nat × Nat × List Char
  | [], acc, n => (acc, n, [])
  | c :: cs, acc, n =>
    if isdigit c then readDigits cs (acc * 10 + (c.toNat - 48)) (n + 1) else (acc, n, c :: cs)

/-- The exponent part `e[+-]digits` at the front of `cs`, or `0` when there is none. -/
def readExponent (cs : List Char) : Int :=
  match cs with
  | [] => 0
  | c :: r =>
    if c = 'e' ∨ c = 'E' then
      match r with
      | '-' :: r1 => let e := readDigits r1 0 0; if e.2.1 = 0 then 0 else - (e.1 : Int)
      | '+' :: r1 => let e := readDigits r1 0 0; if e.2.1 = 0 then 0 else (e.1 : Int)
      | _ => let e := readDigits r 0 0; if e.2.1 = 0 then 0 else (e.1 : Int)
    else 0

/-- Model of `std::stod`: `none` stands for the exception `std::invalid_argument`. -/
def stod (s : String) : Option ℚ :=
  let cs := s.data.dropWhile isspace
  let signed : Bool × List Char :=
    match cs with
    | '-' :: r => (true, r)
    | '+' :: r => (false, r)
    | _ => (false, cs)
  let ip := readDigits signed.2 0 0
  let fp : Nat × Nat × List Char :=
    match ip.2.2 with
    | '.' :: r => readDigits r 0 0
    | _ => (0, 0, ip.2.2)
  if ip.2.1 + fp.2.1 = 0 then none
  else
    let mantissa : ℚ := (ip.1 : ℚ) + (fp.1 : ℚ) / ((10 ^ fp.2.1 : Nat) : ℚ)
    let e := readExponent fp.2.2
    let scaled : ℚ :=
      if e ≥ 0 then mantissa * ((10 ^ e.toNat : Nat) : ℚ)
      else mantissa / ((10 ^ (-e).toNat : Nat) : ℚ)
    some (if signed.1 then -scaled else scaled)

/-- The quotient `n / d` rounded to the nearest integer, ties to even. -/
def roundDiv (n d : Nat) : Nat :=
  let q := n / d
  let r := n % d
  if 2 * r < d then q else if 2 * r > d then q + 1 else if q % 2 = 0 then q else q + 1

/-- Model of `std::to_string(double)`: the format `%f`, six digits after the point. -/
def to_string (x : ℚ) : String :=
  let scaled := roundDiv (x.num.natAbs * 10 ^ 6) x.den
  let fs := Nat.repr (scaled % 10 ^ 6)
  (if x < 0 then "-" else "") ++ Nat.repr (scaled / 10 ^ 6) ++ "."
    ++ String.mk (List.replicate (6 - fs.length) '0') ++ fs

/-- The list without its trailing zero digits. -/
def stripZeros (ds : List Char) : List Char :=
  (ds.reverse.dropWhile (· = '0')).reverse

/-- Model of `std::cout << double` with the default format: `%g` with precision 6. -/
def coutDouble (x : ℚ) : String :=
  if x = 0 then "0"
  else
    let n := x.num.natAbs
    let d := x.den
    let X0 : Int := ((Nat.repr n).length : Int) - ((Nat.repr d).length : Int)
    let ge : Bool := if X0 ≥ 0 then n ≥ 10 ^ X0.toNat * d else n * 10 ^ (-X0).toNat ≥ d
    let X1 : Int := if ge then X0 else X0 - 1
    let m0 : Nat :=
      if X1 ≤ 5 then roundDiv (n * 10 ^ (5 - X1).toNat) d
      else roundDiv n (d * 10 ^ (X1 - 5).toNat)
    let m : Nat := if m0 ≥ 1000000 then 100000 else m0
    let X : Int := if m0 ≥ 1000000 then X1 + 1 else X1
    let digits := (Nat.repr m).data
    let sign := if x < 0 then "-" else ""
    if -4 ≤ X ∧ X < 6 then
      if X ≥ 0 then
        let fp := stripZeros (digits.drop (X.toNat + 1))
        sign ++ String.mk (digits.take (X.toNat + 1))
          ++ (if fp = [] then "" else "." ++ String.mk fp)
      else
        sign ++ "0." ++ String.mk (stripZeros (List.replicate ((-X).toNat - 1) '0' ++ digits))
    else
      let fp := stripZeros (digits.drop 1)
      let es := Nat.repr X.natAbs
      sign ++ String.mk (digits.take 1) ++ (if fp = [] then "" else "." ++ String.mk fp)
        ++ "e" ++ (if X < 0 then "-" else "+") ++ (if es.length < 2 then "0" ++ es else es)

/-- Model of `static_cast<int>(double)`: truncation toward zero (values outside the range of
`int`, where the cast is undefined, are truncated as well). -/
def toInt (x : ℚ) : Int :=
  Int.tdiv x.num x.den

/-! ## Interpreter (`src/interpreter.cpp`)

A `std::unordered_map` with string keys is an association list with unique keys; the call stack
is a list whose head is `callStack.back()`.

In `variables[name] = eval(...)` the right operand is evaluated first (the C++17 order).

An element assignment takes the reference `vec` to the vector stored in `variables` under the
array name and uses it twice later: in `vec.size()` after `eval` of the index (the test
`i < 0 || i >= (int)vec.size()` reads it only when `i < 0` is false), and in `vec[i] = ...`
after `eval` of the value. `Interpreter::popScope` copy-assigns `variables`
(`variables = callStack.back()`), which destroys the elements the map held, so a reference taken
before it dangles afterwards and a use of it has no defined behaviour. The field `restores`
counts these copy assignments (it is no field of the class): a reference into `variables` is
valid exactly as long as `restores` has the value it had when the reference was taken. Nothing
else that runs during an evaluation invalidates the reference: `variables[name] = v` may rehash
the map, which keeps references to elements, `pushScope` copies the map, and a nested element
assignment writes a slot of the vector. While the reference is valid the vector it denotes is
the one bound to the array name in the current environment. A use of the dangling reference is
the outcome `danglingReference`, which stands for undefined behaviour and is no exception of
the program. -/

/-- Model of `map.find(key)`. -/
def find {α : Type} (m : List (String × α)) (key : String) : Option α :=
  match m with
  | [] => none
  | (k, v) :: rest => if k = key then some v else find rest key

/-- Model of `map[key] = v`: overwrite the binding of `key` or add one. -/
def assign {α : Type} (m : List (String × α)) (key : String) (v : α) : List (String × α) :=
  match m with
  | [] => [(key, v)]
  | (k, w) :: rest => if k = key then (k, v) :: rest else (k, w) :: assign rest key v

/-- The fields of `Interpreter` (`vars` is the field `variables`, a reserved word here), the
lines written to `std::cout`, and the number of copy assignments to `variables` so far
(`restores`, which tells whether a reference into `variables` is still valid). -/
structure Interpreter where
  vars : List (String × Value)
  functions : List (String × List String × List ASTNode)
  callStack : List (List (String × Value))
  hasReturn : Bool
  returnValue : Value
  out : List String
  restores : Nat
  deriving DecidableEq

/-- An exception of the interpreter: the message, and the state of the interpreter when it is
thrown. -/
abbrev Fault : Type := String × Interpreter

/-- The message of the outcome that stands for undefined behaviour: the reference `vec` of an
element assignment is used after `popScope` has copy-assigned `variables`. No `throw` of the
source has this message. -/
def danglingReference : String :=
  "undefined behaviour: the reference vec into variables is used after popScope"

/-- An exception without a state, thrown in the state `st`. -/
def Res.inState {α : Type} (r : Res String α) (st : Interpreter) : Res Fault α :=
  r.map (fun msg => (msg, st)) id

/-- Model of `Interpreter::Interpreter()`: empty maps, `hasReturn = false`, `returnValue` the
default variant (the number `0`). -/
def Interpreter.init : Interpreter :=
  ⟨[], [], [], false, .num 0, [], 0⟩

/-- Model of `Interpreter::pushScope`. -/
def Interpreter.pushScope (st : Interpreter) : Interpreter :=
  { st with callStack := st.vars :: st.callStack }

/-- Model of `Interpreter::popScope` (undefined on an empty call stack, where the model changes
nothing): `variables = callStack.back()` is a copy assignment to `variables`. -/
def Interpreter.popScope (st : Interpreter) : Interpreter :=
  match st.callStack with
  | [] => st
  | top :: below =>
    { st with vars := top, callStack := below, restores := st.restores + 1 }

/-- Model of `Interpreter::setVar`. -/
def Interpreter.setVar (st : Interpreter) (name : String) (value : Value) : Interpreter :=
  { st with vars := assign st.vars name value }

/-- The truth value of a condition: a number is true iff nonzero, a string iff nonempty, and no
branch handles an array. -/
def truthy (v : Value) : Bool :=
  match v with
  | .num d => d ≠ 0
  | .str s => s ≠ ""
  | .arr _ => false

/-- The number `1.0` or `0.0` of a comparison. -/
def boolNum (b : Bool) : Value :=
  .num (if b then 1 else 0)

/-- Model of `std::get<double>(v)`; a value of another shape throws `std::bad_variant_access`. -/
def getDouble (v : Value) : Res String ℚ :=
  match v with
  | .num d => .ok d
  | _ => .error "bad_variant_access"

/-- The operator table of `Interpreter::eval` for a binary node whose operands have the values
`left` and `right` (every operator but `"[]="`). -/
def binaryOp (op : String) (left right : Value) : Res String Value :=
  let invalid : Res String Value := .error ("Invalid operands for operator: " ++ op)
  if op = "+" then
    match left, right with
    | .num l, .num r => .ok (.num (l + r))
    | .str l, .str r => .ok (.str (l ++ r))
    | .str l, .num r => .ok (.str (l ++ to_string r))
    | .num l, .str r => .ok (.str (to_string l ++ r))
    | _, _ => invalid
  else if op = "-" then
    match left, right with
    | .num l, .num r => .ok (.num (l - r))
    | _, _ => invalid
  else if op = "*" then
    match left, right with
    | .num l, .num r => .ok (.num (l * r))
    | _, _ => invalid
  else if op = "/" then
    match left, right with
    | .num l, .num r => .ok (.num (l / r))
    | _, _ => invalid
  else if op = "==" then
    match left, right with
    | .num l, .num r => .ok (boolNum (l = r))
    | .str l, .str r => .ok (boolNum (l = r))
    | _, _ => invalid
  else if op = "!=" then
    match left, right with
    | .num l, .num r => .ok (boolNum (l ≠ r))
    | .str l, .str r => .ok (boolNum (l ≠ r))
    | _, _ => invalid
  else if op = "<" then
    match left, right with
    | .num l, .num r => .ok (boolNum (l < r))
    | _, _ => invalid
  else if op = ">" then
    match left, right with
    | .num l, .num r => .ok (boolNum (l > r))
    | _, _ => invalid
  else if op = "<=" then
    match left, right with
    | .num l, .num r => .ok (boolNum (l ≤ r))
    | _, _ => invalid
  else if op = ">=" then
    match left, right with
    | .num l, .num r => .ok (boolNum (l ≥ r))
    | _, _ => invalid
  else if op = "&&" then .ok (boolNum (truthy left && truthy right))
  else if op = "||" then .ok (boolNum (truthy left || truthy right))
  else invalid

/-- The cells of the array bound to `name`, if `name` is bound to an array. -/
def findArray (vars : List (String × Value)) (name : String) : Option (List Value) :=
  match find vars name with
  | some (.arr cells) => some cells
  | _ => none

/-- The write `vec[i] = std::make_shared<Value>(v)` through the reference `vec` to the array
bound to `name`: slot `i` of that array is replaced. -/
def setCell (vars : List (String × Value)) (name : String) (i : Nat) (v : Value) :
    List (String × Value) :=
  match findArray vars name with
  | some cells => assign vars name (.arr (cells.set i v))
  | none => vars

/-- The loop condition `(step > 0 ? i <= end : i >= end)` of a `ForNode`. -/
def forCondition (i limit step : ℚ) : Bool :=
  if step > 0 then i ≤ limit else i ≥ limit

mutual

/-- Model of `Interpreter::eval`. -/
def eval : Nat → ExprNode → Interpreter → Res Fault (Value × Interpreter)
  | 0, _, _ => .outOfFuel
  | fuel + 1, expr, st =>
    match expr with
    | .CallNode func args =>
      match find st.functions func with
      | some (params, body) =>
        if args.length ≠ params.length then
          .error ("Argument count mismatch in call to " ++ func, st)
        else do
          let st ← bindParams fuel params args st.pushScope
          let st ← execBody fuel body { st with hasReturn := false }
          let ret := if st.hasReturn then st.returnValue else .num 0
          .ok (ret, { st with hasReturn := false }.popScope)
      | none =>
        if func = "len" then
          match args with
          | [arg] => do
            let (arrVal, st) ← eval fuel arg st
            match arrVal with
            | .arr cells => .ok (.num (cells.length : ℚ), st)
            | _ => .error ("len() expects array", st)
          | _ => .error ("len() takes one argument", st)
        else .error ("Unknown function: " ++ func, st)
    | .NumberNode value =>
      match stod value with
      | some d => .ok (.num d, st)
      | none => .error ("stod", st)
    | .StringNode value => .ok (.str value, st)
    | .IdentifierNode name =>
      match find st.vars name with
      | some v => .ok (v, st)
      | none => .error ("Undefined variable: " ++ name, st)
    | .ArrayNode elements => do
      let (cells, st) ← evalElements fuel elements [] st
      .ok (.arr cells, st)
    | .IndexNode array index => do
      let (arrVal, st) ← eval fuel array st
      let (idxVal, st) ← eval fuel index st
      match arrVal with
      | .arr vec => do
        let d ← (getDouble idxVal).inState st
        let i := toInt d
        if i < 0 ∨ i ≥ (vec.length : Int) then .error ("Array index out of bounds", st)
        else
          match vec.get? i.toNat with
          | some v => .ok (v, st)
          | none => .error ("Array index out of bounds", st)
      | _ => .error ("Indexing non-array", st)
    | .BinaryExprNode op left right =>
      if op = "[]=" then
        match left with
        | .IndexNode (.IdentifierNode name) index =>
          match find st.vars name with
          | none => .error ("Undefined array: " ++ name, st)
          | some (.arr vec0) => do
            let (idxVal, st1) ← eval fuel index st
            let d ← (getDouble idxVal).inState st1
            let i := toInt d
            if i < 0 then .error ("Array index out of bounds", st1)
            else if st1.restores ≠ st.restores then .error (danglingReference, st1)
            else
              let vec := (findArray st1.vars name).getD vec0
              if i ≥ (vec.length : Int) then .error ("Array index out of bounds", st1)
              else do
                let (v, st2) ← eval fuel right st1
                if st2.restores ≠ st.restores then .error (danglingReference, st2)
                else .ok (v, { st2 with vars := setCell st2.vars name i.toNat v })
          | some _ => .error ("Variable is not an array", st)
        | .IndexNode _ _ => .error ("Array assignment must be to a variable", st)
        | _ => .error ("Invalid array assignment", st)
      else do
        let (l, st) ← eval fuel left st
        let (r, st) ← eval fuel right st
        let v ← (binaryOp op l r).inState st
        .ok (v, st)

/-- The element loop of an array literal: `elements.push_back(make_shared<Value>(eval(el)))`. -/
def evalElements : Nat → List ExprNode → List Value → Interpreter
    → Res Fault (List Value × Interpreter)
  | 0, _, _, _ => .outOfFuel
  | fuel + 1, elements, cells, st =>
    match elements with
    | [] => .ok (cells, st)
    | el :: rest => do
      let (v, st) ← eval fuel el st
      evalElements fuel rest (cells ++ [v]) st

/-- The parameter loop of a call: `setVar(func->params[i], eval(call->args[i].get()))`. -/
def bindParams : Nat → List String → List ExprNode → Interpreter → Res Fault Interpreter
  | 0, _, _, _ => .outOfFuel
  | fuel + 1, params, args, st =>
    match params, args with
    | p :: ps, a :: as => do
      let (v, st) ← eval fuel a st
      bindParams fuel ps as (st.setVar p v)
    | _, _ => .ok st

/-- The body loop of a call: `exec(stmt); if (hasReturn) break;`. -/
def execBody : Nat → List ASTNode → Interpreter → Res Fault Interpreter
  | 0, _, _ => .outOfFuel
  | fuel + 1, body, st =>
    match body with
    | [] => .ok st
    | stmt :: rest => do
      let st ← exec fuel stmt st
      if st.hasReturn then .ok st else execBody fuel rest st

/-- The loop `for (const auto& stmt : stmts) exec(stmt.get());` of a branch of an if statement
and of the body of a while or for statement. -/
def execAll : Nat → List ASTNode → Interpreter → Res Fault Interpreter
  | 0, _, _ => .outOfFuel
  | fuel + 1, stmts, st =>
    match stmts with
    | [] => .ok st
    | stmt :: rest => do
      let st ← exec fuel stmt st
      execAll fuel rest st

/-- The loop of a `WhileNode`. -/
def whileLoop : Nat → ExprNode → List ASTNode → Interpreter → Res Fault Interpreter
  | 0, _, _, _ => .outOfFuel
  | fuel + 1, condition, body, st => do
    let (cond, st) ← eval fuel condition st
    if !truthy cond then .ok st
    else do
      let st ← execAll fuel body st
      if st.hasReturn then .ok st else whileLoop fuel condition body st

/-- The loop `for (double i = …; (step > 0 ? i <= end : i >= end); i += step)` of a `ForNode`. -/
def forLoop : Nat → String → ℚ → ℚ → ℚ → List ASTNode → Interpreter
    → Res Fault Interpreter
  | 0, _, _, _, _, _, _ => .outOfFuel
  | fuel + 1, varName, i, limit, step, body, st =>
    if forCondition i limit step then do
      let st ← execAll fuel body { st with vars := assign st.vars varName (.num i) }
      if st.hasReturn then .ok st else forLoop fuel varName (i + step) limit step body st
    else .ok st

/-- Model of `Interpreter::exec`. -/
def exec : Nat → ASTNode → Interpreter → Res Fault Interpreter
  | 0, _, _ => .outOfFuel
  | fuel + 1, node, st =>
    match node with
    | .VarDeclNode name value => do
      let (v, st) ← eval fuel value st
      .ok { st with vars := assign st.vars name v }
    | .PrintNode expr => do
      let (value, st) ← eval fuel expr st
      match value with
      | .num d => .ok { st with out := st.out ++ [coutDouble d] }
      | .str s => .ok { st with out := st.out ++ [s] }
      | .arr _ => .ok st
    | .IfNode condition thenBranch elseBranch => do
      let (cond, st) ← eval fuel condition st
      if truthy cond then execAll fuel thenBranch st else execAll fuel elseBranch st
    | .WhileNode condition body => whileLoop fuel condition body st
    | .ForNode varName condition increment body => do
      let (startVal, st) ← eval fuel condition st
      let start ← (getDouble startVal).inState st
      match increment with
      | .BinaryExprNode op left right =>
        if op = "step" then do
          let (endVal, st) ← eval fuel left st
          let limit ← (getDouble endVal).inState st
          let (stepVal, st) ← eval fuel right st
          let step ← (getDouble stepVal).inState st
          forLoop fuel varName start limit step body st
        else forLoop fuel varName start 0 1 body st
      | _ => do
        let (endVal, st) ← eval fuel increment st
        let limit ← (getDouble endVal).inState st
        forLoop fuel varName start limit 1 body st
    | .FunctionNode _ _ _ => .ok st
    | .ReturnNode value => do
      let (v, st) ← eval fuel value { st with hasReturn := true }
      .ok { st with returnValue := v }

end

/-- The first loop of `Interpreter::interpret`: `functions[func->name] = func`. -/
def registerFunctions (ast : List ASTNode) (st : Interpreter) : Interpreter :=
  match ast with
  | [] => st
  | .FunctionNode name params body :: rest =>
    registerFunctions rest { st with functions := assign st.functions name (params, body) }
  | _ :: rest => registerFunctions rest st

/-- The second loop of `Interpreter::interpret`: function declarations are skipped, every other
node is executed, and a pending return ends the loop. -/
def interpretLoop (fuel : Nat) (ast : List ASTNode) (st : Interpreter) :
    Res Fault Interpreter :=
  match ast with
  | [] => .ok st
  | .FunctionNode _ _ _ :: rest => interpretLoop fuel rest st
  | node :: rest => do
    let st ← exec fuel node st
    if st.hasReturn then .ok st else interpretLoop fuel rest st

/-- Model of `Interpreter::interpret`. -/
def interpret (fuel : Nat) (ast : List ASTNode) (st : Interpreter) : Res Fault Interpreter :=
  interpretLoop fuel ast (registerFunctions ast st)

/-- The lines a program writes to `std::cout` when run on a fresh interpreter; a run that ends
in an exception gives the message and the lines written before it. -/
def runProgram (fuel : Nat) (ast : List ASTNode) : Res (String × List String) (List String) :=
  (interpret fuel ast Interpreter.init).map (fun e => (e.1, e.2.out)) (fun st => st.out)

/-- The pipeline of `main`: tokenize, parse, interpret; the result is the output. An exception of
the parser comes with no output. -/
def runSource (fuel : Nat) (src : String) : Res (String × List String) (List String) :=
  ((parseSource fuel src).map (fun msg => (msg, [])) id).bind (runProgram fuel)

/-! ## Auxiliary notions for the claims -/

mutual

/-- No element-assignment node `"[]="` occurs in the expression. -/
def noAssign : ExprNode → Bool
  | .BinaryExprNode op left right => op ≠ "[]=" && noAssign left && noAssign right
  | .IdentifierNode _ => true
  | .NumberNode _ => true
  | .StringNode _ => true
  | .ArrayNode elements => noAssignList elements
  | .IndexNode array index => noAssign array && noAssign index
  | .CallNode _ args => noAssignList args

/-- No element-assignment node occurs in any expression of the list. -/
def noAssignList : List ExprNode → Bool
  | [] => true
  | e :: es => noAssign e && noAssignList es

end

/-- The length of the array bound to `name`, if `name` is bound to an array. -/
def arrayLength (vars : List (String × Value)) (name : String) : Option Nat :=
  (findArray vars name).map List.length

/-- What every completed evaluation of an expression keeps: the call stack, the function
registry, the length of every array variable, and the whole environment when the expression is
free of element assignments (`pure = true`). -/
def EvalInv (pure : Bool) (st st' : Interpreter) : Prop :=
  st'.callStack = st.callStack ∧ st'.functions = st.functions
    ∧ (∀ name, arrayLength st'.vars name = arrayLength st.vars name)
    ∧ (pure = true → st'.vars = st.vars)

/-- What every completed execution of a statement keeps: the call stack and the function
registry. -/
def ExecInv (st st' : Interpreter) : Prop :=
  st'.callStack = st.callStack ∧ st'.functions = st.functions

/-- The invariants of the eight mutually recursive functions of the interpreter, at one
amount of fuel. -/
def InterpInv (fuel : Nat) : Prop :=
  (∀ e st v st', eval fuel e st = .ok (v, st') → EvalInv (noAssign e) st st')
  ∧ (∀ es cells st cells' st', evalElements fuel es cells st = .ok (cells', st') →
      EvalInv (noAssignList es) st st')
  ∧ (∀ ps as st st', bindParams fuel ps as st = .ok st' → ExecInv st st')
  ∧ (∀ body st st', execBody fuel body st = .ok st' → ExecInv st st')
  ∧ (∀ stmts st st', execAll fuel stmts st = .ok st' → ExecInv st st')
  ∧ (∀ c body st st', whileLoop fuel c body st = .ok st' → ExecInv st st')
  ∧ (∀ x i l s body st st', forLoop fuel x i l s body st = .ok st' → ExecInv st st')
  ∧ (∀ node st st', exec fuel node st = .ok st' → ExecInv st st')


/-- The node `parseStatement` builds for the element assignment `name[index] = value;`. -/
def elementAssign (name : String) (index value : ExprNode) : ASTNode :=
  .VarDeclNode "" (.BinaryExprNode "[]=" (.IndexNode (.IdentifierNode name) index) value)

/-- The loop `for i = start to limit` (with an optional step expression) around `print(i);`, as
the syntax tree `parseFor` builds for it. -/
def printLoop (start limit : ExprNode) (step : Option ExprNode) : ASTNode :=
  .ForNode "i" start
    (match step with
     | some s => .BinaryExprNode "step" limit s
     | none => limit)
    [.PrintNode (.IdentifierNode "i")]

/-- The program `func g() { return 1; } func f() { return g(); } print(f());` as a syntax tree. -/
def returnCallProgram : List ASTNode :=
  [.FunctionNode "g" [] [.ReturnNode (.NumberNode "1")],
   .FunctionNode "f" [] [.ReturnNode (.CallNode "g" [])],
   .PrintNode (.CallNode "f" [])]

/-- The program `func f() { if (1) { return 1; print("after"); } } print(f());` as a syntax
tree. -/
def returnInBranchProgram : List ASTNode :=
  [.FunctionNode "f" []
     [.IfNode (.NumberNode "1")
        [.ReturnNode (.NumberNode "1"), .PrintNode (.StringNode "after")] []],
   .PrintNode (.CallNode "f" [])]

/-- An interpreter in which `x` is `7` and `func f(x) { let y = 1; let x = 2; return x; }` is
registered. -/
def scopeDemo : Interpreter :=
  { Interpreter.init with
    vars := [("x", .num 7)]
    functions := [("f", (["x"],
      [.VarDeclNode "y" (.NumberNode "1"), .VarDeclNode "x" (.NumberNode "2"),
       .ReturnNode (.IdentifierNode "x")]))] }

/-- The statements `let a=[1,2,3]; let b=a; a[0]=9;` as syntax trees. -/
def aliasProgram : List ASTNode :=
  [.VarDeclNode "a" (.ArrayNode [.NumberNode "1", .NumberNode "2", .NumberNode "3"]),
   .VarDeclNode "b" (.IdentifierNode "a"),
   elementAssign "a" (.NumberNode "0") (.NumberNode "9")]

/-- The value of `expr` in the state a run of `prog` on a fresh interpreter ends in. -/
def valueAfter (fuel : Nat) (prog : List ASTNode) (expr : ExprNode) : Res Fault Value := do
  let st ← interpret fuel prog Interpreter.init
  let (v, _) ← eval fuel expr st
  .ok v

/-- The program `func fact(n) { if (n<=1) { return 1; } return n*fact(n-1); } print(fact(5));`
as a syntax tree. -/
def factorialProgram : List ASTNode :=
  [.FunctionNode "fact" ["n"]
     [.IfNode (.BinaryExprNode "<=" (.IdentifierNode "n") (.NumberNode "1"))
        [.ReturnNode (.NumberNode "1")] [],
      .ReturnNode (.BinaryExprNode "*" (.IdentifierNode "n")
        (.CallNode "fact" [.BinaryExprNode "-" (.IdentifierNode "n") (.NumberNode "1")]))],
   .PrintNode (.CallNode "fact" [.NumberNode "5"])]

/-- The order of results by fuel: with more fuel a run that ran out of fuel may give any result,
and every other result stays. -/
def Res.le {ε α : Type} (a b : Res ε α) : Prop :=
  a = .outOfFuel ∨ a = b

/-- Fuel monotonicity of the eight mutually recursive functions of the interpreter, from one
amount of fuel to the next. -/
def InterpMono (n : Nat) : Prop :=
  (∀ e st, Res.le (eval n e st) (eval (n + 1) e st))
  ∧ (∀ es cells st, Res.le (evalElements n es cells st) (evalElements (n + 1) es cells st))
  ∧ (∀ ps as st, Res.le (bindParams n ps as st) (bindParams (n + 1) ps as st))
  ∧ (∀ body st, Res.le (execBody n body st) (execBody (n + 1) body st))
  ∧ (∀ stmts st, Res.le (execAll n stmts st) (execAll (n + 1) stmts st))
  ∧ (∀ c body st, Res.le (whileLoop n c body st) (whileLoop (n + 1) c body st))
  ∧ (∀ x i l s body st, Res.le (forLoop n x i l s body st) (forLoop (n + 1) x i l s body st))
  ∧ (∀ node st, Res.le (exec n node st) (exec (n + 1) node st))

/-- Fuel monotonicity of the expression parser, from one amount of fuel to the next. -/
def ExprParserMono (n : Nat) : Prop :=
  (∀ toks pos, Res.le (parseExpression n toks pos) (parseExpression (n + 1) toks pos))
  ∧ (∀ toks pos prec, Res.le (parseBinary n toks pos prec) (parseBinary (n + 1) toks pos prec))
  ∧ (∀ toks pos prec left, Res.le (parseBinaryLoop n toks pos prec left)
      (parseBinaryLoop (n + 1) toks pos prec left))
  ∧ (∀ toks pos, Res.le (parsePrimary n toks pos) (parsePrimary (n + 1) toks pos))
  ∧ (∀ toks pos els, Res.le (parseElements n toks pos els) (parseElements (n + 1) toks pos els))
  ∧ (∀ toks pos, Res.le (primary n toks pos) (primary (n + 1) toks pos))
  ∧ (∀ toks pos e, Res.le (parseIndexLoop n toks pos e) (parseIndexLoop (n + 1) toks pos e))

/-- Fuel monotonicity of the statement parser, from one amount of fuel to the next. -/
def StmtParserMono (n : Nat) : Prop :=
  (∀ toks pos, Res.le (parseStatement n toks pos) (parseStatement (n + 1) toks pos))
  ∧ (∀ toks pos, Res.le (parseStatementTail n toks pos) (parseStatementTail (n + 1) toks pos))
  ∧ (∀ toks pos term body, Res.le (parseBlock n toks pos term body)
      (parseBlock (n + 1) toks pos term body))
  ∧ (∀ toks pos, Res.le (parseIf n toks pos) (parseIf (n + 1) toks pos))
  ∧ (∀ toks pos, Res.le (parseWhile n toks pos) (parseWhile (n + 1) toks pos))
  ∧ (∀ toks pos, Res.le (parseFor n toks pos) (parseFor (n + 1) toks pos))
  ∧ (∀ toks pos, Res.le (parseFunction n toks pos) (parseFunction (n + 1) toks pos))

/-- The value is a number (`std::holds_alternative<double>`). -/
def Value.isNum : Value → Bool
  | .num _ => true
  | _ => false

/-- The value is a string (`std::holds_alternative<std::string>`). -/
def Value.isStr : Value → Bool
  | .str _ => true
  | _ => false

/-- The value is an array. -/
def Value.isArr : Value → Bool
  | .arr _ => true
  | _ => false

/-- The exception of the operator table for operands no branch handles, thrown in `st`. -/
def invalidOperands {α : Type} (op : String) (st : Interpreter) : Res Fault α :=
  .error ("Invalid operands for operator: " ++ op, st)

/-- The expression parser on a source text: `tokenize`, then `Parser::parseExpression` from the
first token; the result is the tree together with the texts of the tokens not consumed (the
end-of-file token has the text `""`). -/
def parseExpressionSource (fuel : Nat) (src : String) : Res String (ExprNode × List String) :=
  match tokenize src with
  | some toks =>
    (parseExpression fuel toks 0).map id fun r => (r.1, (toks.drop r.2).map fun t => t.value)
  | none => .outOfFuel

/-- An interpreter in which `a` is bound to the array `[1, 2, 3]`. -/
def arrayDemo : Interpreter :=
  { Interpreter.init with vars := [("a", .arr [.num 1, .num 2, .num 3])] }

/-- The left-nested tree `(((p0 o1 p1) o2 p2) … on pn)` of a first operand and the following
operators with their right operands. -/
def leftNested (p0 : ExprNode) : List (String × ExprNode) → ExprNode
  | [] => p0
  | (op, p) :: rest => leftNested (.BinaryExprNode op p0 p) rest

/-- From the position `pos` up to the position `last` the tokens read `o1 p1 … on pn`: every
`oi` is an operator token of precedence `prec`, and from the token after it `parsePrimary`
(with `fuel`) reads the primary `pi`. -/
def OperandChain (fuel : Nat) (toks : List Token) (prec : Nat) :
    Nat → List (String × ExprNode) → Nat → Prop
  | pos, [], last => pos = last
  | pos, (op, p) :: rest, last =>
    (peek toks pos).type = .Operator ∧ (peek toks pos).value = op ∧ getPrecedence op = prec
      ∧ ∃ next, parsePrimary fuel toks (advance toks pos) = .ok (p, next)
          ∧ OperandChain fuel toks prec next rest last

/-- The tokens of the text `a - b + c`. -/
def chainTokens : List Token :=
  (tokenize "a - b + c").getD []

/-! ## Auxiliary notions for calls, literals and parse errors -/

/-- The declaration of `name` that a program provides: its last top-level function declaration
with that name, as the parameter list and the body. -/
def declared (ast : List ASTNode) (name : String) : Option (List String × List ASTNode) :=
  match ast with
  | [] => none
  | .FunctionNode n params body :: rest =>
    match declared rest name with
    | some d => some d
    | none => if n = name then some (params, body) else none
  | _ :: rest => declared rest name

/-- The program `print(f()); func f() { return 7; }` as a syntax tree: the call precedes the
declaration. -/
def forwardCallProgram : List ASTNode :=
  [.PrintNode (.CallNode "f" []),
   .FunctionNode "f" [] [.ReturnNode (.NumberNode "7")]]

/-- The program `let t = ping(2); func ping(n) { print("ping"); if (n > 0) { let t = pong(n-1); } }
func pong(n) { print("pong"); if (n > 0) { let t = ping(n-1); } }` as a syntax tree. -/
def mutualProgram : List ASTNode :=
  [.VarDeclNode "t" (.CallNode "ping" [.NumberNode "2"]),
   .FunctionNode "ping" ["n"]
     [.PrintNode (.StringNode "ping"),
      .IfNode (.BinaryExprNode ">" (.IdentifierNode "n") (.NumberNode "0"))
        [.VarDeclNode "t" (.CallNode "pong"
          [.BinaryExprNode "-" (.IdentifierNode "n") (.NumberNode "1")])] []],
   .FunctionNode "pong" ["n"]
     [.PrintNode (.StringNode "pong"),
      .IfNode (.BinaryExprNode ">" (.IdentifierNode "n") (.NumberNode "0"))
        [.VarDeclNode "t" (.CallNode "ping"
          [.BinaryExprNode "-" (.IdentifierNode "n") (.NumberNode "1")])] []]]

/-- The program `func f() { return 1; } print(f()); func f() { return 2; }` as a syntax tree:
two declarations of one name. -/
def redeclaredProgram : List ASTNode :=
  [.FunctionNode "f" [] [.ReturnNode (.NumberNode "1")],
   .PrintNode (.CallNode "f" []),
   .FunctionNode "f" [] [.ReturnNode (.NumberNode "2")]]

/-- The text of a string literal whose body (the characters between the quotes) is `body`, in
the words of the spec: each backslash is removed and the character after it is copied
unchanged. -/
def unescape : List Char → List Char
  | [] => []
  | c :: rest =>
    if c = '\x5c' then
      match rest with
      | [] => []
      | n :: rest' => n :: unescape rest'
    else c :: unescape rest

/-- The body of a closed string literal: outside an escape there is no double quote and no
end-of-input character `'\0'`, and no backslash is left without a character after it. -/
def closedBody : List Char → Bool
  | [] => true
  | c :: rest =>
    if c = '\x5c' then
      match rest with
      | [] => false
      | _ :: rest' => closedBody rest'
    else c ≠ '\x22' && c ≠ '\x00' && closedBody rest

/-- A property of the value of a result, if the result is a value (partial correctness). -/
def Res.Sat {ε α : Type} (r : Res ε α) (P : α → Prop) : Prop :=
  ∀ a, r = .ok a → P a

mutual

/-- Every call node of the expression has the callee name `len`. -/
def callsOnlyLen : ExprNode → Bool
  | .BinaryExprNode _ left right => callsOnlyLen left && callsOnlyLen right
  | .IdentifierNode _ => true
  | .NumberNode _ => true
  | .StringNode _ => true
  | .ArrayNode elements => callsOnlyLenList elements
  | .IndexNode array index => callsOnlyLen array && callsOnlyLen index
  | .CallNode func args => func = "len" && callsOnlyLenList args

/-- Every call node of the expressions of the list has the callee name `len`. -/
def callsOnlyLenList : List ExprNode → Bool
  | [] => true
  | e :: es => callsOnlyLen e && callsOnlyLenList es

end

mutual

/-- Every call node of the statement has the callee name `len`. -/
def stmtCallsOnlyLen : ASTNode → Bool
  | .VarDeclNode _ value => callsOnlyLen value
  | .PrintNode expr => callsOnlyLen expr
  | .IfNode condition thenBranch elseBranch =>
    callsOnlyLen condition && stmtsCallOnlyLen thenBranch && stmtsCallOnlyLen elseBranch
  | .WhileNode condition body => callsOnlyLen condition && stmtsCallOnlyLen body
  | .ForNode _ condition increment body =>
    callsOnlyLen condition && callsOnlyLen increment && stmtsCallOnlyLen body
  | .FunctionNode _ _ body => stmtsCallOnlyLen body
  | .ReturnNode value => callsOnlyLen value

/-- Every call node of the statements of the list has the callee name `len`. -/
def stmtsCallOnlyLen : List ASTNode → Bool
  | [] => true
  | s :: ss => stmtCallsOnlyLen s && stmtsCallOnlyLen ss

end

/-- The invariant of the expression parser for the callee names, at one amount of fuel. -/
def ExprCallInv (n : Nat) : Prop :=
  (∀ toks pos, (parseExpression n toks pos).Sat fun r => callsOnlyLen r.1 = true)
  ∧ (∀ toks pos prec, (parseBinary n toks pos prec).Sat fun r => callsOnlyLen r.1 = true)
  ∧ (∀ toks pos prec left, callsOnlyLen left = true →
      (parseBinaryLoop n toks pos prec left).Sat fun r => callsOnlyLen r.1 = true)
  ∧ (∀ toks pos, (parsePrimary n toks pos).Sat fun r => callsOnlyLen r.1 = true)
  ∧ (∀ toks pos els, callsOnlyLenList els = true →
      (parseElements n toks pos els).Sat fun r => callsOnlyLenList r.1 = true)
  ∧ (∀ toks pos, (primary n toks pos).Sat fun r => callsOnlyLen r.1 = true)
  ∧ (∀ toks pos e, callsOnlyLen e = true →
      (parseIndexLoop n toks pos e).Sat fun r => callsOnlyLen r.1 = true)

/-- The invariant of the statement parser for the callee names, at one amount of fuel. -/
def StmtCallInv (n : Nat) : Prop :=
  (∀ toks pos, (parseStatement n toks pos).Sat fun r =>
      ∀ node, r.1 = some node → stmtCallsOnlyLen node = true)
  ∧ (∀ toks pos, (parseStatementTail n toks pos).Sat fun r =>
      ∀ node, r.1 = some node → stmtCallsOnlyLen node = true)
  ∧ (∀ toks pos term body, stmtsCallOnlyLen body = true →
      (parseBlock n toks pos term body).Sat fun r => stmtsCallOnlyLen r.1 = true)
  ∧ (∀ toks pos, (parseIf n toks pos).Sat fun r => stmtCallsOnlyLen r.1 = true)
  ∧ (∀ toks pos, (parseWhile n toks pos).Sat fun r => stmtCallsOnlyLen r.1 = true)
  ∧ (∀ toks pos, (parseFor n toks pos).Sat fun r => stmtCallsOnlyLen r.1 = true)
  ∧ (∀ toks pos, (parseFunction n toks pos).Sat fun r => stmtCallsOnlyLen r.1 = true)

/-- The result is a value or an exception, not exhaustion of the fuel, and a value
has the property `P` (total correctness). -/
def Res.Good {ε α : Type} (r : Res ε α) (P : α → Prop) : Prop :=
  r ≠ .outOfFuel ∧ ∀ a, r = .ok a → P a

/-- The token vector ends in an end-of-file token (`Parser::peek` reads the last token at every
position past the end; on the empty vector the model reads an end-of-file token). -/
def endsInEndOfFile (toks : List Token) : Bool :=
  (toks.getLastD ⟨.EndOfFile, "", 0, 0⟩).type = .EndOfFile

/-- Termination of the expression parser with `n` units of fuel on `toks`: each function
returns when the fuel exceeds eight times the number of tokens from its position on, plus its
rank, and the position it returns is past (for the two loops: not before) its position. -/
def ExprTerm (toks : List Token) (n : Nat) : Prop :=
  (∀ pos, 8 * (toks.length - pos) + 3 < n →
      (parseExpression n toks pos).Good fun r => toks.length - r.2 < toks.length - pos)
  ∧ (∀ pos prec, 8 * (toks.length - pos) + 2 < n →
      (parseBinary n toks pos prec).Good fun r => toks.length - r.2 < toks.length - pos)
  ∧ (∀ pos prec left, 8 * (toks.length - pos) < n →
      (parseBinaryLoop n toks pos prec left).Good fun r =>
        toks.length - r.2 ≤ toks.length - pos)
  ∧ (∀ pos, 8 * (toks.length - pos) + 1 < n →
      (parsePrimary n toks pos).Good fun r => toks.length - r.2 < toks.length - pos)
  ∧ (∀ pos els, 8 * (toks.length - pos) + 4 < n →
      (parseElements n toks pos els).Good fun r => toks.length - r.2 < toks.length - pos)
  ∧ (∀ pos, 8 * (toks.length - pos) < n →
      (primary n toks pos).Good fun r => toks.length - r.2 < toks.length - pos)
  ∧ (∀ pos e, 8 * (toks.length - pos) < n →
      (parseIndexLoop n toks pos e).Good fun r => toks.length - r.2 ≤ toks.length - pos)

/-- Termination of the statement parser with `n` units of fuel on `toks`, as `ExprTerm`: a
statement that is recognised ends past its position, and a block ends not before it. -/
def StmtTerm (toks : List Token) (n : Nat) : Prop :=
  (∀ pos, 8 * (toks.length - pos) + 5 < n →
      (parseStatement n toks pos).Good fun r =>
        toks.length - r.2 ≤ toks.length - pos
          ∧ (r.1 ≠ none → toks.length - r.2 < toks.length - pos))
  ∧ (∀ pos, 8 * (toks.length - pos) + 1 < n →
      (parseStatementTail n toks pos).Good fun r =>
        toks.length - r.2 ≤ toks.length - pos
          ∧ (r.1 ≠ none → toks.length - r.2 < toks.length - pos))
  ∧ (∀ pos term body, 8 * (toks.length - pos) + 6 < n →
      (parseBlock n toks pos term body).Good fun r => toks.length - r.2 ≤ toks.length - pos)
  ∧ (∀ pos, 8 * (toks.length - pos) < n →
      (parseIf n toks pos).Good fun r => toks.length - r.2 < toks.length - pos)
  ∧ (∀ pos, 8 * (toks.length - pos) < n →
      (parseWhile n toks pos).Good fun r => toks.length - r.2 < toks.length - pos)
  ∧ (∀ pos, 8 * (toks.length - pos) < n →
      (parseFor n toks pos).Good fun r => toks.length - r.2 < toks.length - pos)
  ∧ (∀ pos, 8 * (toks.length - pos) < n →
      (parseFunction n toks pos).Good fun r => toks.length - r.2 < toks.length - pos)

/-- The delimiters of the print statement that starts at `pos` are in place: a `(` follows the
keyword, and the expression after it is followed by a `)`. -/
def PrintDelimiters (toks : List Token) (pos : Nat) : Prop :=
  (peek toks (advance toks pos)).type = .LParen
    ∧ ∃ fuel e p, parseExpression fuel toks (advance toks (advance toks pos)) = .ok (e, p)
        ∧ (peek toks p).type = .RParen

/-- The delimiters of the if statement that starts at `pos` are in place: `(`, the condition,
`)`, `\x7b`, a block that ends at a `\x7d`, and after an `else` again `\x7b`, a block and `\x7d`. -/
def IfDelimiters (toks : List Token) (pos : Nat) : Prop :=
  (peek toks (advance toks pos)).type = .LParen
    ∧ ∃ fuel c p1, parseExpression fuel toks (advance toks (advance toks pos)) = .ok (c, p1)
        ∧ (peek toks p1).type = .RParen
        ∧ (peek toks (advance toks p1)).type = .LBrace
        ∧ ∃ body p2,
            parseBlock fuel toks (advance toks (advance toks p1)) .none [] = .ok (body, p2)
            ∧ (peek toks p2).type = .RBrace
            ∧ (isAtEnd toks (advance toks p2) = false
                ∧ isKeyword toks (advance toks p2) "else" = true →
                (peek toks (advance toks (advance toks p2))).type = .LBrace
                ∧ ∃ els p3,
                    parseBlock fuel toks (advance toks (advance toks (advance toks p2))) .none []
                      = .ok (els, p3)
                    ∧ (peek toks p3).type = .RBrace)

/-- The delimiters of the while statement that starts at `pos` are in place: `(`, the
condition, `)`, `\x7b`, a block that ends at a `\x7d`. -/
def WhileDelimiters (toks : List Token) (pos : Nat) : Prop :=
  (peek toks (advance toks pos)).type = .LParen
    ∧ ∃ fuel c p1, parseExpression fuel toks (advance toks (advance toks pos)) = .ok (c, p1)
        ∧ (peek toks p1).type = .RParen
        ∧ (peek toks (advance toks p1)).type = .LBrace
        ∧ ∃ body p2,
            parseBlock fuel toks (advance toks (advance toks p1))
              (.required "Expected ';' after statement in while block") [] = .ok (body, p2)
            ∧ (peek toks p2).type = .RBrace

/-- The braces of the for statement that starts at `pos` are in place: where its header ends
(after the end expression at `p2`, or after the step expression) there is a `\x7b`, and the block
after it ends at a `\x7d`. -/
def ForDelimiters (toks : List Token) (pos : Nat) : Prop :=
  ∃ fuel start p1 limit p2 p,
    parseExpression fuel toks (advance toks (advance toks (advance toks pos))) = .ok (start, p1)
    ∧ parseExpression fuel toks (advance toks p1) = .ok (limit, p2)
    ∧ ((isKeyword toks p2 "step" = true
          ∧ ∃ step, parseExpression fuel toks (advance toks p2) = .ok (step, p))
        ∨ (isKeyword toks p2 "step" = false ∧ p = p2))
    ∧ (peek toks p).type = .LBrace
    ∧ ∃ body p3,
        parseBlock fuel toks (advance toks p)
          (.required "Expected ';' after statement in for block") [] = .ok (body, p3)
        ∧ (peek toks p3).type = .RBrace

/-- The delimiters of the function declaration that starts at `pos` are in place: `(` after the
name, `)` where the parameter list ends, `\x7b`, and a block that ends at a `\x7d`. -/
def FunctionDelimiters (toks : List Token) (pos : Nat) : Prop :=
  (peek toks (advance toks (advance toks pos))).type = .LParen
    ∧ ∃ fuel p,
        (((peek toks (advance toks (advance toks (advance toks pos)))).type ≠ .RParen
            ∧ ∃ params,
                parseParams fuel toks (advance toks (advance toks (advance toks pos))) []
                  = .ok (params, p))
          ∨ p = advance toks (advance toks (advance toks pos)))
        ∧ (peek toks p).type = .RParen
        ∧ (peek toks (advance toks p)).type = .LBrace
        ∧ ∃ body p2,
            parseBlock fuel toks (advance toks (advance toks p)) .optional [] = .ok (body, p2)
            ∧ (peek toks p2).type = .RBrace

/-- The positions at which the top-level loop of `Parser::parse` calls `parseStatement`: the
first token, the position after a statement, and the position after a skipped token. -/
inductive TopLevelAt (toks : List Token) : Nat → List ASTNode → Prop where
  | start : TopLevelAt toks 0 []
  | afterNode (pos fuel : Nat) (nodes : List ASTNode) (node : ASTNode) (p1 : Nat) :
      TopLevelAt toks pos nodes → isAtEnd toks pos = false →
      parseStatement fuel toks pos = .ok (some node, p1) → TopLevelAt toks p1 (nodes ++ [node])
  | afterSkip (pos fuel : Nat) (nodes : List ASTNode) (p1 : Nat) :
      TopLevelAt toks pos nodes → isAtEnd toks pos = false →
      parseStatement fuel toks pos = .ok (none, p1) → TopLevelAt toks (advance toks p1) nodes

/-- The tokens of the text `let x = 1; print 2`. -/
def missingParenTokens : List Token :=
  (tokenize "let x = 1; print 2").getD []

/-- The name a node declares, if it is a function declaration. -/
def functionName : ASTNode → Option String
  | .FunctionNode name _ _ => some name
  | _ => none

/-- The name a node declares is the text of an identifier token of `toks`. -/
def DeclaresIdentifier (toks : List Token) (node : ASTNode) : Prop :=
  ∀ name, functionName node = some name →
    ∃ p, (peek toks p).type = .Identifier ∧ (peek toks p).value = name

/-- A program that declares `f` and then names it with an argument list. -/
def callSource : String := "func f() { print(1); } let y = f(); print(y);"

/-- A program that prints the result of naming `f` with an argument list. -/
def printCallSource : String := "func f() { print(1); } print(f());"

/-- An interpreter in which `x` is `7` and `func f(x, y) { return y; }` is registered. -/
def parameterDemo : Interpreter :=
  { Interpreter.init with
    vars := [("x", .num 7)]
    functions := [("f", (["x", "y"], [.ReturnNode (.IdentifierNode "y")]))] }

/-- The program `func f(x, y) { return y; } let x = 7; print(f(1, x)); print(x);` as a syntax
tree. -/
def parameterOrderProgram : List ASTNode :=
  [.FunctionNode "f" ["x", "y"] [.ReturnNode (.IdentifierNode "y")],
   .VarDeclNode "x" (.NumberNode "7"),
   .PrintNode (.CallNode "f" [.NumberNode "1", .IdentifierNode "x"]),
   .PrintNode (.IdentifierNode "x")]

mutual

/-- No call of a function of the registry `fns` occurs in the expression: every call node in it
names a function that is not declared (the built-in `len`, or an unknown function). -/
def noDeclaredCall (fns : List (String × List String × List ASTNode)) : ExprNode → Bool
  | .BinaryExprNode _ left right => noDeclaredCall fns left && noDeclaredCall fns right
  | .IdentifierNode _ => true
  | .NumberNode _ => true
  | .StringNode _ => true
  | .ArrayNode elements => noDeclaredCallList fns elements
  | .IndexNode array index => noDeclaredCall fns array && noDeclaredCall fns index
  | .CallNode func args => (find fns func).isNone && noDeclaredCallList fns args

/-- No call of a function of the registry `fns` occurs in any expression of the list. -/
def noDeclaredCallList (fns : List (String × List String × List ASTNode)) :
    List ExprNode → Bool
  | [] => true
  | e :: es => noDeclaredCall fns e && noDeclaredCallList fns es

end

/-- What a completed evaluation that runs no call of a declared function keeps, at one amount
of fuel: the number of copy assignments to `variables`. -/
def RestoresInv (fuel : Nat) : Prop :=
  (∀ e st v st', eval fuel e st = .ok (v, st') → noDeclaredCall st.functions e = true →
      st'.restores = st.restores)
  ∧ (∀ es cells st cells' st', evalElements fuel es cells st = .ok (cells', st') →
      noDeclaredCallList st.functions es = true → st'.restores = st.restores)

/-- An interpreter in which `a` is bound to the array `[1, 2, 3]` and `func f(x) { return x; }`
is registered. -/
def callDemo : Interpreter :=
  { Interpreter.init with
    vars := [("a", .arr [.num 1, .num 2, .num 3])]
    functions := [("f", (["x"], [.ReturnNode (.IdentifierNode "x")]))] }

/-! ## Lexer: progress lemmas -/

theorem skipWhitespace_length (cs : List Char) (l k : Nat) :
    (skipWhitespace cs l k).rest.length ≤ cs.length := by
  induction cs generalizing l k with
  | nil => simp [skipWhitespace]
  | cons c cs ih =>
    unfold skipWhitespace
    split
    · exact Nat.le_succ_of_le (ih _ _)
    · simp

theorem readHeader_length (cs : List Char) (l k : Nat) (v : String) :
    (readHeader cs l k v).2.rest.length ≤ cs.length := by
  induction cs generalizing l k v with
  | nil => simp [readHeader]
  | cons c cs ih =>
    unfold readHeader
    split
    · exact Nat.le_succ_of_le (ih _ _ _)
    · simp

theorem skipComment_length (cs : List Char) (l k : Nat) :
    (skipComment cs l k).rest.length ≤ cs.length := by
  induction cs generalizing l k with
  | nil => simp [skipComment]
  | cons c cs ih =>
    unfold skipComment
    split
    · exact Nat.le_succ_of_le (ih _ _)
    · simp

theorem readIdentifier_length (cs : List Char) (l k : Nat) (v : String) :
    (readIdentifier cs l k v).2.rest.length ≤ cs.length := by
  induction cs generalizing l k v with
  | nil => simp [readIdentifier]
  | cons c cs ih =>
    unfold readIdentifier
    split
    · exact Nat.le_succ_of_le (ih _ _ _)
    · simp

theorem readNumber_length (cs : List Char) (l k : Nat) (v : String) (d : Bool) :
    (readNumber cs l k v d).2.2.rest.length ≤ cs.length := by
  induction cs generalizing l k v d with
  | nil => simp [readNumber]
  | cons c cs ih =>
    unfold readNumber
    split
    · split
      · split
        · simp
        · exact Nat.le_succ_of_le (ih _ _ _ _)
      · exact Nat.le_succ_of_le (ih _ _ _ _)
    · simp

theorem readString_length (n : Nat) (cs : List Char) (hn : cs.length ≤ n) (l k : Nat)
    (v : String) : (readString cs l k v).2.rest.length ≤ cs.length := by
  induction n generalizing cs l k v with
  | zero =>
    have : cs = [] := List.length_eq_zero.mp (Nat.le_zero.mp hn)
    subst this
    simp [readString]
  | succ n ih =>
    cases cs with
    | nil => simp [readString]
    | cons c cs =>
      have hcs : cs.length ≤ n := by simpa using hn
      unfold readString
      split
      · split
        · cases cs with
          | nil => simp
          | cons m cs2 =>
            have h2 : cs2.length ≤ n := by
              have : cs2.length + 1 ≤ n := by simpa using hcs
              omega
            have := ih cs2 h2 (nextLine m (nextLine c l)) (nextColumn m (nextColumn c k))
              (v.push m)
            simp only [List.length_cons]
            omega
        · exact Nat.le_succ_of_le (ih cs hcs _ _ _)
      · simp

theorem Lexer.get_length_le (L : Lexer) : L.get.2.rest.length ≤ L.rest.length := by
  unfold Lexer.get
  split <;> simp_all

theorem Lexer.get_length_lt (L : Lexer) (h : L.peek ≠ '\x00') :
    L.get.2.rest.length < L.rest.length := by
  unfold Lexer.get
  unfold Lexer.peek at h
  split <;> simp_all

theorem twoChar_length (L : Lexer) (second : Char) (long short : Token)
    (h : L.peek ≠ '\x00') : (twoChar L second long short).2.rest.length < L.rest.length := by
  unfold twoChar
  have h1 := L.get_length_lt h
  have h2 := L.get.2.get_length_le
  simp only
  split
  · exact Nat.lt_of_le_of_lt h2 h1
  · exact h1

theorem Lexer.rest_of_peek (L : Lexer) (h : L.peek ≠ '\x00') :
    ∃ cs, L.rest = L.peek :: cs := by
  unfold Lexer.peek at h ⊢
  cases hr : L.rest with
  | nil => simp [hr] at h
  | cons c cs => exact ⟨cs, rfl⟩

theorem nextTokenFuel_progress (fuel : Nat) (L0 : Lexer) (h : L0.rest.length < fuel) :
    ∃ t L1, nextTokenFuel fuel L0 = some (t, L1) ∧ L1.rest.length ≤ L0.rest.length ∧
      (t.type ≠ .EndOfFile → L1.rest.length < L0.rest.length) := by
  induction fuel generalizing L0 with
  | zero => omega
  | succ fuel ih =>
    have hws := skipWhitespace_length L0.rest L0.line L0.column
    unfold nextTokenFuel
    simp only
    generalize skipWhitespace L0.rest L0.line L0.column = L at hws
    by_cases h0 : L.peek = '\x00'
    · rw [if_pos h0]
      exact ⟨_, _, rfl, hws, fun hne => absurd rfl hne⟩
    rw [if_neg h0]
    obtain ⟨cs, hcs⟩ := L.rest_of_peek h0
    have hget := L.get_length_lt h0
    have hlen : L.rest.length = cs.length + 1 := by rw [hcs]; simp
    by_cases hc : L.peek = '#'
    · -- header
      rw [if_pos hc]
      have := readHeader_length cs (nextLine L.peek L.line) (nextColumn L.peek L.column)
        ("".push L.peek)
      refine ⟨_, _, rfl, ?_⟩
      rw [hcs, readHeader, if_pos (by rw [hc]; decide)]
      simp only
      omega
    rw [if_neg hc]
    clear hc
    by_cases hc : L.peek = '/' ∧ L.peekNext = '/'
    · -- comment
      rw [if_pos hc]
      have := skipComment_length cs (nextLine L.peek L.line) (nextColumn L.peek L.column)
      have hlt : (skipComment L.rest L.line L.column).rest.length < L.rest.length := by
        rw [hcs, skipComment, if_pos (by rw [hc.1]; decide)]
        simp only [List.length_cons]
        omega
      obtain ⟨t, L1, heq, hle, hlt1⟩ := ih (skipComment L.rest L.line L.column) (by omega)
      exact ⟨t, L1, heq, by omega, fun hne => by have := hlt1 hne; omega⟩
    rw [if_neg hc]
    clear hc
    by_cases hc : (isalpha L.peek || decide (L.peek = '_')) = true
    · -- identifier or keyword
      rw [if_pos hc]
      have := readIdentifier_length cs (nextLine L.peek L.line) (nextColumn L.peek L.column)
        ("".push L.peek)
      have hlt : (readIdentifier L.rest L.line L.column "").2.rest.length < L.rest.length := by
        have hc2 : (isalnum L.peek || decide (L.peek = '_')) = true := by
          simp only [isalnum, Bool.or_eq_true] at hc ⊢
          rcases hc with hc | hc
          · exact Or.inl (Or.inl hc)
          · exact Or.inr hc
        rw [hcs, readIdentifier, if_pos hc2]
        simp only [List.length_cons]
        omega
      split
      · exact ⟨_, _, rfl, by omega, fun _ => by omega⟩
      split
      · exact ⟨_, _, rfl, by omega, fun _ => by omega⟩
      · exact ⟨_, _, rfl, by omega, fun _ => by omega⟩
    rw [if_neg hc]
    clear hc
    by_cases hc : isdigit L.peek = true
    · -- number
      rw [if_pos hc]
      have := readNumber_length cs (nextLine L.peek L.line) (nextColumn L.peek L.column)
        ("".push L.peek) false
      have hlt : (readNumber L.rest L.line L.column "" false).2.2.rest.length
          < L.rest.length := by
        have hnd : L.peek ≠ '.' := by
          intro hd
          rw [hd] at hc
          exact absurd hc (by decide)
        rw [hcs, readNumber, if_pos (by simp [hc]), if_neg hnd]
        simp only [List.length_cons]
        omega
      exact ⟨_, _, rfl, by omega, fun _ => by omega⟩
    rw [if_neg hc]
    clear hc
    by_cases hc : L.peek = '\x22'
    · -- string
      rw [if_pos hc]
      have h1 := readString_length _ L.get.2.rest (Nat.le_refl _) L.get.2.line L.get.2.column ""
      have h2 := (readString L.get.2.rest L.get.2.line L.get.2.column "").2.get_length_le
      exact ⟨_, _, rfl, by omega, fun _ => by omega⟩
    rw [if_neg hc]
    clear hc
    have htwo := fun second long short => twoChar_length L second long short h0
    by_cases hc : L.peek = '='
    · rw [if_pos hc]
      exact ⟨_, _, rfl, by have := htwo; exact Nat.le_of_lt (Nat.lt_of_lt_of_le (htwo _ _ _) hws),
        fun _ => Nat.lt_of_lt_of_le (htwo _ _ _) hws⟩
    rw [if_neg hc]
    clear hc
    by_cases hc : L.peek = '!'
    · rw [if_pos hc]
      exact ⟨_, _, rfl, Nat.le_of_lt (Nat.lt_of_lt_of_le (htwo _ _ _) hws),
        fun _ => Nat.lt_of_lt_of_le (htwo _ _ _) hws⟩
    rw [if_neg hc]
    clear hc
    by_cases hc : L.peek = '<'
    · rw [if_pos hc]
      exact ⟨_, _, rfl, Nat.le_of_lt (Nat.lt_of_lt_of_le (htwo _ _ _) hws),
        fun _ => Nat.lt_of_lt_of_le (htwo _ _ _) hws⟩
    rw [if_neg hc]
    clear hc
    by_cases hc : L.peek = '>'
    · rw [if_pos hc]
      exact ⟨_, _, rfl, Nat.le_of_lt (Nat.lt_of_lt_of_le (htwo _ _ _) hws),
        fun _ => Nat.lt_of_lt_of_le (htwo _ _ _) hws⟩
    rw [if_neg hc]
    clear hc
    by_cases hc : L.peek = '&'
    · rw [if_pos hc]
      exact ⟨_, _, rfl, Nat.le_of_lt (Nat.lt_of_lt_of_le (htwo _ _ _) hws),
        fun _ => Nat.lt_of_lt_of_le (htwo _ _ _) hws⟩
    rw [if_neg hc]
    clear hc
    by_cases hc : L.peek = '|'
    · rw [if_pos hc]
      exact ⟨_, _, rfl, Nat.le_of_lt (Nat.lt_of_lt_of_le (htwo _ _ _) hws),
        fun _ => Nat.lt_of_lt_of_le (htwo _ _ _) hws⟩
    rw [if_neg hc]
    clear hc
    have hone : L.get.2.rest.length ≤ L0.rest.length ∧
        L.get.2.rest.length < L0.rest.length := ⟨by omega, by omega⟩
    by_cases hc : L.peek = '+' ∨ L.peek = '-' ∨ L.peek = '*' ∨ L.peek = '/'
    · rw [if_pos hc]
      exact ⟨_, _, rfl, hone.1, fun _ => hone.2⟩
    rw [if_neg hc]
    clear hc
    by_cases hc : L.peek = '('
    · rw [if_pos hc]
      exact ⟨_, _, rfl, hone.1, fun _ => hone.2⟩
    rw [if_neg hc]
    clear hc
    by_cases hc : L.peek = ')'
    · rw [if_pos hc]
      exact ⟨_, _, rfl, hone.1, fun _ => hone.2⟩
    rw [if_neg hc]
    clear hc
    by_cases hc : L.peek = '['
    · rw [if_pos hc]
      exact ⟨_, _, rfl, hone.1, fun _ => hone.2⟩
    rw [if_neg hc]
    clear hc
    by_cases hc : L.peek = ']'
    · rw [if_pos hc]
      exact ⟨_, _, rfl, hone.1, fun _ => hone.2⟩
    rw [if_neg hc]
    clear hc
    by_cases hc : L.peek = '\x7b'
    · rw [if_pos hc]
      exact ⟨_, _, rfl, hone.1, fun _ => hone.2⟩
    rw [if_neg hc]
    clear hc
    by_cases hc : L.peek = '\x7d'
    · rw [if_pos hc]
      exact ⟨_, _, rfl, hone.1, fun _ => hone.2⟩
    rw [if_neg hc]
    clear hc
    by_cases hc : L.peek = ','
    · rw [if_pos hc]
      exact ⟨_, _, rfl, hone.1, fun _ => hone.2⟩
    rw [if_neg hc]
    exact ⟨_, _, rfl, hone.1, fun _ => hone.2⟩

theorem nextToken_progress (L0 : Lexer) :
    ∃ t L1, nextToken L0 = some (t, L1) ∧ L1.rest.length ≤ L0.rest.length ∧
      (t.type ≠ .EndOfFile → L1.rest.length < L0.rest.length) :=
  nextTokenFuel_progress _ L0 (Nat.lt_succ_self _)

theorem tokenizeLoop_total (fuel : Nat) (L : Lexer) (h : L.rest.length < fuel) :
    ∃ front last, tokenizeLoop fuel L = some (front ++ [last]) ∧ last.type = .EndOfFile ∧
      ∀ t ∈ front, t.type ≠ .EndOfFile := by
  induction fuel generalizing L with
  | zero => omega
  | succ fuel ih =>
    obtain ⟨t, L1, heq, _, hlt⟩ := nextToken_progress L
    unfold tokenizeLoop
    rw [heq]
    simp only
    by_cases ht : t.type = .EndOfFile
    · rw [if_pos ht]
      exact ⟨[], t, rfl, ht, by simp⟩
    · rw [if_neg ht]
      obtain ⟨front, last, hloop, hlast, hfront⟩ := ih L1 (by have := hlt ht; omega)
      refine ⟨t :: front, last, by rw [hloop]; rfl, hlast, ?_⟩
      intro u hu
      rcases List.mem_cons.mp hu with hu | hu
      · rw [hu]; exact ht
      · exact hfront u hu

theorem nextToken_unknown (c : Char) (cs : List Char) (line column : Nat)
    (hc : startsToken c = false) :
    nextToken ⟨c :: cs, line, column⟩
      = some (⟨.Unknown, String.singleton c, line, column⟩, ⟨cs, line, column + 1⟩) := by
  simp only [startsToken, Bool.or_eq_false_iff, decide_eq_false_iff_not] at hc
  obtain ⟨⟨⟨⟨⟨⟨⟨⟨⟨⟨⟨⟨⟨⟨⟨⟨⟨⟨⟨⟨⟨⟨⟨h0, hsp⟩, hh⟩, hal⟩, hu⟩, hd⟩, hq⟩, heq⟩, hex⟩, hlt⟩, hgt⟩,
    ha⟩, hb⟩, hp⟩, hm⟩, ht⟩, hs⟩, hlp⟩, hrp⟩, hlb⟩, hrb⟩, hlc⟩, hrc⟩, hco⟩ := hc
  have hnl : c ≠ '\n' := by
    intro h
    rw [h] at hsp
    exact absurd hsp (by decide)
  simp [nextToken, nextTokenFuel, skipWhitespace, hsp, Lexer.peek, Lexer.peekNext, Lexer.get,
    h0, hh, hal, hu, hd, hq, heq, hex, hlt, hgt, ha, hb, hp, hm, ht, hs, hlp, hrp, hlb, hrb, hlc,
    hrc, hco, nextLine, nextColumn, hnl]

/-! ## Lemmas on results and maps -/

theorem Res.bind_def {ε α β : Type} (r : Res ε α) (k : α → Res ε β) :
    (r >>= k) = r.bind k := rfl

theorem Res.bind_eq_ok {ε α β : Type} {r : Res ε α} {k : α → Res ε β} {b : β} :
    r.bind k = .ok b ↔ ∃ a, r = .ok a ∧ k a = .ok b := by
  cases r <;> simp [Res.bind]

theorem find_assign_same {α : Type} (m : List (String × α)) (k : String) (v : α) :
    find (assign m k v) k = some v := by
  induction m with
  | nil => simp [assign, find]
  | cons p rest ih =>
    obtain ⟨k', w⟩ := p
    by_cases h : k' = k
    · simp [assign, find, h]
    · simp [assign, find, h, ih]

theorem find_assign_ne {α : Type} (m : List (String × α)) (k k' : String) (v : α)
    (h : k' ≠ k) : find (assign m k v) k' = find m k' := by
  induction m with
  | nil => simp [assign, find, Ne.symm h]
  | cons p rest ih =>
    obtain ⟨k0, w⟩ := p
    by_cases h0 : k0 = k
    · subst h0
      simp [assign, find, Ne.symm h]
    · by_cases h1 : k0 = k'
      · subst h1
        simp [assign, find, h0]
      · simp [assign, find, h0, h1, ih]

theorem find_setCell_ne (vars : List (String × Value)) (name name' : String) (i : Nat)
    (v : Value) (h : name' ≠ name) : find (setCell vars name i v) name' = find vars name' := by
  unfold setCell
  split
  · exact find_assign_ne _ _ _ _ h
  · rfl

theorem arrayLength_setCell (vars : List (String × Value)) (name name' : String) (i : Nat)
    (v : Value) : arrayLength (setCell vars name i v) name' = arrayLength vars name' := by
  by_cases h : name' = name
  · subst h
    unfold setCell
    cases hf : findArray vars name' with
    | none => rfl
    | some cells =>
      simp only [arrayLength, findArray, find_assign_same, hf, Option.map_some', List.length_set]
      simp only [findArray] at hf
      rw [hf]
      rfl
  · simp only [arrayLength, findArray, find_setCell_ne _ _ _ _ _ h]

theorem EvalInv.same (pure : Bool) (st : Interpreter) : EvalInv pure st st :=
  ⟨rfl, rfl, fun _ => rfl, fun _ => rfl⟩

theorem EvalInv.andThen {p q : Bool} {a b c : Interpreter} (h1 : EvalInv p a b)
    (h2 : EvalInv q b c) : EvalInv (p && q) a c := by
  obtain ⟨hc1, hf1, hs1, hv1⟩ := h1
  obtain ⟨hc2, hf2, hs2, hv2⟩ := h2
  refine ⟨hc2.trans hc1, hf2.trans hf1, fun n => (hs2 n).trans (hs1 n), ?_⟩
  intro hpq
  simp only [Bool.and_eq_true] at hpq
  exact (hv2 hpq.2).trans (hv1 hpq.1)

theorem EvalInv.weaken {p q : Bool} {a b : Interpreter} (h : EvalInv p a b)
    (hq : q = true → p = true) : EvalInv q a b :=
  ⟨h.1, h.2.1, h.2.2.1, fun hq1 => h.2.2.2 (hq hq1)⟩

theorem ExecInv.unchanged (st : Interpreter) : ExecInv st st := ⟨rfl, rfl⟩

theorem ExecInv.followedBy {a b c : Interpreter} (h1 : ExecInv a b) (h2 : ExecInv b c) :
    ExecInv a c :=
  ⟨h2.1.trans h1.1, h2.2.trans h1.2⟩

theorem EvalInv.toExec {p : Bool} {a b : Interpreter} (h : EvalInv p a b) : ExecInv a b :=
  ⟨h.1, h.2.1⟩

/-! ## Unfolding `eval` -/

theorem eval_CallNode_user (fuel : Nat) (func : String) (args : List ExprNode) (st : Interpreter)
    (params : List String) (body : List ASTNode)
    (hf : find st.functions func = some (params, body)) :
    eval (fuel + 1) (.CallNode func args) st
      = if args.length ≠ params.length then
          .error ("Argument count mismatch in call to " ++ func, st)
        else
          (bindParams fuel params args st.pushScope).bind fun s1 =>
          (execBody fuel body { s1 with hasReturn := false }).bind fun s2 =>
          .ok (if s2.hasReturn then s2.returnValue else .num 0,
            { s2 with hasReturn := false }.popScope) := by
  show (match find st.functions func with
    | some (params, body) => _
    | none => _) = _
  rw [hf]
  rfl

theorem eval_CallNode_builtin (fuel : Nat) (func : String) (args : List ExprNode)
    (st : Interpreter) (hf : find st.functions func = none) :
    eval (fuel + 1) (.CallNode func args) st
      = if func = "len" then
          match args with
          | [arg] =>
            (eval fuel arg st).bind fun r =>
              match r.1 with
              | .arr cells => .ok (.num (cells.length : ℚ), r.2)
              | _ => .error ("len() expects array", r.2)
          | _ => .error ("len() takes one argument", st)
        else .error ("Unknown function: " ++ func, st) := by
  show (match find st.functions func with
    | some (params, body) => _
    | none => _) = _
  rw [hf]
  rfl

theorem eval_NumberNode (fuel : Nat) (value : String) (st : Interpreter) :
    eval (fuel + 1) (.NumberNode value) st
      = match stod value with
        | some d => .ok (.num d, st)
        | none => .error ("stod", st) := rfl

theorem eval_StringNode (fuel : Nat) (value : String) (st : Interpreter) :
    eval (fuel + 1) (.StringNode value) st = .ok (.str value, st) := rfl

theorem eval_IdentifierNode (fuel : Nat) (name : String) (st : Interpreter) :
    eval (fuel + 1) (.IdentifierNode name) st
      = match find st.vars name with
        | some v => .ok (v, st)
        | none => .error ("Undefined variable: " ++ name, st) := rfl

theorem eval_ArrayNode (fuel : Nat) (elements : List ExprNode) (st : Interpreter) :
    eval (fuel + 1) (.ArrayNode elements) st
      = (evalElements fuel elements [] st).bind fun r => .ok (.arr r.1, r.2) := rfl

theorem eval_IndexNode (fuel : Nat) (array index : ExprNode) (st : Interpreter) :
    eval (fuel + 1) (.IndexNode array index) st
      = (eval fuel array st).bind fun r1 =>
        (eval fuel index r1.2).bind fun r2 =>
          match r1.1 with
          | .arr vec =>
            ((getDouble r2.1).inState r2.2).bind fun d =>
              if toInt d < 0 ∨ toInt d ≥ (vec.length : Int) then
                .error ("Array index out of bounds", r2.2)
              else
                match vec.get? (toInt d).toNat with
                | some v => .ok (v, r2.2)
                | none => .error ("Array index out of bounds", r2.2)
          | _ => .error ("Indexing non-array", r2.2) := rfl

theorem eval_assign (fuel : Nat) (name : String) (index right : ExprNode) (st : Interpreter) :
    eval (fuel + 1) (.BinaryExprNode "[]=" (.IndexNode (.IdentifierNode name) index) right) st
      = match find st.vars name with
        | none => .error ("Undefined array: " ++ name, st)
        | some (.arr vec0) =>
          (eval fuel index st).bind fun r1 =>
          ((getDouble r1.1).inState r1.2).bind fun d =>
            if toInt d < 0 then .error ("Array index out of bounds", r1.2)
            else if r1.2.restores ≠ st.restores then .error (danglingReference, r1.2)
            else if toInt d ≥ (((findArray r1.2.vars name).getD vec0).length : Int) then
              .error ("Array index out of bounds", r1.2)
            else
              (eval fuel right r1.2).bind fun r2 =>
                if r2.2.restores ≠ st.restores then .error (danglingReference, r2.2)
                else
                  .ok (r2.1,
                    { r2.2 with vars := setCell r2.2.vars name (toInt d).toNat r2.1 })
        | some _ => .error ("Variable is not an array", st) := rfl

theorem eval_binary (fuel : Nat) (op : String) (left right : ExprNode) (st : Interpreter)
    (hop : op ≠ "[]=") :
    eval (fuel + 1) (.BinaryExprNode op left right) st
      = (eval fuel left st).bind fun r1 =>
        (eval fuel right r1.2).bind fun r2 =>
        ((binaryOp op r1.1 r2.1).inState r2.2).bind fun v => .ok (v, r2.2) := by
  show (if op = "[]=" then _ else _) = _
  rw [if_neg hop]
  rfl

/-! ## Invariants of the interpreter -/

theorem eval_assign_shape (fuel : Nat) (left right : ExprNode) (st : Interpreter)
    (r : Value × Interpreter)
    (h : eval (fuel + 1) (.BinaryExprNode "[]=" left right) st = .ok r) :
    ∃ name index, left = .IndexNode (.IdentifierNode name) index := by
  cases left with
  | IndexNode array index =>
    cases array with
    | IdentifierNode name => exact ⟨name, index, rfl⟩
    | _ => exact absurd h (by intro h; cases h)
  | _ => exact absurd h (by intro h; cases h)

theorem eval_inv_step (fuel : Nat) (ih : InterpInv fuel) (e : ExprNode) (st : Interpreter)
    (v : Value) (st' : Interpreter) (h : eval (fuel + 1) e st = .ok (v, st')) :
    EvalInv (noAssign e) st st' := by
  obtain ⟨ihEval, ihElems, ihBind, ihBody, -, -, -, -⟩ := ih
  cases e with
  | NumberNode value =>
    rw [eval_NumberNode] at h
    split at h
    · cases h; exact EvalInv.same _ _
    · cases h
  | StringNode value =>
    rw [eval_StringNode] at h
    cases h; exact EvalInv.same _ _
  | IdentifierNode name =>
    rw [eval_IdentifierNode] at h
    split at h
    · cases h; exact EvalInv.same _ _
    · cases h
  | ArrayNode elements =>
    rw [eval_ArrayNode, Res.bind_eq_ok] at h
    obtain ⟨⟨cells, st1⟩, h1, h2⟩ := h
    cases h2
    simpa [noAssign] using ihElems _ _ _ _ _ h1
  | IndexNode array index =>
    rw [eval_IndexNode, Res.bind_eq_ok] at h
    obtain ⟨⟨arrVal, st1⟩, h1, h⟩ := h
    rw [Res.bind_eq_ok] at h
    obtain ⟨⟨idxVal, st2⟩, h2, h3⟩ := h
    have hinv := (ihEval _ _ _ _ h1).andThen (ihEval _ _ _ _ h2)
    simp only at h3
    split at h3
    · rw [Res.bind_eq_ok] at h3
      obtain ⟨d, -, h4⟩ := h3
      split at h4
      · cases h4
      · split at h4
        · cases h4; simpa [noAssign] using hinv
        · cases h4
    · cases h3
  | CallNode func args =>
    cases hf : find st.functions func with
    | some decl =>
      obtain ⟨params, body⟩ := decl
      rw [eval_CallNode_user _ _ _ _ _ _ hf] at h
      split at h
      · cases h
      · rw [Res.bind_eq_ok] at h
        obtain ⟨s1, h1, h⟩ := h
        rw [Res.bind_eq_ok] at h
        obtain ⟨s2, h2, h3⟩ := h
        have i1 := ihBind _ _ _ _ h1
        have i2 := ihBody _ _ _ h2
        have hcs : s2.callStack = st.vars :: st.callStack := by
          rw [i2.1]
          exact i1.1
        have hfn : s2.functions = st.functions := by
          rw [i2.2]
          exact i1.2
        cases h3
        refine ⟨?_, ?_, ?_, ?_⟩ <;> simp [Interpreter.popScope, hcs, hfn]
    | none =>
      rw [eval_CallNode_builtin _ _ _ _ hf] at h
      split at h
      · split at h
        · rw [Res.bind_eq_ok] at h
          obtain ⟨⟨arrVal, s1⟩, h1, h2⟩ := h
          simp only at h2
          split at h2
          · cases h2
            simpa [noAssign, noAssignList] using ihEval _ _ _ _ h1
          · cases h2
        · cases h
      · cases h
  | BinaryExprNode op left right =>
    by_cases hop : op = "[]="
    · subst hop
      obtain ⟨name, index, rfl⟩ := eval_assign_shape _ _ _ _ _ h
      rw [eval_assign] at h
      split at h
      · cases h
      · rw [Res.bind_eq_ok] at h
        obtain ⟨⟨idxVal, s1⟩, h1, h⟩ := h
        rw [Res.bind_eq_ok] at h
        obtain ⟨d, -, h⟩ := h
        split at h
        · cases h
        · split at h
          · cases h
          · split at h
            · cases h
            · rw [Res.bind_eq_ok] at h
              obtain ⟨⟨rv, s2⟩, h2, h3⟩ := h
              split at h3
              · cases h3
              · cases h3
                have i1 := ihEval _ _ _ _ h1
                have i2 := ihEval _ _ _ _ h2
                refine ⟨i2.1.trans i1.1, i2.2.1.trans i1.2.1, ?_, ?_⟩
                · intro n
                  simp only [arrayLength_setCell]
                  exact (i2.2.2.1 n).trans (i1.2.2.1 n)
                · intro hna
                  simp [noAssign] at hna
      · cases h
    · rw [eval_binary _ _ _ _ _ hop] at h
      rw [Res.bind_eq_ok] at h
      obtain ⟨⟨lv, s1⟩, h1, h⟩ := h
      rw [Res.bind_eq_ok] at h
      obtain ⟨⟨rv, s2⟩, h2, h⟩ := h
      rw [Res.bind_eq_ok] at h
      obtain ⟨w, -, h3⟩ := h
      cases h3
      refine ((ihEval _ _ _ _ h1).andThen (ihEval _ _ _ _ h2)).weaken ?_
      intro hna
      simp [noAssign] at hna
      simp [hna]

theorem interpInv_zero : InterpInv 0 := by
  refine ⟨?_, ?_, ?_, ?_, ?_, ?_, ?_, ?_⟩
  · intro e st v st' h; exact absurd h (by intro h; cases h)
  · intro es cells st cells' st' h; exact absurd h (by intro h; cases h)
  · intro ps as st st' h; exact absurd h (by intro h; cases h)
  · intro body st st' h; exact absurd h (by intro h; cases h)
  · intro stmts st st' h; exact absurd h (by intro h; cases h)
  · intro c body st st' h; exact absurd h (by intro h; cases h)
  · intro x i l s body st st' h; exact absurd h (by intro h; cases h)
  · intro node st st' h; exact absurd h (by intro h; cases h)

theorem exec_inv_step (fuel : Nat) (ih : InterpInv fuel) (node : ASTNode) (st st' : Interpreter)
    (h : exec (fuel + 1) node st = .ok st') : ExecInv st st' := by
  obtain ⟨ihEval, -, -, -, ihAll, ihWhile, ihFor, -⟩ := ih
  unfold exec at h
  cases node with
  | VarDeclNode name value =>
    simp only [Res.bind_def, Res.bind_eq_ok] at h
    obtain ⟨⟨v, s1⟩, h1, h2⟩ := h
    cases h2
    exact (ihEval _ _ _ _ h1).toExec
  | PrintNode expr =>
    simp only [Res.bind_def, Res.bind_eq_ok] at h
    obtain ⟨⟨v, s1⟩, h1, h2⟩ := h
    have i1 := (ihEval _ _ _ _ h1).toExec
    simp only at h2
    split at h2 <;> cases h2 <;> exact i1
  | IfNode condition thenBranch elseBranch =>
    simp only [Res.bind_def, Res.bind_eq_ok] at h
    obtain ⟨⟨v, s1⟩, h1, h2⟩ := h
    have i1 := (ihEval _ _ _ _ h1).toExec
    simp only at h2
    split at h2
    · exact i1.followedBy (ihAll _ _ _ h2)
    · exact i1.followedBy (ihAll _ _ _ h2)
  | WhileNode condition body =>
    exact ihWhile _ _ _ _ h
  | ForNode varName condition increment body =>
    simp only [Res.bind_def, Res.bind_eq_ok] at h
    obtain ⟨⟨v, s1⟩, h1, d, -, h2⟩ := h
    have i1 := (ihEval _ _ _ _ h1).toExec
    simp only at h2
    split at h2
    · split at h2
      · simp only [Res.bind_def, Res.bind_eq_ok] at h2
        obtain ⟨⟨v2, s2⟩, h3, d2, -, ⟨v3, s3⟩, h4, d3, -, h5⟩ := h2
        exact (i1.followedBy (ihEval _ _ _ _ h3).toExec).followedBy
          ((ihEval _ _ _ _ h4).toExec.followedBy (ihFor _ _ _ _ _ _ _ h5))
      · exact i1.followedBy (ihFor _ _ _ _ _ _ _ h2)
    · simp only [Res.bind_def, Res.bind_eq_ok] at h2
      obtain ⟨⟨v2, s2⟩, h3, d2, -, h5⟩ := h2
      exact (i1.followedBy (ihEval _ _ _ _ h3).toExec).followedBy (ihFor _ _ _ _ _ _ _ h5)
  | FunctionNode name params body =>
    cases h
    exact ExecInv.unchanged _
  | ReturnNode value =>
    simp only [Res.bind_def, Res.bind_eq_ok] at h
    obtain ⟨⟨v, s1⟩, h1, h2⟩ := h
    cases h2
    exact (ihEval _ _ _ _ h1).toExec

theorem interpInv : ∀ fuel, InterpInv fuel := by
  intro fuel
  induction fuel with
  | zero => exact interpInv_zero
  | succ fuel ih =>
    have ih0 := ih
    obtain ⟨ihEval, ihElems, ihBind, ihBody, ihAll, ihWhile, ihFor, ihExec⟩ := ih
    refine ⟨eval_inv_step fuel ih0, ?_, ?_, ?_, ?_, ?_, ?_, exec_inv_step fuel ih0⟩
    · intro es cells st cells' st' h
      unfold evalElements at h
      cases es with
      | nil => cases h; exact EvalInv.same _ _
      | cons el rest =>
        simp only [Res.bind_def, Res.bind_eq_ok] at h
        obtain ⟨⟨v, s1⟩, h1, h2⟩ := h
        simpa [noAssignList] using (ihEval _ _ _ _ h1).andThen (ihElems _ _ _ _ _ h2)
    · intro ps as st st' h
      unfold bindParams at h
      split at h
      · simp only [Res.bind_def, Res.bind_eq_ok] at h
        obtain ⟨⟨v, s1⟩, h1, h2⟩ := h
        have i2 := ihBind _ _ _ _ h2
        exact (ihEval _ _ _ _ h1).toExec.followedBy i2
      · cases h; exact ExecInv.unchanged _
    · intro body st st' h
      unfold execBody at h
      cases body with
      | nil => cases h; exact ExecInv.unchanged _
      | cons stmt rest =>
        simp only [Res.bind_def, Res.bind_eq_ok] at h
        obtain ⟨s1, h1, h2⟩ := h
        have i1 := ihExec _ _ _ h1
        split at h2
        · cases h2; exact i1
        · exact i1.followedBy (ihBody _ _ _ h2)
    · intro stmts st st' h
      unfold execAll at h
      cases stmts with
      | nil => cases h; exact ExecInv.unchanged _
      | cons stmt rest =>
        simp only [Res.bind_def, Res.bind_eq_ok] at h
        obtain ⟨s1, h1, h2⟩ := h
        exact (ihExec _ _ _ h1).followedBy (ihAll _ _ _ h2)
    · intro c body st st' h
      unfold whileLoop at h
      simp only [Res.bind_def, Res.bind_eq_ok] at h
      obtain ⟨⟨v, s1⟩, h1, h2⟩ := h
      have i1 := (ihEval _ _ _ _ h1).toExec
      simp only at h2
      split at h2
      · cases h2; exact i1
      · simp only [Res.bind_def, Res.bind_eq_ok] at h2
        obtain ⟨s2, h3, h4⟩ := h2
        have i2 := i1.followedBy (ihAll _ _ _ h3)
        split at h4
        · cases h4; exact i2
        · exact i2.followedBy (ihWhile _ _ _ _ h4)
    · intro x i l s body st st' h
      unfold forLoop at h
      split at h
      · simp only [Res.bind_def, Res.bind_eq_ok] at h
        obtain ⟨s2, h3, h4⟩ := h
        have i2 : ExecInv st s2 := by
          have := ihAll _ _ _ h3
          exact ⟨this.1, this.2⟩
        split at h4
        · cases h4; exact i2
        · exact i2.followedBy (ihFor _ _ _ _ _ _ _ h4)
      · cases h; exact ExecInv.unchanged _


/-! ## Statements and array literals -/

theorem exec_VarDeclNode_ok (fuel : Nat) (name : String) (value : ExprNode)
    (st st' : Interpreter) (h : exec fuel (.VarDeclNode name value) st = .ok st') :
    ∃ n v s1, fuel = n + 1 ∧ eval n value st = .ok (v, s1)
      ∧ st' = { s1 with vars := assign s1.vars name v } := by
  cases fuel with
  | zero => exact absurd h (by intro h; cases h)
  | succ n =>
    unfold exec at h
    simp only [Res.bind_def, Res.bind_eq_ok] at h
    obtain ⟨⟨v, s1⟩, h1, h2⟩ := h
    cases h2
    exact ⟨n, v, s1, rfl, h1, rfl⟩

theorem evalElements_length (fuel : Nat) (es : List ExprNode) (cells : List Value)
    (st : Interpreter) (cells' : List Value) (st' : Interpreter)
    (h : evalElements fuel es cells st = .ok (cells', st')) :
    cells'.length = cells.length + es.length := by
  induction fuel generalizing es cells st with
  | zero => exact absurd h (by intro h; cases h)
  | succ n ih =>
    unfold evalElements at h
    cases es with
    | nil => cases h; rfl
    | cons el rest =>
      simp only [Res.bind_def, Res.bind_eq_ok] at h
      obtain ⟨⟨v, s1⟩, -, h2⟩ := h
      have := ih _ _ _ h2
      simp only [List.length_append, List.length_cons, List.length_nil] at this ⊢
      omega

theorem eval_ArrayNode_ok (fuel : Nat) (elements : List ExprNode) (st : Interpreter)
    (v : Value) (st' : Interpreter) (h : eval fuel (.ArrayNode elements) st = .ok (v, st')) :
    ∃ cells, v = .arr cells ∧ cells.length = elements.length := by
  cases fuel with
  | zero => exact absurd h (by intro h; cases h)
  | succ n =>
    rw [eval_ArrayNode, Res.bind_eq_ok] at h
    obtain ⟨⟨cells, s1⟩, h1, h2⟩ := h
    cases h2
    exact ⟨cells, rfl, by simpa using evalElements_length _ _ _ _ _ _ h1⟩

theorem arrayLength_assign_ne (vars : List (String × Value)) (key name : String) (v : Value)
    (h : name ≠ key) : arrayLength (assign vars key v) name = arrayLength vars name := by
  simp only [arrayLength, findArray, find_assign_ne _ _ _ _ h]

theorem arrayLength_eq_some (vars : List (String × Value)) (name : String) (n : Nat)
    (h : arrayLength vars name = some n) :
    ∃ cells, find vars name = some (.arr cells) ∧ cells.length = n := by
  unfold arrayLength findArray at h
  split at h
  · rename_i cells hf
    exact ⟨cells, hf, by simpa using h⟩
  · simp at h

theorem execAll_elementAssign (a : String) (ha : a ≠ "") (fuel : Nat)
    (assignments : List (ExprNode × ExprNode)) (st st' : Interpreter)
    (h : execAll fuel (assignments.map fun p => elementAssign a p.1 p.2) st = .ok st') :
    arrayLength st'.vars a = arrayLength st.vars a ∧ st'.functions = st.functions := by
  induction fuel generalizing assignments st with
  | zero => exact absurd h (by intro h; cases h)
  | succ n ih =>
    unfold execAll at h
    cases assignments with
    | nil => cases h; exact ⟨rfl, rfl⟩
    | cons p rest =>
      simp only [List.map_cons, Res.bind_def, Res.bind_eq_ok] at h
      obtain ⟨s1, h1, h2⟩ := h
      obtain ⟨hl, hfn⟩ := ih rest s1 h2
      obtain ⟨m, v, s0, -, he, rfl⟩ := exec_VarDeclNode_ok _ _ _ _ _ h1
      have inv := (interpInv m).1 _ _ _ _ he
      refine ⟨?_, hfn.trans inv.2.1⟩
      rw [hl]
      simp only
      rw [arrayLength_assign_ne _ _ _ _ ha]
      exact inv.2.2.1 a


/-! ## Fuel monotonicity -/

theorem Res.le_refl {ε α : Type} (a : Res ε α) : Res.le a a := Or.inr rfl

theorem Res.le_trans {ε α : Type} {a b c : Res ε α} (h1 : Res.le a b) (h2 : Res.le b c) :
    Res.le a c := by
  rcases h1 with h1 | h1
  · exact Or.inl h1
  · rw [h1]; exact h2

theorem Res.bind_le {ε α β : Type} {a b : Res ε α} {k k' : α → Res ε β} (h : Res.le a b)
    (hk : ∀ x, Res.le (k x) (k' x)) : Res.le (a.bind k) (b.bind k') := by
  rcases h with h | h
  · rw [h]; exact Or.inl rfl
  · rw [h]
    cases b with
    | ok x => exact hk x
    | error msg => exact Or.inr rfl
    | outOfFuel => exact Or.inr rfl

theorem Res.ite_le {ε α : Type} {c : Prop} [Decidable c] {a a' b b' : Res ε α}
    (h1 : Res.le a a') (h2 : Res.le b b') :
    Res.le (if c then a else b) (if c then a' else b') := by
  split
  · exact h1
  · exact h2

theorem eval_mono_step (n : Nat) (ih : InterpMono n) (e : ExprNode) (st : Interpreter) :
    Res.le (eval (n + 1) e st) (eval (n + 1 + 1) e st) := by
  obtain ⟨ihEval, ihElems, ihBind, ihBody, -, -, -, -⟩ := ih
  cases e with
  | NumberNode value => exact Res.le_refl _
  | StringNode value => exact Res.le_refl _
  | IdentifierNode name => exact Res.le_refl _
  | ArrayNode elements =>
    rw [eval_ArrayNode, eval_ArrayNode]
    exact Res.bind_le (ihElems _ _ _) (fun r => Res.le_refl _)
  | IndexNode array index =>
    rw [eval_IndexNode, eval_IndexNode]
    exact Res.bind_le (ihEval _ _) fun r1 => Res.bind_le (ihEval _ _) fun r2 => Res.le_refl _
  | CallNode func args =>
    cases hf : find st.functions func with
    | some decl =>
      obtain ⟨params, body⟩ := decl
      rw [eval_CallNode_user _ _ _ _ _ _ hf, eval_CallNode_user _ _ _ _ _ _ hf]
      exact Res.ite_le (Res.le_refl _)
        (Res.bind_le (ihBind _ _ _) fun s1 => Res.bind_le (ihBody _ _) fun s2 => Res.le_refl _)
    | none =>
      rw [eval_CallNode_builtin _ _ _ _ hf, eval_CallNode_builtin _ _ _ _ hf]
      refine Res.ite_le ?_ (Res.le_refl _)
      cases args with
      | nil => exact Res.le_refl _
      | cons arg rest =>
        cases rest with
        | nil => exact Res.bind_le (ihEval _ _) fun r => Res.le_refl _
        | cons arg2 rest2 => exact Res.le_refl _
  | BinaryExprNode op left right =>
    by_cases hop : op = "[]="
    · subst hop
      cases left with
      | IndexNode array index =>
        cases array with
        | IdentifierNode name =>
          rw [eval_assign, eval_assign]
          split
          · exact Res.le_refl _
          · exact Res.bind_le (ihEval _ _) fun r1 => Res.bind_le (Res.le_refl _) fun d =>
              Res.ite_le (Res.le_refl _) (Res.ite_le (Res.le_refl _)
                (Res.ite_le (Res.le_refl _) (Res.bind_le (ihEval _ _) fun r2 => Res.le_refl _)))
          · exact Res.le_refl _
        | _ => exact Res.le_refl _
      | _ => exact Res.le_refl _
    · rw [eval_binary _ _ _ _ _ hop, eval_binary _ _ _ _ _ hop]
      exact Res.bind_le (ihEval _ _) fun r1 => Res.bind_le (ihEval _ _) fun r2 =>
        Res.le_refl _

theorem exec_mono_step (n : Nat) (ih : InterpMono n) (node : ASTNode) (st : Interpreter) :
    Res.le (exec (n + 1) node st) (exec (n + 1 + 1) node st) := by
  obtain ⟨ihEval, -, -, -, ihAll, ihWhile, ihFor, -⟩ := ih
  unfold exec
  cases node with
  | VarDeclNode name value =>
    simp only [Res.bind_def]
    exact Res.bind_le (ihEval _ _) fun r => Res.le_refl _
  | PrintNode expr =>
    simp only [Res.bind_def]
    exact Res.bind_le (ihEval _ _) fun r => Res.le_refl _
  | IfNode condition thenBranch elseBranch =>
    simp only [Res.bind_def]
    refine Res.bind_le (ihEval _ _) fun r => ?_
    obtain ⟨cond, s1⟩ := r
    exact Res.ite_le (ihAll _ _) (ihAll _ _)
  | WhileNode condition body => exact ihWhile _ _ _
  | ForNode varName condition increment body =>
    simp only [Res.bind_def]
    refine Res.bind_le (ihEval _ _) fun r => ?_
    obtain ⟨startVal, s1⟩ := r
    refine Res.bind_le (Res.le_refl _) fun start => ?_
    cases increment with
    | BinaryExprNode op left right =>
      refine Res.ite_le ?_ (ihFor _ _ _ _ _ _)
      refine Res.bind_le (ihEval _ _) fun r2 => ?_
      obtain ⟨endVal, s2⟩ := r2
      refine Res.bind_le (Res.le_refl _) fun limit => ?_
      refine Res.bind_le (ihEval _ _) fun r3 => ?_
      obtain ⟨stepVal, s3⟩ := r3
      exact Res.bind_le (Res.le_refl _) fun step => ihFor _ _ _ _ _ _
    | _ =>
      refine Res.bind_le (ihEval _ _) fun r2 => ?_
      obtain ⟨endVal, s2⟩ := r2
      exact Res.bind_le (Res.le_refl _) fun limit => ihFor _ _ _ _ _ _
  | FunctionNode name params body => exact Res.le_refl _
  | ReturnNode value =>
    simp only [Res.bind_def]
    exact Res.bind_le (ihEval _ _) fun r => Res.le_refl _

theorem interpMono : ∀ n, InterpMono n := by
  intro n
  induction n with
  | zero =>
    exact ⟨fun _ _ => Or.inl rfl, fun _ _ _ => Or.inl rfl, fun _ _ _ => Or.inl rfl,
      fun _ _ => Or.inl rfl, fun _ _ => Or.inl rfl, fun _ _ _ => Or.inl rfl,
      fun _ _ _ _ _ _ => Or.inl rfl, fun _ _ => Or.inl rfl⟩
  | succ n ih =>
    have ih0 := ih
    obtain ⟨ihEval, ihElems, ihBind, ihBody, ihAll, ihWhile, ihFor, ihExec⟩ := ih
    refine ⟨eval_mono_step n ih0, ?_, ?_, ?_, ?_, ?_, ?_, exec_mono_step n ih0⟩
    · intro es cells st
      unfold evalElements
      cases es with
      | nil => exact Res.le_refl _
      | cons el rest =>
        simp only [Res.bind_def]
        exact Res.bind_le (ihEval _ _) fun r => ihElems _ _ _
    · intro ps as st
      unfold bindParams
      cases ps with
      | nil => exact Res.le_refl _
      | cons p ps =>
        cases as with
        | nil => exact Res.le_refl _
        | cons a as =>
          simp only [Res.bind_def]
          exact Res.bind_le (ihEval _ _) fun r => ihBind _ _ _
    · intro body st
      unfold execBody
      cases body with
      | nil => exact Res.le_refl _
      | cons stmt rest =>
        simp only [Res.bind_def]
        exact Res.bind_le (ihExec _ _) fun s => Res.ite_le (Res.le_refl _) (ihBody _ _)
    · intro stmts st
      unfold execAll
      cases stmts with
      | nil => exact Res.le_refl _
      | cons stmt rest =>
        simp only [Res.bind_def]
        exact Res.bind_le (ihExec _ _) fun s => ihAll _ _
    · intro c body st
      unfold whileLoop
      simp only [Res.bind_def]
      refine Res.bind_le (ihEval _ _) fun r => ?_
      obtain ⟨cond, s1⟩ := r
      exact Res.ite_le (Res.le_refl _)
        (Res.bind_le (ihAll _ _) fun s => Res.ite_le (Res.le_refl _) (ihWhile _ _ _))
    · intro x i l s body st
      unfold forLoop
      simp only [Res.bind_def]
      exact Res.ite_le
        (Res.bind_le (ihAll _ _) fun s2 => Res.ite_le (Res.le_refl _) (ihFor _ _ _ _ _ _))
        (Res.le_refl _)

theorem exprParserMono : ∀ n, ExprParserMono n := by
  intro n
  induction n with
  | zero =>
    refine ⟨fun _ _ => Or.inl ?_, fun _ _ _ => Or.inl ?_, fun _ _ _ _ => Or.inl ?_,
      fun _ _ => Or.inl ?_, fun _ _ _ => Or.inl ?_, fun _ _ => Or.inl ?_,
      fun _ _ _ => Or.inl ?_⟩
    · unfold parseExpression; rfl
    · unfold parseBinary; rfl
    · unfold parseBinaryLoop; rfl
    · unfold parsePrimary; rfl
    · unfold parseElements; rfl
    · unfold primary; rfl
    · unfold parseIndexLoop; rfl
  | succ n ih =>
    obtain ⟨ihExpr, ihBin, ihLoop, ihPrim, ihElems, ihPrimary, ihIndex⟩ := ih
    refine ⟨?_, ?_, ?_, ?_, ?_, ?_, ?_⟩
    · intro toks pos
      unfold parseExpression
      exact ihBin _ _ _
    · intro toks pos prec
      unfold parseBinary
      try simp only [Res.bind_def]
      repeat' (first
        | exact ihExpr _ _ | exact ihBin _ _ _ | exact ihLoop _ _ _ _ | exact ihPrim _ _
        | exact ihElems _ _ _ | exact ihPrimary _ _ | exact ihIndex _ _ _
        | exact Res.le_refl _ | apply Res.ite_le | apply Res.bind_le | intro _)
    · intro toks pos prec left
      unfold parseBinaryLoop
      try simp only [Res.bind_def]
      repeat' (first
        | exact ihExpr _ _ | exact ihBin _ _ _ | exact ihLoop _ _ _ _ | exact ihPrim _ _
        | exact ihElems _ _ _ | exact ihPrimary _ _ | exact ihIndex _ _ _
        | exact Res.le_refl _ | apply Res.ite_le | apply Res.bind_le | intro _)
    · intro toks pos
      unfold parsePrimary
      try simp only [Res.bind_def]
      repeat' (first
        | exact ihExpr _ _ | exact ihBin _ _ _ | exact ihLoop _ _ _ _ | exact ihPrim _ _
        | exact ihElems _ _ _ | exact ihPrimary _ _ | exact ihIndex _ _ _
        | exact Res.le_refl _ | apply Res.ite_le | apply Res.bind_le | intro _)
    · intro toks pos els
      unfold parseElements
      try simp only [Res.bind_def]
      repeat' (first
        | exact ihExpr _ _ | exact ihBin _ _ _ | exact ihLoop _ _ _ _ | exact ihPrim _ _
        | exact ihElems _ _ _ | exact ihPrimary _ _ | exact ihIndex _ _ _
        | exact Res.le_refl _ | apply Res.ite_le | apply Res.bind_le | intro _)
    · intro toks pos
      unfold primary
      try simp only [Res.bind_def]
      repeat' (first
        | exact ihExpr _ _ | exact ihBin _ _ _ | exact ihLoop _ _ _ _ | exact ihPrim _ _
        | exact ihElems _ _ _ | exact ihPrimary _ _ | exact ihIndex _ _ _
        | exact Res.le_refl _ | apply Res.ite_le | apply Res.bind_le | intro _)
    · intro toks pos e
      unfold parseIndexLoop
      try simp only [Res.bind_def]
      repeat' (first
        | exact ihExpr _ _ | exact ihBin _ _ _ | exact ihLoop _ _ _ _ | exact ihPrim _ _
        | exact ihElems _ _ _ | exact ihPrimary _ _ | exact ihIndex _ _ _
        | exact Res.le_refl _ | apply Res.ite_le | apply Res.bind_le | intro _)

theorem parseVarDecl_mono (n : Nat) (toks : List Token) (pos : Nat) :
    Res.le (parseVarDecl n toks pos) (parseVarDecl (n + 1) toks pos) := by
  have ihExpr := (exprParserMono n).1
  unfold parseVarDecl
  simp only [Res.bind_def]
  repeat' (first
    | exact ihExpr _ _ | exact Res.le_refl _ | apply Res.ite_le | apply Res.bind_le | intro _)

theorem parsePrint_mono (n : Nat) (toks : List Token) (pos : Nat) :
    Res.le (parsePrint n toks pos) (parsePrint (n + 1) toks pos) := by
  have ihExpr := (exprParserMono n).1
  unfold parsePrint
  simp only [Res.bind_def]
  repeat' (first
    | exact ihExpr _ _ | exact Res.le_refl _ | apply Res.ite_le | apply Res.bind_le | intro _)

theorem parseReturn_mono (n : Nat) (toks : List Token) (pos : Nat) :
    Res.le (parseReturn n toks pos) (parseReturn (n + 1) toks pos) := by
  have ihExpr := (exprParserMono n).1
  unfold parseReturn
  simp only [Res.bind_def]
  repeat' (first
    | exact ihExpr _ _ | exact Res.le_refl _ | apply Res.ite_le | apply Res.bind_le | intro _)

theorem parseParams_mono (n : Nat) (toks : List Token) (pos : Nat) (params : List String) :
    Res.le (parseParams n toks pos params) (parseParams (n + 1) toks pos params) := by
  induction n generalizing pos params with
  | zero => exact Or.inl (by unfold parseParams; rfl)
  | succ n ih =>
    unfold parseParams
    repeat' (first | exact ih _ _ | exact Res.le_refl _ | apply Res.ite_le)

theorem parseStatement_mono_step (n : Nat) (ih : StmtParserMono n) (toks : List Token) (pos : Nat) :
    Res.le (parseStatement (n + 1) toks pos) (parseStatement (n + 1 + 1) toks pos) := by
  obtain ⟨ihStmt, ihTail, ihBlock, ihIf, ihWhile, ihFor, ihFunction⟩ := ih
  unfold parseStatement
  simp only [Res.bind_def]
  repeat' (first
    | exact ihStmt _ _ | exact ihTail _ _ | exact ihBlock _ _ _ _ | exact ihIf _ _
    | exact ihWhile _ _ | exact ihFor _ _ | exact ihFunction _ _
    | exact Res.le_refl _
    | exact (exprParserMono n).1 _ _ | exact (exprParserMono n).2.2.2.1 _ _
    | exact parseVarDecl_mono n _ _ | exact parsePrint_mono n _ _
    | exact parseReturn_mono n _ _ | exact parseParams_mono n _ _ _
    | apply Res.ite_le | apply Res.bind_le | intro _)

theorem parseStatementTail_mono_step (n : Nat) (ih : StmtParserMono n) (toks : List Token)
    (pos : Nat) :
    Res.le (parseStatementTail (n + 1) toks pos) (parseStatementTail (n + 1 + 1) toks pos) := by
  obtain ⟨ihStmt, ihTail, ihBlock, ihIf, ihWhile, ihFor, ihFunction⟩ := ih
  unfold parseStatementTail
  simp only [Res.bind_def]
  repeat' (first
    | exact ihStmt _ _ | exact ihTail _ _ | exact ihBlock _ _ _ _ | exact ihIf _ _
    | exact ihWhile _ _ | exact ihFor _ _ | exact ihFunction _ _
    | exact Res.le_refl _
    | exact (exprParserMono n).1 _ _ | exact (exprParserMono n).2.2.2.1 _ _
    | exact parseVarDecl_mono n _ _ | exact parsePrint_mono n _ _
    | exact parseReturn_mono n _ _ | exact parseParams_mono n _ _ _
    | apply Res.ite_le | apply Res.bind_le | intro _)

theorem parseIf_mono_step (n : Nat) (ih : StmtParserMono n) (toks : List Token) (pos : Nat) :
    Res.le (parseIf (n + 1) toks pos) (parseIf (n + 1 + 1) toks pos) := by
  obtain ⟨ihStmt, ihTail, ihBlock, ihIf, ihWhile, ihFor, ihFunction⟩ := ih
  unfold parseIf
  simp only [Res.bind_def]
  repeat' (first
    | exact ihStmt _ _ | exact ihTail _ _ | exact ihBlock _ _ _ _ | exact ihIf _ _
    | exact ihWhile _ _ | exact ihFor _ _ | exact ihFunction _ _
    | exact Res.le_refl _
    | exact (exprParserMono n).1 _ _ | exact (exprParserMono n).2.2.2.1 _ _
    | exact parseVarDecl_mono n _ _ | exact parsePrint_mono n _ _
    | exact parseReturn_mono n _ _ | exact parseParams_mono n _ _ _
    | apply Res.ite_le | apply Res.bind_le | intro _)

theorem parseWhile_mono_step (n : Nat) (ih : StmtParserMono n) (toks : List Token) (pos : Nat) :
    Res.le (parseWhile (n + 1) toks pos) (parseWhile (n + 1 + 1) toks pos) := by
  obtain ⟨ihStmt, ihTail, ihBlock, ihIf, ihWhile, ihFor, ihFunction⟩ := ih
  unfold parseWhile
  simp only [Res.bind_def]
  repeat' (first
    | exact ihStmt _ _ | exact ihTail _ _ | exact ihBlock _ _ _ _ | exact ihIf _ _
    | exact ihWhile _ _ | exact ihFor _ _ | exact ihFunction _ _
    | exact Res.le_refl _
    | exact (exprParserMono n).1 _ _ | exact (exprParserMono n).2.2.2.1 _ _
    | exact parseVarDecl_mono n _ _ | exact parsePrint_mono n _ _
    | exact parseReturn_mono n _ _ | exact parseParams_mono n _ _ _
    | apply Res.ite_le | apply Res.bind_le | intro _)

theorem parseFor_mono_step (n : Nat) (ih : StmtParserMono n) (toks : List Token) (pos : Nat) :
    Res.le (parseFor (n + 1) toks pos) (parseFor (n + 1 + 1) toks pos) := by
  obtain ⟨ihStmt, ihTail, ihBlock, ihIf, ihWhile, ihFor, ihFunction⟩ := ih
  unfold parseFor
  simp only [Res.bind_def]
  repeat' (first
    | exact ihStmt _ _ | exact ihTail _ _ | exact ihBlock _ _ _ _ | exact ihIf _ _
    | exact ihWhile _ _ | exact ihFor _ _ | exact ihFunction _ _
    | exact Res.le_refl _
    | exact (exprParserMono n).1 _ _ | exact (exprParserMono n).2.2.2.1 _ _
    | exact parseVarDecl_mono n _ _ | exact parsePrint_mono n _ _
    | exact parseReturn_mono n _ _ | exact parseParams_mono n _ _ _
    | apply Res.ite_le | apply Res.bind_le | intro _)

theorem parseFunction_mono_step (n : Nat) (ih : StmtParserMono n) (toks : List Token) (pos : Nat) :
    Res.le (parseFunction (n + 1) toks pos) (parseFunction (n + 1 + 1) toks pos) := by
  obtain ⟨ihStmt, ihTail, ihBlock, ihIf, ihWhile, ihFor, ihFunction⟩ := ih
  unfold parseFunction
  simp only [Res.bind_def]
  repeat' (first
    | exact ihStmt _ _ | exact ihTail _ _ | exact ihBlock _ _ _ _ | exact ihIf _ _
    | exact ihWhile _ _ | exact ihFor _ _ | exact ihFunction _ _
    | exact Res.le_refl _
    | exact (exprParserMono n).1 _ _ | exact (exprParserMono n).2.2.2.1 _ _
    | exact parseVarDecl_mono n _ _ | exact parsePrint_mono n _ _
    | exact parseReturn_mono n _ _ | exact parseParams_mono n _ _ _
    | apply Res.ite_le | apply Res.bind_le | intro _)

theorem parseBlock_mono_step (n : Nat) (ih : StmtParserMono n) (toks : List Token) (pos : Nat)
    (term : Terminator) (body : List ASTNode) :
    Res.le (parseBlock (n + 1) toks pos term body) (parseBlock (n + 1 + 1) toks pos term body) := by
  obtain ⟨ihStmt, -, ihBlock, -, -, -, -⟩ := ih
  unfold parseBlock
  simp only [Res.bind_def]
  apply Res.ite_le
  · apply Res.bind_le (ihStmt _ _)
    intro r
    obtain ⟨stmt, pos1⟩ := r
    cases stmt with
    | none => exact ihBlock _ _ _ _
    | some node =>
      cases term with
      | none => exact ihBlock _ _ _ _
      | optional => exact Res.ite_le (ihBlock _ _ _ _) (ihBlock _ _ _ _)
      | required msg => exact Res.ite_le (ihBlock _ _ _ _) (Res.le_refl _)
  · exact Res.le_refl _

theorem stmtParserMono : ∀ n, StmtParserMono n := by
  intro n
  induction n with
  | zero =>
    refine ⟨fun _ _ => Or.inl ?_, fun _ _ => Or.inl ?_, fun _ _ _ _ => Or.inl ?_,
      fun _ _ => Or.inl ?_, fun _ _ => Or.inl ?_, fun _ _ => Or.inl ?_, fun _ _ => Or.inl ?_⟩
    · unfold parseStatement; rfl
    · unfold parseStatementTail; rfl
    · unfold parseBlock; rfl
    · unfold parseIf; rfl
    · unfold parseWhile; rfl
    · unfold parseFor; rfl
    · unfold parseFunction; rfl
  | succ n ih =>
    exact ⟨parseStatement_mono_step n ih, parseStatementTail_mono_step n ih,
      parseBlock_mono_step n ih, parseIf_mono_step n ih, parseWhile_mono_step n ih,
      parseFor_mono_step n ih, parseFunction_mono_step n ih⟩

theorem Res.le_eq {ε α : Type} {a b r : Res ε α} (h : Res.le a b) (ha : a = r)
    (hr : r ≠ .outOfFuel) : b = r := by
  rcases h with h | h
  · exact absurd (ha.symm.trans h) hr
  · rw [← h]; exact ha

theorem Res.le_of_steps {ε α : Type} (f : Nat → Res ε α)
    (h : ∀ n, Res.le (f n) (f (n + 1)))
    (n m : Nat) (hnm : n ≤ m) : Res.le (f n) (f m) := by
  induction m with
  | zero =>
    have : n = 0 := Nat.le_zero.mp hnm
    rw [this]
    exact Res.le_refl _
  | succ m ih =>
    rcases Nat.lt_or_ge n (m + 1) with hlt | hge
    · exact Res.le_trans (ih (Nat.lt_succ_iff.mp hlt)) (h m)
    · have : n = m + 1 := Nat.le_antisymm hnm hge
      rw [this]
      exact Res.le_refl _

theorem parseLoop_mono (n : Nat) (toks : List Token) (pos : Nat) (nodes : List ASTNode) :
    Res.le (parseLoop n toks pos nodes) (parseLoop (n + 1) toks pos nodes) := by
  induction n generalizing pos nodes with
  | zero => exact Or.inl (by unfold parseLoop; rfl)
  | succ n ih =>
    unfold parseLoop
    simp only [Res.bind_def]
    apply Res.ite_le
    · apply Res.bind_le ((stmtParserMono n).1 _ _)
      intro r
      obtain ⟨stmt, pos1⟩ := r
      cases stmt with
      | none => exact ih _ _
      | some node => exact ih _ _
    · exact Res.le_refl _

theorem parseSource_mono (n : Nat) (src : String) :
    Res.le (parseSource n src) (parseSource (n + 1) src) := by
  unfold parseSource
  cases tokenize src with
  | none => exact Res.le_refl _
  | some toks => exact parseLoop_mono _ _ _ _

theorem interpretLoop_mono (n : Nat) (ast : List ASTNode) (st : Interpreter) :
    Res.le (interpretLoop n ast st) (interpretLoop (n + 1) ast st) := by
  induction ast generalizing st with
  | nil => exact Res.le_refl _
  | cons node rest ih =>
    have hexec := (interpMono n).2.2.2.2.2.2.2
    cases node with
    | FunctionNode name params body => exact ih _
    | VarDeclNode name value =>
      exact Res.bind_le (hexec _ _) fun s => Res.ite_le (Res.le_refl _) (ih _)
    | PrintNode expr =>
      exact Res.bind_le (hexec _ _) fun s => Res.ite_le (Res.le_refl _) (ih _)
    | IfNode condition thenBranch elseBranch =>
      exact Res.bind_le (hexec _ _) fun s => Res.ite_le (Res.le_refl _) (ih _)
    | WhileNode condition body =>
      exact Res.bind_le (hexec _ _) fun s => Res.ite_le (Res.le_refl _) (ih _)
    | ForNode init condition increment body =>
      exact Res.bind_le (hexec _ _) fun s => Res.ite_le (Res.le_refl _) (ih _)
    | ReturnNode value =>
      exact Res.bind_le (hexec _ _) fun s => Res.ite_le (Res.le_refl _) (ih _)

theorem Res.map_le {ε ε' α β : Type} (g : ε → ε') (f : α → β) {a b : Res ε α}
    (h : Res.le a b) : Res.le (a.map g f) (b.map g f) := by
  rcases h with h | h
  · rw [h]; exact Or.inl rfl
  · rw [h]; exact Or.inr rfl

theorem runProgram_mono (n : Nat) (ast : List ASTNode) :
    Res.le (runProgram n ast) (runProgram (n + 1) ast) :=
  Res.map_le _ _ (interpretLoop_mono _ _ _)

theorem runSource_mono (n : Nat) (src : String) :
    Res.le (runSource n src) (runSource (n + 1) src) :=
  Res.bind_le (Res.map_le _ _ (parseSource_mono _ _)) fun _ => runProgram_mono _ _

theorem valueAfter_mono (n : Nat) (prog : List ASTNode) (expr : ExprNode) :
    Res.le (valueAfter n prog expr) (valueAfter (n + 1) prog expr) :=
  Res.bind_le (interpretLoop_mono _ _ _) fun _ =>
    Res.bind_le ((interpMono n).1 _ _) fun _ => Res.le_refl _

/-- A result other than fuel exhaustion, once reached, is the result with any larger fuel. -/
theorem runSource_stable (n : Nat) (src : String) (r : Res (String × List String) (List String))
    (h : runSource n src = r) (hr : r ≠ .outOfFuel) (m : Nat) (hm : n ≤ m) :
    runSource m src = r :=
  Res.le_eq (Res.le_of_steps (fun k => runSource k src) (fun k => runSource_mono k src) n m hm)
    h hr

theorem runProgram_stable (n : Nat) (ast : List ASTNode)
    (r : Res (String × List String) (List String))
    (h : runProgram n ast = r) (hr : r ≠ .outOfFuel) (m : Nat) (hm : n ≤ m) :
    runProgram m ast = r :=
  Res.le_eq
    (Res.le_of_steps (fun k => runProgram k ast) (fun k => runProgram_mono k ast) n m hm) h hr

theorem valueAfter_stable (n : Nat) (prog : List ASTNode) (expr : ExprNode) (r : Res Fault Value)
    (h : valueAfter n prog expr = r) (hr : r ≠ .outOfFuel) (m : Nat) (hm : n ≤ m) :
    valueAfter m prog expr = r :=
  Res.le_eq (Res.le_of_steps (fun k => valueAfter k prog expr)
    (fun k => valueAfter_mono k prog expr) n m hm) h hr

theorem parseSource_stable (n : Nat) (src : String) (r : Res String (List ASTNode))
    (h : parseSource n src = r) (hr : r ≠ .outOfFuel) (m : Nat) (hm : n ≤ m) :
    parseSource m src = r :=
  Res.le_eq (Res.le_of_steps (fun k => parseSource k src) (fun k => parseSource_mono k src)
    n m hm) h hr

/-- Whatever a run returns with some fuel, it returns with every fuel from a fixed amount on
that gives a result at all: two amounts of fuel never give two different results. -/
theorem runSource_unique (n m : Nat) (src : String)
    (r r' : Res (String × List String) (List String))
    (h : runSource n src = r) (hr : r ≠ .outOfFuel) (h' : runSource m src = r')
    (hr' : r' ≠ .outOfFuel) : r = r' := by
  rcases Nat.le_total n m with hnm | hmn
  · exact (runSource_stable n src r h hr m hnm).symm.trans h'
  · exact h.symm.trans (runSource_stable m src r' h' hr' n hmn)

theorem runProgram_unique (n m : Nat) (ast : List ASTNode)
    (r r' : Res (String × List String) (List String))
    (h : runProgram n ast = r) (hr : r ≠ .outOfFuel) (h' : runProgram m ast = r')
    (hr' : r' ≠ .outOfFuel) : r = r' := by
  rcases Nat.le_total n m with hnm | hmn
  · exact (runProgram_stable n ast r h hr m hnm).symm.trans h'
  · exact h.symm.trans (runProgram_stable m ast r' h' hr' n hmn)

theorem valueAfter_unique (n m : Nat) (prog : List ASTNode) (expr : ExprNode)
    (r r' : Res Fault Value) (h : valueAfter n prog expr = r) (hr : r ≠ .outOfFuel)
    (h' : valueAfter m prog expr = r') (hr' : r' ≠ .outOfFuel) : r = r' := by
  rcases Nat.le_total n m with hnm | hmn
  · exact (valueAfter_stable n prog expr r h hr m hnm).symm.trans h'
  · exact h.symm.trans (valueAfter_stable m prog expr r' h' hr' n hmn)

/-! ## Operators and conditions -/

theorem eval_binary_values (fuel : Nat) (op : String) (left right : ExprNode)
    (st s1 s2 : Interpreter) (l r : Value) (hop : op ≠ "[]=")
    (hl : eval fuel left st = .ok (l, s1)) (hr : eval fuel right s1 = .ok (r, s2)) :
    eval (fuel + 1) (.BinaryExprNode op left right) st
      = ((binaryOp op l r).inState s2).bind fun v => .ok (v, s2) := by
  rw [eval_binary _ _ _ _ _ hop, hl]
  show ((eval fuel right s1).bind _) = _
  rw [hr]
  rfl

theorem whileLoop_succ (fuel : Nat) (condition : ExprNode) (body : List ASTNode)
    (st : Interpreter) :
    whileLoop (fuel + 1) condition body st
      = (eval fuel condition st).bind fun r =>
          if !truthy r.1 then .ok r.2
          else (execAll fuel body r.2).bind fun s2 =>
            if s2.hasReturn then .ok s2 else whileLoop fuel condition body s2 := by
  rw [whileLoop]
  rfl

theorem exec_IfNode (fuel : Nat) (condition : ExprNode) (thenBranch elseBranch : List ASTNode)
    (st : Interpreter) :
    exec (fuel + 1) (.IfNode condition thenBranch elseBranch) st
      = (eval fuel condition st).bind fun r =>
          if truthy r.1 then execAll fuel thenBranch r.2 else execAll fuel elseBranch r.2 := by
  rw [exec]
  rfl

theorem exec_WhileNode (fuel : Nat) (condition : ExprNode) (body : List ASTNode)
    (st : Interpreter) :
    exec (fuel + 1) (.WhileNode condition body) st = whileLoop fuel condition body st := by
  rw [exec]

/-! ## Element assignment -/

theorem find_arr_of_arrayLength (vars vars' : List (String × Value)) (name : String)
    (cells : List Value) (h : find vars name = some (.arr cells))
    (hlen : arrayLength vars' name = arrayLength vars name) :
    ∃ cells', find vars' name = some (.arr cells') ∧ cells'.length = cells.length := by
  apply arrayLength_eq_some
  rw [hlen]
  simp only [arrayLength, findArray, h, Option.map_some']

theorem find_setCell_same (vars : List (String × Value)) (name : String) (cells : List Value)
    (i : Nat) (v : Value) (h : find vars name = some (.arr cells)) :
    find (setCell vars name i v) name = some (.arr (cells.set i v)) := by
  simp only [setCell, findArray, h, find_assign_same]

/-! ## Results that do not depend on the fuel -/

theorem Res.stable_of_mono {ε α : Type} (f : Nat → Res ε α)
    (hmono : ∀ n, Res.le (f n) (f (n + 1))) (n : Nat) (r : Res ε α) (h : f n = r)
    (hr : r ≠ .outOfFuel) (m : Nat) (hm : n ≤ m) : f m = r :=
  Res.le_eq (Res.le_of_steps f hmono n m hm) h hr

theorem Res.unique_of_mono {ε α : Type} (f : Nat → Res ε α)
    (hmono : ∀ n, Res.le (f n) (f (n + 1))) (n m : Nat) (r r' : Res ε α) (h : f n = r)
    (hr : r ≠ .outOfFuel) (h' : f m = r') (hr' : r' ≠ .outOfFuel) : r = r' := by
  rcases Nat.le_total n m with hnm | hmn
  · exact (Res.stable_of_mono f hmono n r h hr m hnm).symm.trans h'
  · exact h.symm.trans (Res.stable_of_mono f hmono m r' h' hr' n hmn)

theorem parseExpressionSource_mono (n : Nat) (src : String) :
    Res.le (parseExpressionSource n src) (parseExpressionSource (n + 1) src) := by
  unfold parseExpressionSource
  cases tokenize src with
  | none => exact Res.le_refl _
  | some toks => exact Res.map_le _ _ ((exprParserMono n).1 toks 0)

theorem parseExpressionSource_stable (n : Nat) (src : String)
    (r : Res String (ExprNode × List String)) (h : parseExpressionSource n src = r)
    (hr : r ≠ .outOfFuel) (m : Nat) (hm : n ≤ m) : parseExpressionSource m src = r :=
  Res.stable_of_mono (fun k => parseExpressionSource k src)
    (fun k => parseExpressionSource_mono k src) n r h hr m hm

theorem parseSource_unique (n m : Nat) (src : String) (r r' : Res String (List ASTNode))
    (h : parseSource n src = r) (hr : r ≠ .outOfFuel) (h' : parseSource m src = r')
    (hr' : r' ≠ .outOfFuel) : r = r' :=
  Res.unique_of_mono (fun k => parseSource k src) (fun k => parseSource_mono k src)
    n m r r' h hr h' hr'

/-! ## Where an expression ends -/

theorem parseBinaryLoop_stops (fuel : Nat) (toks : List Token) (pos precedence : Nat)
    (left e : ExprNode) (pos' : Nat)
    (h : parseBinaryLoop fuel toks pos precedence left = .ok (e, pos')) :
    ¬ ((peek toks pos').type = .Operator
        ∧ getPrecedence (peek toks pos').value ≥ precedence) := by
  induction fuel generalizing pos left with
  | zero =>
    unfold parseBinaryLoop at h
    cases h
  | succ n ih =>
    unfold parseBinaryLoop at h
    split at h
    · simp only [Res.bind_def, Res.bind_eq_ok] at h
      obtain ⟨⟨right, p2⟩, -, h2⟩ := h
      exact ih _ _ h2
    · rename_i hc
      injection h with h
      injection h with h1 h2
      subst h2
      exact hc

theorem parseExpression_stops (fuel : Nat) (toks : List Token) (pos : Nat) (e : ExprNode)
    (pos' : Nat) (h : parseExpression fuel toks pos = .ok (e, pos')) :
    (peek toks pos').type ≠ .Operator := by
  cases fuel with
  | zero =>
    unfold parseExpression at h
    cases h
  | succ n =>
    unfold parseExpression at h
    cases n with
    | zero =>
      unfold parseBinary at h
      cases h
    | succ k =>
      unfold parseBinary at h
      simp only [Res.bind_def, Res.bind_eq_ok] at h
      obtain ⟨⟨left, p1⟩, -, h2⟩ := h
      intro hop
      exact parseBinaryLoop_stops _ _ _ _ _ _ _ h2 ⟨hop, Nat.zero_le _⟩

theorem isSemicolon_after_expression (fuel : Nat) (toks : List Token) (pos : Nat)
    (e : ExprNode) (pos' : Nat) (h : parseExpression fuel toks pos = .ok (e, pos')) :
    isSemicolon toks pos' = false := by
  have := parseExpression_stops fuel toks pos e pos' h
  simp [isSemicolon, this]

theorem parseExpressionSource_unique (n m : Nat) (src : String)
    (r r' : Res String (ExprNode × List String)) (h : parseExpressionSource n src = r)
    (hr : r ≠ .outOfFuel) (h' : parseExpressionSource m src = r') (hr' : r' ≠ .outOfFuel) :
    r = r' :=
  Res.unique_of_mono (fun k => parseExpressionSource k src)
    (fun k => parseExpressionSource_mono k src) n m r r' h hr h' hr'

/-! ## The operator loop of the expression parser -/

theorem parseExpression_succ (n : Nat) (toks : List Token) (pos : Nat) :
    parseExpression (n + 1) toks pos = parseBinary n toks pos 0 := by
  rw [parseExpression]

theorem parseBinary_succ (n : Nat) (toks : List Token) (pos precedence : Nat) :
    parseBinary (n + 1) toks pos precedence
      = (parsePrimary n toks pos).bind fun r => parseBinaryLoop n toks r.2 precedence r.1 := by
  rw [parseBinary]
  rfl

theorem parseBinaryLoop_stop (n : Nat) (toks : List Token) (pos precedence : Nat)
    (left : ExprNode)
    (h : ¬ ((peek toks pos).type = .Operator
        ∧ getPrecedence (peek toks pos).value ≥ precedence)) :
    parseBinaryLoop (n + 1) toks pos precedence left = .ok (left, pos) := by
  rw [parseBinaryLoop, if_neg h]

theorem parseBinaryLoop_step (n : Nat) (toks : List Token) (pos precedence : Nat)
    (left : ExprNode)
    (h : (peek toks pos).type = .Operator
        ∧ getPrecedence (peek toks pos).value ≥ precedence) :
    parseBinaryLoop (n + 1) toks pos precedence left
      = (parseBinary n toks (advance toks pos) (getPrecedence (peek toks pos).value + 1)).bind
          fun r => parseBinaryLoop n toks r.2 precedence
            (.BinaryExprNode (peek toks pos).value left r.1) := by
  rw [parseBinaryLoop, if_pos h]
  rfl

theorem parsePrimary_stable (n : Nat) (toks : List Token) (pos : Nat)
    (r : Res String (ExprNode × Nat)) (h : parsePrimary n toks pos = r) (hr : r ≠ .outOfFuel)
    (m : Nat) (hm : n ≤ m) : parsePrimary m toks pos = r :=
  Res.stable_of_mono (fun k => parsePrimary k toks pos)
    (fun k => (exprParserMono k).2.2.2.1 toks pos) n r h hr m hm

/-- A primary that no operator of precedence `precedence` or more follows is all that
`parseBinary(precedence)` reads. -/
theorem parseBinary_operand (fuel : Nat) (toks : List Token) (pos precedence : Nat)
    (p : ExprNode) (next : Nat) (hp : parsePrimary fuel toks pos = .ok (p, next))
    (hstop : ¬ ((peek toks next).type = .Operator
        ∧ getPrecedence (peek toks next).value ≥ precedence))
    (m : Nat) (hm : fuel + 2 ≤ m) : parseBinary m toks pos precedence = .ok (p, next) := by
  obtain ⟨k, rfl⟩ : ∃ k, m = k + 2 := ⟨m - 2, by omega⟩
  rw [parseBinary_succ, parsePrimary_stable fuel toks pos _ hp (by simp) (k + 1) (by omega)]
  exact parseBinaryLoop_stop k toks next precedence p hstop

theorem OperandChain.head_stops (fuel : Nat) (toks : List Token) (prec pos : Nat)
    (chain : List (String × ExprNode)) (last : Nat)
    (h : OperandChain fuel toks prec pos chain last)
    (hend : (peek toks last).type ≠ .Operator) :
    ¬ ((peek toks pos).type = .Operator ∧ getPrecedence (peek toks pos).value ≥ prec + 1) := by
  cases chain with
  | nil =>
    unfold OperandChain at h
    subst h
    exact fun hc => hend hc.1
  | cons head rest =>
    obtain ⟨op, p⟩ := head
    unfold OperandChain at h
    obtain ⟨-, hval, hprec, -⟩ := h
    rw [hval, hprec]
    exact fun hc => absurd hc.2 (by omega)

/-- The operator loop on a chain of operators of one precedence nests to the left. -/
theorem parseBinaryLoop_chain (fuel : Nat) (toks : List Token) (prec precedence : Nat)
    (hq : precedence ≤ prec) (last : Nat) (hend : (peek toks last).type ≠ .Operator)
    (chain : List (String × ExprNode)) :
    ∀ (pos : Nat) (left : ExprNode), OperandChain fuel toks prec pos chain last →
      ∀ m, fuel + chain.length + 2 ≤ m →
        parseBinaryLoop m toks pos precedence left = .ok (leftNested left chain, last) := by
  induction chain with
  | nil =>
    intro pos left h m hm
    unfold OperandChain at h
    subst h
    obtain ⟨k, rfl⟩ : ∃ k, m = k + 1 := ⟨m - 1, by omega⟩
    exact parseBinaryLoop_stop k toks pos precedence left (fun hc => hend hc.1)
  | cons head rest ih =>
    intro pos left h m hm
    obtain ⟨op, p⟩ := head
    unfold OperandChain at h
    obtain ⟨htype, hval, hprec, next, hp, hrest⟩ := h
    simp only [List.length_cons] at hm
    obtain ⟨k, rfl⟩ : ∃ k, m = k + 1 := ⟨m - 1, by omega⟩
    rw [parseBinaryLoop_step k toks pos precedence left ⟨htype, by rw [hval, hprec]; exact hq⟩,
      hval, hprec,
      parseBinary_operand fuel toks (advance toks pos) (prec + 1) p next hp
        (OperandChain.head_stops fuel toks prec next rest last hrest hend) k (by omega)]
    exact ih next (.BinaryExprNode op left p) hrest k (by omega)

/-- The tree of `parseExpression` on a first primary followed by a chain of operators of one
precedence. -/
theorem parseExpression_chain (fuel : Nat) (toks : List Token) (prec pos : Nat)
    (p0 : ExprNode) (pos0 : Nat) (chain : List (String × ExprNode)) (last : Nat)
    (h0 : parsePrimary fuel toks pos = .ok (p0, pos0))
    (hchain : OperandChain fuel toks prec pos0 chain last)
    (hend : (peek toks last).type ≠ .Operator) (m : Nat) (hm : fuel + chain.length + 4 ≤ m) :
    parseExpression m toks pos = .ok (leftNested p0 chain, last) := by
  obtain ⟨k, rfl⟩ : ∃ k, m = k + 2 := ⟨m - 2, by omega⟩
  rw [parseExpression_succ, parseBinary_succ,
    parsePrimary_stable fuel toks pos _ h0 (by simp) k (by omega)]
  exact parseBinaryLoop_chain fuel toks prec 0 (Nat.zero_le _) last hend chain pos0 p0 hchain k
    (by omega)

/-- The tree of `parseExpression` on `p0 o1 p1 o2 p2`: the operator of higher precedence takes
`p1`, and of two operators of one precedence the first. -/
theorem parseExpression_two_operators (fuel : Nat) (toks : List Token) (pos : Nat)
    (p0 p1 p2 : ExprNode) (pos0 pos1 pos2 : Nat) (o1 o2 : String)
    (h0 : parsePrimary fuel toks pos = .ok (p0, pos0))
    (ht1 : (peek toks pos0).type = .Operator) (hv1 : (peek toks pos0).value = o1)
    (h1 : parsePrimary fuel toks (advance toks pos0) = .ok (p1, pos1))
    (ht2 : (peek toks pos1).type = .Operator) (hv2 : (peek toks pos1).value = o2)
    (h2 : parsePrimary fuel toks (advance toks pos1) = .ok (p2, pos2))
    (hend : (peek toks pos2).type ≠ .Operator) (m : Nat) (hm : fuel + 7 ≤ m) :
    parseExpression m toks pos
      = .ok (if getPrecedence o1 < getPrecedence o2
          then .BinaryExprNode o1 p0 (.BinaryExprNode o2 p1 p2)
          else .BinaryExprNode o2 (.BinaryExprNode o1 p0 p1) p2, pos2) := by
  obtain ⟨k, rfl⟩ : ∃ k, m = k + 7 := ⟨m - 7, by omega⟩
  have hstop : ∀ q, ¬ ((peek toks pos2).type = .Operator
      ∧ getPrecedence (peek toks pos2).value ≥ q) := fun q hc => hend hc.1
  rw [parseExpression_succ, parseBinary_succ,
    parsePrimary_stable fuel toks pos _ h0 (by simp) (k + 5) (by omega)]
  show parseBinaryLoop (k + 4 + 1) toks pos0 0 p0 = _
  rw [parseBinaryLoop_step _ toks pos0 0 p0 ⟨ht1, Nat.zero_le _⟩, hv1]
  by_cases hlt : getPrecedence o1 < getPrecedence o2
  · rw [if_pos hlt]
    have hright : parseBinary (k + 4) toks (advance toks pos0) (getPrecedence o1 + 1)
        = .ok (.BinaryExprNode o2 p1 p2, pos2) := by
      rw [parseBinary_succ, parsePrimary_stable fuel toks _ _ h1 (by simp) (k + 3) (by omega)]
      show parseBinaryLoop (k + 2 + 1) toks pos1 (getPrecedence o1 + 1) p1 = _
      rw [parseBinaryLoop_step _ toks pos1 _ p1 ⟨ht2, by rw [hv2]; omega⟩, hv2,
        parseBinary_operand fuel toks (advance toks pos1) _ p2 pos2 h2 (hstop _) (k + 2)
          (by omega)]
      exact parseBinaryLoop_stop (k + 1) toks pos2 _ _ (hstop _)
    rw [hright]
    exact parseBinaryLoop_stop (k + 3) toks pos2 0 _ (hstop _)
  · rw [if_neg hlt,
      parseBinary_operand fuel toks (advance toks pos0) _ p1 pos1 h1
        (by rw [hv2]; exact fun hc => absurd hc.2 (by omega)) (k + 4) (by omega)]
    show parseBinaryLoop (k + 3 + 1) toks pos1 0 (.BinaryExprNode o1 p0 p1) = _
    rw [parseBinaryLoop_step _ toks pos1 0 _ ⟨ht2, Nat.zero_le _⟩, hv2,
      parseBinary_operand fuel toks (advance toks pos1) _ p2 pos2 h2 (hstop _) (k + 3)
        (by omega)]
    exact parseBinaryLoop_stop (k + 2) toks pos2 0 _ (hstop _)

/-! ## The function registry -/

theorem find_registerFunctions (ast : List ASTNode) (st : Interpreter) (name : String) :
    find (registerFunctions ast st).functions name
      = match declared ast name with
        | some d => some d
        | none => find st.functions name := by
  induction ast generalizing st with
  | nil => rfl
  | cons node rest ih =>
    cases node with
    | FunctionNode n params body =>
      simp only [registerFunctions, declared]
      rw [ih]
      cases declared rest name with
      | some d => rfl
      | none =>
        simp only
        by_cases hn : n = name
        · subst hn
          rw [if_pos rfl, find_assign_same]
        · rw [if_neg hn, find_assign_ne _ _ _ _ (Ne.symm hn)]
    | VarDeclNode name value => exact ih st
    | PrintNode expr => exact ih st
    | IfNode condition thenBranch elseBranch => exact ih st
    | WhileNode condition body => exact ih st
    | ForNode init condition increment body => exact ih st
    | ReturnNode value => exact ih st

theorem registerFunctions_keeps (ast : List ASTNode) (st : Interpreter) :
    (registerFunctions ast st).vars = st.vars
      ∧ (registerFunctions ast st).callStack = st.callStack
      ∧ (registerFunctions ast st).hasReturn = st.hasReturn
      ∧ (registerFunctions ast st).returnValue = st.returnValue
      ∧ (registerFunctions ast st).out = st.out := by
  induction ast generalizing st with
  | nil => exact ⟨rfl, rfl, rfl, rfl, rfl⟩
  | cons node rest ih =>
    cases node with
    | FunctionNode n params body => exact ih _
    | VarDeclNode name value => exact ih st
    | PrintNode expr => exact ih st
    | IfNode condition thenBranch elseBranch => exact ih st
    | WhileNode condition body => exact ih st
    | ForNode init condition increment body => exact ih st
    | ReturnNode value => exact ih st

theorem interpretLoop_step (fuel : Nat) (node : ASTNode) (rest : List ASTNode)
    (st : Interpreter) (hnode : ∀ n ps b, node ≠ .FunctionNode n ps b) :
    interpretLoop fuel (node :: rest) st
      = (exec fuel node st).bind fun s =>
          if s.hasReturn then .ok s else interpretLoop fuel rest s := by
  cases node with
  | FunctionNode n params body => exact absurd rfl (hnode n params body)
  | VarDeclNode name value => rfl
  | PrintNode expr => rfl
  | IfNode condition thenBranch elseBranch => rfl
  | WhileNode condition body => rfl
  | ForNode init condition increment body => rfl
  | ReturnNode value => rfl

theorem interpretLoop_functions (fuel : Nat) (ast : List ASTNode) (st st' : Interpreter)
    (h : interpretLoop fuel ast st = .ok st') : st'.functions = st.functions := by
  induction ast generalizing st with
  | nil =>
    cases h
    rfl
  | cons node rest ih =>
    by_cases hnode : ∃ n ps b, node = .FunctionNode n ps b
    · obtain ⟨n, ps, b, rfl⟩ := hnode
      exact ih st h
    · rw [interpretLoop_step fuel node rest st
        (fun n ps b hc => hnode ⟨n, ps, b, hc⟩), Res.bind_eq_ok] at h
      obtain ⟨s, hs, h2⟩ := h
      have hexec := ((interpInv fuel).2.2.2.2.2.2.2 node st s hs).2
      by_cases hr : s.hasReturn = true
      · rw [if_pos hr] at h2
        cases h2
        exact hexec
      · rw [if_neg hr] at h2
        exact (ih s h2).trans hexec

theorem exec_FunctionNode (fuel : Nat) (name : String) (params : List String)
    (body : List ASTNode) (st : Interpreter) :
    exec (fuel + 1) (.FunctionNode name params body) st = .ok st := by
  rw [exec]

/-! ## What a declaration consumes -/

theorem parseVarDecl_consumes (fuel : Nat) (toks : List Token) (pos : Nat) (node : ASTNode)
    (pos' : Nat) (h : parseVarDecl fuel toks pos = .ok (node, pos')) :
    ∃ value p,
      parseExpression fuel toks (advance toks (advance toks (advance toks pos)))
        = .ok (value, p)
      ∧ node = .VarDeclNode (peek toks (advance toks pos)).value value
      ∧ pos' = advance toks p := by
  unfold parseVarDecl at h
  simp only at h
  split at h
  · cases h
  split at h
  · cases h
  simp only [Res.bind_def, Res.bind_eq_ok] at h
  obtain ⟨⟨value, p⟩, hv, h2⟩ := h
  refine ⟨value, p, hv, ?_⟩
  simp only at h2
  split at h2
  · split at h2
    · cases h2
      exact ⟨rfl, rfl⟩
    · rename_i hend
      have hE : (peek toks p).type = .EndOfFile := by simpa using hend
      cases h2
      refine ⟨rfl, ?_⟩
      simp [advance, isAtEnd, hE]
  · cases h2
    exact ⟨rfl, rfl⟩

/-! ## An operator where an expression starts -/

theorem parseExpression_operator (fuel : Nat) (toks : List Token) (pos : Nat)
    (h : (peek toks pos).type = .Operator) :
    parseExpression (fuel + 4) toks pos = .error "Unexpected token in expression" := by
  rw [parseExpression_succ, parseBinary_succ]
  have hp : parsePrimary (fuel + 2) toks pos = .error "Unexpected token in expression" := by
    rw [parsePrimary]
    simp only [h, isKeyword, Res.bind_def]
    rw [primary]
    simp [h]
    rfl
  rw [hp]
  rfl

theorem nextToken_minus (cs : List Char) (line column : Nat) :
    nextToken ⟨'-' :: cs, line, column⟩
      = some (⟨.Operator, "-", line, column⟩, ⟨cs, line, column + 1⟩) := by
  simp [nextToken, nextTokenFuel, skipWhitespace, isspace, isalpha, isdigit, Lexer.peek,
    Lexer.peekNext, Lexer.get, nextLine, nextColumn]
  rfl

/-! ## Lexer: number and string literals -/

theorem isdigit_cases (c : Char) (h : isdigit c = true) :
    c = '0' ∨ c = '1' ∨ c = '2' ∨ c = '3' ∨ c = '4' ∨ c = '5' ∨ c = '6' ∨ c = '7' ∨ c = '8'
      ∨ c = '9' := by
  simp only [isdigit, Bool.and_eq_true, decide_eq_true_eq] at h
  obtain ⟨h1, h2⟩ := h
  have h1' : 48 ≤ c.toNat := h1
  have h2' : c.toNat ≤ 57 := h2
  have hc : c = Char.ofNat c.toNat := (Char.ofNat_toNat c).symm
  rw [hc]
  generalize c.toNat = n at h1' h2'
  interval_cases n <;> decide

/-- What the number loop takes: digits and points, a point only while none has been taken, up to
a character that is neither or to a further point. -/
theorem readNumber_spec (cs : List Char) (l k : Nat) (v : String) (d : Bool) :
    ∃ taken : List Char,
      (readNumber cs l k v d).1 = ⟨v.data ++ taken⟩
      ∧ taken ++ (readNumber cs l k v d).2.2.rest = cs
      ∧ (∀ c ∈ taken, isdigit c = true ∨ c = '.')
      ∧ taken.count '.' ≤ (if d then 0 else 1)
      ∧ (readNumber cs l k v d).2.1 = (d || decide ('.' ∈ taken))
      ∧ (∀ c rest, (readNumber cs l k v d).2.2.rest = c :: rest →
          isdigit c = false ∧ (c = '.' → (readNumber cs l k v d).2.1 = true)) := by
  induction cs generalizing l k v d with
  | nil =>
    refine ⟨[], ?_, rfl, by simp, by simp, by simp [readNumber], ?_⟩
    · simp [readNumber]
    · intro c rest h
      simp [readNumber] at h
  | cons c cs ih =>
    by_cases hc : (isdigit c || decide (c = '.')) = true
    · by_cases hp : c = '.'
      · cases d with
        | true =>
          refine ⟨[], ?_, ?_, by simp, by simp, ?_, ?_⟩
          · simp [readNumber, hp]
          · simp [readNumber, hp]
          · simp [readNumber, hp]
          · intro x rest h
            simp only [readNumber, hc, hp, if_true] at h
            injection h with h1 h2
            subst h1
            exact ⟨by decide, fun _ => by simp [readNumber, hp]⟩
        | false =>
          obtain ⟨taken, h1, h2, h3, h4, h5, h6⟩ :=
            ih (nextLine c l) (nextColumn c k) (v.push c) true
          have hrw : readNumber (c :: cs) l k v false
              = readNumber cs (nextLine c l) (nextColumn c k) (v.push c) true := by
            rw [readNumber, if_pos hc, if_pos hp]
            rfl
          rw [hrw]
          refine ⟨c :: taken, ?_, ?_, ?_, ?_, ?_, h6⟩
          · rw [h1]
            simp [String.push]
          · simp [h2]
          · intro x hx
            rcases List.mem_cons.mp hx with rfl | hx
            · exact Or.inr hp
            · exact h3 x hx
          · simp only [if_true] at h4
            have : List.count '.' taken = 0 := by omega
            subst hp
            simp [this]
          · rw [h5]
            simp [hp]
      · have hrw : readNumber (c :: cs) l k v d
            = readNumber cs (nextLine c l) (nextColumn c k) (v.push c) d := by
          rw [readNumber, if_pos hc, if_neg hp]
        obtain ⟨taken, h1, h2, h3, h4, h5, h6⟩ :=
          ih (nextLine c l) (nextColumn c k) (v.push c) d
        rw [hrw]
        refine ⟨c :: taken, ?_, ?_, ?_, ?_, ?_, h6⟩
        · rw [h1]
          simp [String.push]
        · simp [h2]
        · intro x hx
          rcases List.mem_cons.mp hx with rfl | hx
          · simp only [Bool.or_eq_true, decide_eq_true_eq] at hc
            exact hc
          · exact h3 x hx
        · rw [List.count_cons_of_ne (Ne.symm hp)]
          exact h4
        · rw [h5]
          simp [Ne.symm hp]
    · have hrw : readNumber (c :: cs) l k v d = (v, d, ⟨c :: cs, l, k⟩) := by
        rw [readNumber, if_neg hc]
      rw [hrw]
      simp only [Bool.or_eq_true, decide_eq_true_eq, not_or] at hc
      refine ⟨[], by simp, rfl, by simp, by simp, by simp, ?_⟩
      intro x rest h
      injection h with h1 h2
      subst h1
      exact ⟨by simpa using hc.1, fun hx => absurd hx hc.2⟩

theorem nextToken_digit (c : Char) (cs : List Char) (line column : Nat)
    (hc : isdigit c = true) :
    nextToken ⟨c :: cs, line, column⟩
      = some (⟨if (readNumber (c :: cs) line column "" false).2.1 then .Decimal else .Number,
          (readNumber (c :: cs) line column "" false).1, line, column⟩,
          (readNumber (c :: cs) line column "" false).2.2) := by
  rcases isdigit_cases c hc with rfl | rfl | rfl | rfl | rfl | rfl | rfl | rfl | rfl | rfl <;>
    simp [nextToken, nextTokenFuel, skipWhitespace, isspace, isalpha, isdigit, Lexer.peek,
      Lexer.peekNext]

theorem nextToken_quote (cs : List Char) (line column : Nat) :
    nextToken ⟨'\x22' :: cs, line, column⟩
      = some (⟨.String, (readString cs line (column + 1) "").1, line, column⟩,
          (readString cs line (column + 1) "").2.get.2) := by
  simp [nextToken, nextTokenFuel, skipWhitespace, isspace, isalpha, isdigit, Lexer.peek,
    Lexer.peekNext, Lexer.get, nextLine, nextColumn]

theorem readString_quote (rest : List Char) (l k : Nat) (v : String) :
    readString ('\x22' :: rest) l k v = (v, ⟨'\x22' :: rest, l, k⟩) := by
  rw [readString.eq_def]
  simp

theorem readString_plain (c : Char) (cs : List Char) (l k : Nat) (v : String)
    (h1 : c ≠ '\x5c') (h2 : c ≠ '\x22') (h3 : c ≠ '\x00') :
    readString (c :: cs) l k v = readString cs (nextLine c l) (nextColumn c k) (v.push c) := by
  rw [readString.eq_def]
  simp [h1, h2, h3]

theorem readString_escape (x : Char) (cs : List Char) (l k : Nat) (v : String) :
    readString ('\x5c' :: x :: cs) l k v
      = readString cs (nextLine x (nextLine '\x5c' l)) (nextColumn x (nextColumn '\x5c' k))
          (v.push x) := by
  rw [readString.eq_def]
  simp

theorem closedBody_plain (c : Char) (cs : List Char) (hb : c ≠ '\x5c') :
    closedBody (c :: cs) = (decide (c ≠ '\x22') && decide (c ≠ '\x00') && closedBody cs) := by
  rw [closedBody.eq_def]
  simp [hb]

theorem closedBody_escape (x : Char) (cs : List Char) :
    closedBody ('\x5c' :: x :: cs) = closedBody cs := by
  rw [closedBody.eq_def]
  simp

theorem unescape_plain_cons (c : Char) (cs : List Char) (hb : c ≠ '\x5c') :
    unescape (c :: cs) = c :: unescape cs := by
  rw [unescape.eq_def]
  simp [hb]

theorem unescape_escape (x : Char) (cs : List Char) :
    unescape ('\x5c' :: x :: cs) = x :: unescape cs := by
  rw [unescape.eq_def]
  simp

/-- What the string loop takes from a closed body followed by the closing quote: the unescaped
body, up to the quote. -/
theorem readString_closed (body rest : List Char) (l k : Nat) (v : String)
    (h : closedBody body = true) :
    ∃ l' k', readString (body ++ '\x22' :: rest) l k v
      = (⟨v.data ++ unescape body⟩, ⟨'\x22' :: rest, l', k'⟩) := by
  obtain ⟨n, hn⟩ : ∃ n, body.length = n := ⟨_, rfl⟩
  induction n using Nat.strong_induction_on generalizing body l k v with
  | _ n ih =>
    cases body with
    | nil =>
      refine ⟨l, k, ?_⟩
      rw [List.nil_append, readString_quote]
      simp [unescape]
    | cons c cs =>
      by_cases hb : c = '\x5c'
      · subst hb
        cases cs with
        | nil =>
          rw [closedBody.eq_def] at h
          simp at h
        | cons x cs' =>
          rw [closedBody_escape] at h
          obtain ⟨l', k', hrec⟩ := ih cs'.length (by simp at hn; omega) cs'
            (nextLine x (nextLine '\x5c' l)) (nextColumn x (nextColumn '\x5c' k)) (v.push x)
            h rfl
          refine ⟨l', k', ?_⟩
          rw [List.cons_append, List.cons_append, readString_escape, hrec, unescape_escape]
          simp [String.push]
      · rw [closedBody_plain c cs hb] at h
        simp only [Bool.and_eq_true, decide_eq_true_eq] at h
        obtain ⟨⟨h2, h3⟩, hcl⟩ := h
        obtain ⟨l', k', hrec⟩ := ih cs.length (by simp at hn; omega) cs
          (nextLine c l) (nextColumn c k) (v.push c) hcl rfl
        refine ⟨l', k', ?_⟩
        rw [List.cons_append, readString_plain c _ l k v hb h2 h3, hrec,
          unescape_plain_cons c cs hb]
        simp [String.push]

theorem unescape_plain (body : List Char)
    (h : ∀ c ∈ body, c ≠ '\x5c' ∧ c ≠ '\x22' ∧ c ≠ '\x00') :
    closedBody body = true ∧ unescape body = body := by
  induction body with
  | nil => exact ⟨rfl, rfl⟩
  | cons c cs ih =>
    obtain ⟨h1, h2, h3⟩ := h c (List.mem_cons_self _ _)
    obtain ⟨i1, i2⟩ := ih fun x hx => h x (List.mem_cons_of_mem _ hx)
    constructor
    · rw [closedBody_plain c cs h1]
      simp [h2, h3, i1]
    · rw [unescape_plain_cons c cs h1, i2]

/-! ## Properties of returned values -/

theorem Res.sat_bind {ε α β : Type} {r : Res ε α} {k : α → Res ε β} {P : α → Prop}
    {Q : β → Prop} (h : r.Sat P) (hk : ∀ a, P a → (k a).Sat Q) : (r.bind k).Sat Q := by
  intro b hb
  cases r with
  | ok a => exact hk a (h a rfl) b hb
  | error e => cases hb
  | outOfFuel => cases hb

theorem Res.sat_ok {ε α : Type} {a : α} {P : α → Prop} (h : P a) :
    (Res.ok a : Res ε α).Sat P := by
  intro b hb
  cases hb
  exact h

theorem Res.sat_error {ε α : Type} {e : ε} {P : α → Prop} : (Res.error e : Res ε α).Sat P := by
  intro b hb
  cases hb

theorem Res.sat_outOfFuel {ε α : Type} {P : α → Prop} : (Res.outOfFuel : Res ε α).Sat P := by
  intro b hb
  cases hb

theorem Res.sat_ite {ε α : Type} {c : Prop} [Decidable c] {a b : Res ε α} {P : α → Prop}
    (ha : c → a.Sat P) (hb : ¬ c → b.Sat P) : (if c then a else b).Sat P := by
  by_cases h : c
  · rw [if_pos h]
    exact ha h
  · rw [if_neg h]
    exact hb h

theorem Res.ok_bind {ε α β : Type} (a : α) (k : α → Res ε β) : (Res.ok a).bind k = k a :=
  rfl

theorem Res.sat_mono {ε α : Type} {r : Res ε α} {P Q : α → Prop} (h : r.Sat P)
    (hpq : ∀ a, P a → Q a) : r.Sat Q :=
  fun a ha => hpq a (h a ha)

/-! ## Callee names in the output of the parser -/

theorem callsOnlyLenList_append (xs : List ExprNode) (e : ExprNode) :
    callsOnlyLenList (xs ++ [e]) = (callsOnlyLenList xs && callsOnlyLen e) := by
  induction xs with
  | nil => simp [callsOnlyLenList]
  | cons x xs ih => simp [callsOnlyLenList, ih, Bool.and_assoc]

theorem stmtsCallOnlyLen_append (xs : List ASTNode) (s : ASTNode) :
    stmtsCallOnlyLen (xs ++ [s]) = (stmtsCallOnlyLen xs && stmtCallsOnlyLen s) := by
  induction xs with
  | nil => simp [stmtsCallOnlyLen]
  | cons x xs ih => simp [stmtsCallOnlyLen, ih, Bool.and_assoc]

theorem exprCallInv : ∀ n, ExprCallInv n := by
  intro n
  induction n with
  | zero =>
    refine ⟨fun _ _ => ?_, fun _ _ _ => ?_, fun _ _ _ _ _ => ?_, fun _ _ => ?_,
      fun _ _ _ _ => ?_, fun _ _ => ?_, fun _ _ _ _ => ?_⟩
    · unfold parseExpression; exact Res.sat_outOfFuel
    · unfold parseBinary; exact Res.sat_outOfFuel
    · unfold parseBinaryLoop; exact Res.sat_outOfFuel
    · unfold parsePrimary; exact Res.sat_outOfFuel
    · unfold parseElements; exact Res.sat_outOfFuel
    · unfold primary; exact Res.sat_outOfFuel
    · unfold parseIndexLoop; exact Res.sat_outOfFuel
  | succ n ih =>
    obtain ⟨ihExpr, ihBin, ihLoop, ihPrim, ihElems, ihPrimary, ihIndex⟩ := ih
    refine ⟨?_, ?_, ?_, ?_, ?_, ?_, ?_⟩
    · intro toks pos
      unfold parseExpression
      exact ihBin _ _ _
    · intro toks pos prec
      unfold parseBinary
      simp only [Res.bind_def]
      exact Res.sat_bind (ihPrim _ _) fun a ha => ihLoop _ _ _ _ ha
    · intro toks pos prec left hleft
      unfold parseBinaryLoop
      simp only [Res.bind_def]
      refine Res.sat_ite (fun _ => ?_) (fun _ => Res.sat_ok hleft)
      exact Res.sat_bind (ihBin _ _ _) fun a ha =>
        ihLoop _ _ _ _ (by simp [callsOnlyLen, hleft, ha])
    · intro toks pos
      unfold parsePrimary
      simp only [Res.bind_def, Res.ok_bind]
      refine Res.sat_ite (fun _ => ?_) (fun _ => Res.sat_ite (fun hk => ?_) (fun _ => ?_))
      · refine Res.sat_ite (fun _ => ?_) (fun _ => ?_)
        · exact Res.sat_bind (ihElems _ _ _ rfl) fun a ha =>
            Res.sat_ite (fun _ => Res.sat_error)
              (fun _ => Res.sat_ok (by simpa [callsOnlyLen] using ha))
        · exact Res.sat_ite (fun _ => Res.sat_error) (fun _ => Res.sat_ok rfl)
      · have hval : (peek toks pos).value = "len" := by
          simp only [isKeyword, Bool.and_eq_true, decide_eq_true_eq] at hk
          exact hk.2
        refine Res.sat_ite (fun _ => Res.sat_error) (fun _ => ?_)
        refine Res.sat_ite (fun _ => ?_) (fun _ => ?_)
        · exact Res.sat_bind (ihExpr _ _) fun a ha =>
            Res.sat_ite (fun _ => Res.sat_error)
              (fun _ => Res.sat_ok (by simp [callsOnlyLen, callsOnlyLenList, hval, ha]))
        · exact Res.sat_ite (fun _ => Res.sat_error)
            (fun _ => Res.sat_ok (by simp [callsOnlyLen, callsOnlyLenList, hval]))
      · exact Res.sat_bind (ihPrimary _ _) fun a ha => ihIndex _ _ _ ha
    · intro toks pos els hels
      unfold parseElements
      simp only [Res.bind_def]
      refine Res.sat_bind (ihExpr _ _) fun a ha => ?_
      have hacc : callsOnlyLenList (els ++ [a.1]) = true := by
        rw [callsOnlyLenList_append, hels, ha]
        rfl
      exact Res.sat_ite (fun _ => ihElems _ _ _ hacc) (fun _ => Res.sat_ok hacc)
    · intro toks pos
      unfold primary
      simp only [Res.bind_def]
      refine Res.sat_ite (fun _ => Res.sat_ok rfl) (fun _ => Res.sat_ite (fun _ => Res.sat_ok rfl)
        (fun _ => Res.sat_ite (fun _ => Res.sat_ok rfl) (fun _ => Res.sat_ite (fun _ => ?_)
          (fun _ => Res.sat_ite (fun _ => Res.sat_ok rfl) (fun _ => Res.sat_error)))))
      exact Res.sat_bind (ihExpr _ _) fun a ha =>
        Res.sat_ite (fun _ => Res.sat_error) (fun _ => Res.sat_ok ha)
    · intro toks pos e he
      unfold parseIndexLoop
      simp only [Res.bind_def]
      refine Res.sat_ite (fun _ => ?_) (fun _ => Res.sat_ok he)
      exact Res.sat_bind (ihExpr _ _) fun a ha =>
        Res.sat_ite (fun _ => Res.sat_error)
          (fun _ => ihIndex _ _ _ (by simp [callsOnlyLen, he, ha]))

theorem parseExpression_callsOnlyLen (n : Nat) (toks : List Token) (pos : Nat) :
    (parseExpression n toks pos).Sat fun r => callsOnlyLen r.1 = true :=
  (exprCallInv n).1 toks pos

theorem parsePrimary_callsOnlyLen (n : Nat) (toks : List Token) (pos : Nat) :
    (parsePrimary n toks pos).Sat fun r => callsOnlyLen r.1 = true :=
  (exprCallInv n).2.2.2.1 toks pos

theorem parseVarDecl_callsOnlyLen (n : Nat) (toks : List Token) (pos : Nat) :
    (parseVarDecl n toks pos).Sat fun r => stmtCallsOnlyLen r.1 = true := by
  unfold parseVarDecl
  simp only [Res.bind_def, Res.ok_bind]
  repeat' (first
    | exact Res.sat_error
    | (apply Res.sat_ite <;> intro _)
    | (refine Res.sat_bind (parseExpression_callsOnlyLen _ _ _) ?_; intro _ _)
    | (apply Res.sat_ok; simp_all [stmtCallsOnlyLen]))

theorem parsePrint_callsOnlyLen (n : Nat) (toks : List Token) (pos : Nat) :
    (parsePrint n toks pos).Sat fun r => stmtCallsOnlyLen r.1 = true := by
  unfold parsePrint
  simp only [Res.bind_def, Res.ok_bind]
  repeat' (first
    | exact Res.sat_error
    | (apply Res.sat_ite <;> intro _)
    | (refine Res.sat_bind (parseExpression_callsOnlyLen _ _ _) ?_; intro _ _)
    | (apply Res.sat_ok; simp_all [stmtCallsOnlyLen]))

theorem parseReturn_callsOnlyLen (n : Nat) (toks : List Token) (pos : Nat) :
    (parseReturn n toks pos).Sat fun r => stmtCallsOnlyLen r.1 = true := by
  unfold parseReturn
  simp only [Res.bind_def, Res.ok_bind]
  repeat' (first
    | exact Res.sat_error
    | (apply Res.sat_ite <;> intro _)
    | (refine Res.sat_bind (parseExpression_callsOnlyLen _ _ _) ?_; intro _ _)
    | (apply Res.sat_ok; simp_all [stmtCallsOnlyLen]))

theorem parseIf_callsOnlyLen_step (n : Nat) (ih : StmtCallInv n) (toks : List Token)
    (pos : Nat) : (parseIf (n + 1) toks pos).Sat fun r => stmtCallsOnlyLen r.1 = true := by
  obtain ⟨-, -, ihBlock, -, -, -, -⟩ := ih
  unfold parseIf
  simp only [Res.bind_def, Res.ok_bind]
  repeat' (first
    | exact Res.sat_error
    | (apply Res.sat_ite <;> intro _)
    | (refine Res.sat_bind (parseExpression_callsOnlyLen _ _ _) ?_; intro _ _)
    | (refine Res.sat_bind (ihBlock _ _ _ _ rfl) ?_; intro _ _)
    | (apply Res.sat_ok; simp_all [stmtCallsOnlyLen, stmtsCallOnlyLen]))

theorem parseWhile_callsOnlyLen_step (n : Nat) (ih : StmtCallInv n) (toks : List Token)
    (pos : Nat) : (parseWhile (n + 1) toks pos).Sat fun r => stmtCallsOnlyLen r.1 = true := by
  obtain ⟨-, -, ihBlock, -, -, -, -⟩ := ih
  unfold parseWhile
  simp only [Res.bind_def, Res.ok_bind]
  repeat' (first
    | exact Res.sat_error
    | (apply Res.sat_ite <;> intro _)
    | (refine Res.sat_bind (parseExpression_callsOnlyLen _ _ _) ?_; intro _ _)
    | (refine Res.sat_bind (ihBlock _ _ _ _ rfl) ?_; intro _ _)
    | (apply Res.sat_ok; simp_all [stmtCallsOnlyLen, stmtsCallOnlyLen]))

theorem parseFor_callsOnlyLen_step (n : Nat) (ih : StmtCallInv n) (toks : List Token)
    (pos : Nat) : (parseFor (n + 1) toks pos).Sat fun r => stmtCallsOnlyLen r.1 = true := by
  obtain ⟨-, -, ihBlock, -, -, -, -⟩ := ih
  unfold parseFor
  simp only [Res.bind_def, Res.ok_bind]
  repeat' (first
    | exact Res.sat_error
    | (apply Res.sat_ite <;> intro _)
    | (refine Res.sat_bind (parseExpression_callsOnlyLen _ _ _) ?_; intro _ _)
    | (refine Res.sat_bind (ihBlock _ _ _ _ rfl) ?_; intro _ _)
    | (apply Res.sat_ok; simp_all [stmtCallsOnlyLen, stmtsCallOnlyLen, callsOnlyLen]))

theorem parseFunction_callsOnlyLen_step (n : Nat) (ih : StmtCallInv n) (toks : List Token)
    (pos : Nat) : (parseFunction (n + 1) toks pos).Sat fun r => stmtCallsOnlyLen r.1 = true := by
  obtain ⟨-, -, ihBlock, -, -, -, -⟩ := ih
  unfold parseFunction
  simp only [Res.bind_def, Res.ok_bind]
  repeat' (first
    | exact Res.sat_error
    | (apply Res.sat_ite <;> intro _)
    | (refine Res.sat_bind (ihBlock _ _ _ _ rfl) ?_; intro _ _)
    | (refine Res.sat_bind (P := fun _ => True) (fun _ _ => trivial) ?_; intro _ _)
    | (apply Res.sat_ok; simp_all [stmtCallsOnlyLen, stmtsCallOnlyLen]))

theorem parseStatementTail_callsOnlyLen_step (n : Nat) (ih : StmtCallInv n)
    (toks : List Token) (pos : Nat) :
    (parseStatementTail (n + 1) toks pos).Sat fun r =>
      ∀ node, r.1 = some node → stmtCallsOnlyLen node = true := by
  obtain ⟨-, -, -, ihIf, ihWhile, ihFor, -⟩ := ih
  unfold parseStatementTail
  simp only [Res.bind_def, Res.ok_bind]
  repeat' (first
    | (apply Res.sat_ite <;> intro _)
    | (refine Res.sat_bind (parsePrint_callsOnlyLen _ _ _) ?_; intro _ _)
    | (refine Res.sat_bind (ihIf _ _) ?_; intro _ _)
    | (refine Res.sat_bind (ihWhile _ _) ?_; intro _ _)
    | (refine Res.sat_bind (ihFor _ _) ?_; intro _ _)
    | (apply Res.sat_ok; simp_all))

theorem parseStatement_callsOnlyLen_step (n : Nat) (ih : StmtCallInv n)
    (toks : List Token) (pos : Nat) :
    (parseStatement (n + 1) toks pos).Sat fun r =>
      ∀ node, r.1 = some node → stmtCallsOnlyLen node = true := by
  obtain ⟨-, ihTail, -, -, -, -, ihFunction⟩ := ih
  unfold parseStatement
  simp only [Res.bind_def, Res.ok_bind]
  repeat' (first
    | exact Res.sat_error
    | exact ihTail _ _
    | (apply Res.sat_ite <;> intro _)
    | (refine Res.sat_bind (ihFunction _ _) ?_; intro _ _)
    | (refine Res.sat_bind (parseReturn_callsOnlyLen _ _ _) ?_; intro _ _)
    | (refine Res.sat_bind (parseVarDecl_callsOnlyLen _ _ _) ?_; intro _ _)
    | (refine Res.sat_bind (parseExpression_callsOnlyLen _ _ _) ?_; intro _ _)
    | (refine Res.sat_bind (parsePrimary_callsOnlyLen _ _ _) ?_; intro _ _)
    | (apply Res.sat_ok; simp_all [stmtCallsOnlyLen, callsOnlyLen]))

theorem parseBlock_callsOnlyLen_step (n : Nat) (ih : StmtCallInv n) (toks : List Token)
    (pos : Nat) (term : Terminator) (body : List ASTNode) (hbody : stmtsCallOnlyLen body = true) :
    (parseBlock (n + 1) toks pos term body).Sat fun r => stmtsCallOnlyLen r.1 = true := by
  obtain ⟨ihStmt, -, ihBlock, -, -, -, -⟩ := ih
  unfold parseBlock
  simp only [Res.bind_def]
  refine Res.sat_ite (fun _ => ?_) (fun _ => Res.sat_ok hbody)
  refine Res.sat_bind (ihStmt _ _) fun r hr => ?_
  obtain ⟨stmt, pos1⟩ := r
  cases stmt with
  | none => exact ihBlock _ _ _ _ hbody
  | some node =>
    have hacc : stmtsCallOnlyLen (body ++ [node]) = true := by
      rw [stmtsCallOnlyLen_append, hbody, hr node rfl]
      rfl
    cases term with
    | none => exact ihBlock _ _ _ _ hacc
    | optional => exact Res.sat_ite (fun _ => ihBlock _ _ _ _ hacc) (fun _ => ihBlock _ _ _ _ hacc)
    | required msg => exact Res.sat_ite (fun _ => ihBlock _ _ _ _ hacc) (fun _ => Res.sat_error)

theorem stmtCallInv : ∀ n, StmtCallInv n := by
  intro n
  induction n with
  | zero =>
    refine ⟨fun _ _ => ?_, fun _ _ => ?_, fun _ _ _ _ _ => ?_, fun _ _ => ?_, fun _ _ => ?_,
      fun _ _ => ?_, fun _ _ => ?_⟩
    · unfold parseStatement; exact Res.sat_outOfFuel
    · unfold parseStatementTail; exact Res.sat_outOfFuel
    · unfold parseBlock; exact Res.sat_outOfFuel
    · unfold parseIf; exact Res.sat_outOfFuel
    · unfold parseWhile; exact Res.sat_outOfFuel
    · unfold parseFor; exact Res.sat_outOfFuel
    · unfold parseFunction; exact Res.sat_outOfFuel
  | succ n ih =>
    exact ⟨parseStatement_callsOnlyLen_step n ih, parseStatementTail_callsOnlyLen_step n ih,
      parseBlock_callsOnlyLen_step n ih, parseIf_callsOnlyLen_step n ih,
      parseWhile_callsOnlyLen_step n ih, parseFor_callsOnlyLen_step n ih,
      parseFunction_callsOnlyLen_step n ih⟩

theorem parseLoop_callsOnlyLen (n : Nat) (toks : List Token) (pos : Nat)
    (nodes : List ASTNode) (hnodes : stmtsCallOnlyLen nodes = true) :
    (parseLoop n toks pos nodes).Sat fun r => stmtsCallOnlyLen r = true := by
  induction n generalizing pos nodes with
  | zero =>
    unfold parseLoop
    exact Res.sat_outOfFuel
  | succ n ih =>
    unfold parseLoop
    simp only [Res.bind_def]
    refine Res.sat_ite (fun _ => ?_) (fun _ => Res.sat_ok hnodes)
    refine Res.sat_bind ((stmtCallInv n).1 _ _) fun r hr => ?_
    obtain ⟨stmt, pos1⟩ := r
    cases stmt with
    | none => exact ih _ _ hnodes
    | some node =>
      refine ih _ _ ?_
      rw [stmtsCallOnlyLen_append, hnodes, hr node rfl]
      rfl

/-! ## Termination of the parser -/

theorem Res.good_bind {ε α β : Type} {r : Res ε α} {k : α → Res ε β} {P : α → Prop}
    {Q : β → Prop} (h : r.Good P) (hk : ∀ a, P a → (k a).Good Q) : (r.bind k).Good Q := by
  cases r with
  | ok a => exact hk a (h.2 a rfl)
  | error e => exact ⟨fun hc => (by cases hc), fun b hb => (by cases hb)⟩
  | outOfFuel => exact absurd rfl h.1

theorem Res.good_ok {ε α : Type} {a : α} {P : α → Prop} (h : P a) :
    (Res.ok a : Res ε α).Good P :=
  ⟨fun hc => (by cases hc), fun b hb => (by cases hb; exact h)⟩

theorem Res.good_error {ε α : Type} {e : ε} {P : α → Prop} : (Res.error e : Res ε α).Good P :=
  ⟨fun hc => (by cases hc), fun b hb => (by cases hb)⟩

theorem Res.good_ite {ε α : Type} {c : Prop} [Decidable c] {a b : Res ε α} {P : α → Prop}
    (ha : c → a.Good P) (hb : ¬ c → b.Good P) : (if c then a else b).Good P := by
  by_cases h : c
  · rw [if_pos h]
    exact ha h
  · rw [if_neg h]
    exact hb h

theorem Res.good_mono {ε α : Type} {r : Res ε α} {P Q : α → Prop} (h : r.Good P)
    (hpq : ∀ a, P a → Q a) : r.Good Q :=
  ⟨h.1, fun a ha => hpq a (h.2 a ha)⟩

theorem peek_past_end (toks : List Token) (hE : endsInEndOfFile toks = true) (pos : Nat)
    (h : toks.length ≤ pos) : (peek toks pos).type = .EndOfFile := by
  simp only [endsInEndOfFile, decide_eq_true_eq] at hE
  simp only [peek, Nat.add_zero, ge_iff_le, h, if_true]
  exact hE

/-- A token that is not the end-of-file token lies inside the vector, and `advance` moves past
it. -/
theorem peek_facts (toks : List Token) (hE : endsInEndOfFile toks = true) {pos : Nat}
    {t : TokenType} (h : (peek toks pos).type = t) (ht : t ≠ .EndOfFile) :
    pos < toks.length ∧ advance toks pos = pos + 1 := by
  have hlt : pos < toks.length := by
    by_contra hc
    exact ht (h.symm.trans (peek_past_end toks hE pos (by omega)))
  refine ⟨hlt, ?_⟩
  have hne : (peek toks pos).type ≠ .EndOfFile := by
    rw [h]
    exact ht
  simp [advance, isAtEnd, hne, hlt]

theorem advance_bounds (toks : List Token) (pos : Nat) :
    pos ≤ advance toks pos ∧ advance toks pos ≤ pos + 1 := by
  unfold advance
  split <;> omega

theorem not_isAtEnd_facts (toks : List Token) {pos : Nat} (h : isAtEnd toks pos = false) :
    pos < toks.length ∧ advance toks pos = pos + 1 := by
  have h' := h
  simp only [isAtEnd, Bool.or_eq_false_iff, decide_eq_false_iff_not] at h'
  exact ⟨by omega, by simp [advance, h]⟩

theorem exprTerm (toks : List Token) (hE : endsInEndOfFile toks = true) :
    ∀ n, ExprTerm toks n := by
  intro n
  induction n with
  | zero =>
    exact ⟨fun _ h => by omega, fun _ _ h => by omega, fun _ _ _ h => by omega,
      fun _ h => by omega, fun _ _ h => by omega, fun _ h => by omega, fun _ _ h => by omega⟩
  | succ n ih =>
    obtain ⟨ihExpr, ihBin, ihLoop, ihPrim, ihElems, ihPrimary, ihIndex⟩ := ih
    refine ⟨?_, ?_, ?_, ?_, ?_, ?_, ?_⟩
    · intro pos hf
      unfold parseExpression
      exact ihBin pos 0 (by omega)
    · intro pos prec hf
      unfold parseBinary
      simp only [Res.bind_def]
      refine Res.good_bind (ihPrim pos (by omega)) fun a ha => ?_
      exact Res.good_mono (ihLoop a.2 prec a.1 (by omega)) fun b hb => by omega
    · intro pos prec left hf
      unfold parseBinaryLoop
      simp only [Res.bind_def]
      refine Res.good_ite (fun h => ?_) (fun _ => Res.good_ok (Nat.le_refl _))
      obtain ⟨hlt, hadv⟩ := peek_facts toks hE h.1 (by decide)
      rw [hadv]
      refine Res.good_bind (ihBin (pos + 1) _ (by omega)) fun a ha => ?_
      exact Res.good_mono (ihLoop a.2 prec _ (by omega)) fun b hb => by omega
    · intro pos hf
      unfold parsePrimary
      simp only [Res.bind_def, Res.ok_bind]
      refine Res.good_ite (fun h => ?_) (fun _ => Res.good_ite (fun hk => ?_) (fun _ => ?_))
      · obtain ⟨hlt, hadv⟩ := peek_facts toks hE h (by decide)
        rw [hadv]
        refine Res.good_ite (fun _ => ?_) (fun _ => ?_)
        · refine Res.good_bind (ihElems (pos + 1) [] (by omega)) fun a ha => ?_
          refine Res.good_ite (fun _ => Res.good_error) (fun _ => Res.good_ok ?_)
          have := advance_bounds toks a.2
          simp only at ha ⊢
          omega
        · refine Res.good_ite (fun _ => Res.good_error) (fun _ => Res.good_ok ?_)
          have := advance_bounds toks (pos + 1)
          simp only
          omega
      · simp only [isKeyword, Bool.and_eq_true, decide_eq_true_eq] at hk
        obtain ⟨hlt, hadv⟩ := peek_facts toks hE hk.1 (by decide)
        rw [hadv]
        refine Res.good_ite (fun _ => Res.good_error) (fun hp => ?_)
        obtain ⟨hlt2, hadv2⟩ := peek_facts toks hE (not_not.mp hp) (by decide)
        rw [hadv2]
        refine Res.good_ite (fun _ => ?_) (fun _ => ?_)
        · refine Res.good_bind (ihExpr (pos + 1 + 1) (by omega)) fun a ha => ?_
          refine Res.good_ite (fun _ => Res.good_error) (fun _ => Res.good_ok ?_)
          have := advance_bounds toks a.2
          simp only at ha ⊢
          omega
        · refine Res.good_ite (fun _ => Res.good_error) (fun _ => Res.good_ok ?_)
          have := advance_bounds toks (pos + 1 + 1)
          simp only
          omega
      · refine Res.good_bind (ihPrimary pos (by omega)) fun a ha => ?_
        exact Res.good_mono (ihIndex a.2 a.1 (by omega)) fun b hb => by omega
    · intro pos els hf
      unfold parseElements
      simp only [Res.bind_def]
      refine Res.good_bind (ihExpr pos (by omega)) fun a ha => ?_
      refine Res.good_ite (fun h => ?_) (fun _ => Res.good_ok ha)
      obtain ⟨hlt, hadv⟩ := peek_facts toks hE h (by decide)
      rw [hadv]
      exact Res.good_mono (ihElems (a.2 + 1) _ (by omega)) fun b hb => by omega
    · intro pos hf
      unfold primary
      simp only [Res.bind_def]
      have key : ∀ t, (peek toks pos).type = t → t ≠ .EndOfFile →
          toks.length - advance toks pos < toks.length - pos := by
        intro t ht hne
        obtain ⟨hlt, hadv⟩ := peek_facts toks hE ht hne
        omega
      refine Res.good_ite (fun h => Res.good_ok (key _ h (by decide))) (fun _ => ?_)
      refine Res.good_ite (fun h => Res.good_ok ?_) (fun _ => ?_)
      · rcases h with h | h
        · exact key _ h (by decide)
        · exact key _ h (by decide)
      refine Res.good_ite (fun h => Res.good_ok (key _ h (by decide))) (fun _ => ?_)
      refine Res.good_ite (fun h => ?_) (fun _ => ?_)
      · obtain ⟨hlt, hadv⟩ := peek_facts toks hE h (by decide)
        rw [hadv]
        refine Res.good_bind (ihExpr (pos + 1) (by omega)) fun a ha => ?_
        refine Res.good_ite (fun _ => Res.good_error) (fun _ => Res.good_ok ?_)
        have := advance_bounds toks a.2
        simp only at ha ⊢
        omega
      · exact Res.good_ite (fun h => Res.good_ok (key _ h.1 (by decide)))
          (fun _ => Res.good_error)
    · intro pos e hf
      unfold parseIndexLoop
      simp only [Res.bind_def]
      refine Res.good_ite (fun h => ?_) (fun _ => Res.good_ok (Nat.le_refl _))
      obtain ⟨hlt, hadv⟩ := peek_facts toks hE h (by decide)
      rw [hadv]
      refine Res.good_bind (ihExpr (pos + 1) (by omega)) fun a ha => ?_
      refine Res.good_ite (fun _ => Res.good_error) (fun hr => ?_)
      obtain ⟨hlt2, hadv2⟩ := peek_facts toks hE (not_not.mp hr) (by decide)
      rw [hadv2]
      exact Res.good_mono (ihIndex (a.2 + 1) _ (by omega)) fun b hb => by omega

theorem advance_progress (toks : List Token) (pos p1 : Nat) (h : isAtEnd toks pos = false)
    (hw : toks.length - p1 ≤ toks.length - pos) :
    toks.length - advance toks p1 < toks.length - pos := by
  obtain ⟨hlt, -⟩ := not_isAtEnd_facts toks h
  cases h1 : isAtEnd toks p1 with
  | true =>
    have hne : p1 ≠ pos := by
      intro heq
      rw [heq, h] at h1
      cases h1
    simp only [advance, h1, if_true]
    omega
  | false =>
    obtain ⟨hlt1, hadv1⟩ := not_isAtEnd_facts toks h1
    omega

theorem parseVarDecl_term (toks : List Token) (hE : endsInEndOfFile toks = true) (n pos : Nat)
    (hf : 8 * (toks.length - pos) < n) :
    (parseVarDecl n toks pos).Good fun r => toks.length - r.2 < toks.length - pos := by
  have ihExpr := (exprTerm toks hE n).1
  unfold parseVarDecl
  simp only [Res.bind_def]
  have h0 := advance_bounds toks pos
  refine Res.good_ite (fun _ => Res.good_error) (fun h1 => ?_)
  obtain ⟨hlt1, hadv1⟩ := peek_facts toks hE (not_not.mp h1) (by decide)
  refine Res.good_ite (fun _ => Res.good_error) (fun h2 => ?_)
  obtain ⟨hlt2, hadv2⟩ := peek_facts toks hE (not_not.mp h2) (by decide)
  refine Res.good_bind (ihExpr _ (by omega)) fun a ha => ?_
  have := advance_bounds toks a.2
  refine Res.good_ite (fun _ => Res.good_ite (fun _ => Res.good_ok ?_) (fun _ => Res.good_ok ?_))
    (fun _ => Res.good_ok ?_) <;> (simp only at ha ⊢; omega)

theorem parsePrint_term (toks : List Token) (hE : endsInEndOfFile toks = true) (n pos : Nat)
    (hf : 8 * (toks.length - pos) < n) :
    (parsePrint n toks pos).Good fun r => toks.length - r.2 < toks.length - pos := by
  have ihExpr := (exprTerm toks hE n).1
  unfold parsePrint
  simp only [Res.bind_def]
  have h0 := advance_bounds toks pos
  refine Res.good_ite (fun _ => Res.good_error) (fun h1 => ?_)
  obtain ⟨hlt1, hadv1⟩ := peek_facts toks hE (not_not.mp h1) (by decide)
  refine Res.good_bind (ihExpr _ (by omega)) fun a ha => ?_
  have := advance_bounds toks a.2
  have := advance_bounds toks (advance toks a.2)
  refine Res.good_ite (fun _ => Res.good_error)
    (fun _ => Res.good_ite (fun _ => Res.good_ok ?_) (fun _ => Res.good_ok ?_)) <;>
    (simp only at ha ⊢; omega)

theorem parseReturn_term (toks : List Token) (hE : endsInEndOfFile toks = true) (n pos : Nat)
    (hf : 8 * (toks.length - pos) + 3 < n) :
    (parseReturn n toks pos).Good fun r => toks.length - r.2 < toks.length - pos := by
  have ihExpr := (exprTerm toks hE n).1
  unfold parseReturn
  simp only [Res.bind_def]
  have h0 := advance_bounds toks pos
  refine Res.good_bind (ihExpr _ (by omega)) fun a ha => ?_
  have := advance_bounds toks a.2
  refine Res.good_ite (fun _ => Res.good_ok ?_) (fun _ => Res.good_error)
  simp only at ha ⊢
  omega

theorem parseParams_term (toks : List Token) (hE : endsInEndOfFile toks = true) (n pos : Nat)
    (params : List String) (hf : 8 * (toks.length - pos) < n) :
    (parseParams n toks pos params).Good fun r => toks.length - r.2 < toks.length - pos := by
  induction n generalizing pos params with
  | zero => omega
  | succ n ih =>
    unfold parseParams
    simp only
    refine Res.good_ite (fun _ => Res.good_error) (fun h1 => ?_)
    obtain ⟨hlt1, hadv1⟩ := peek_facts toks hE (not_not.mp h1) (by decide)
    refine Res.good_ite (fun h2 => ?_) (fun _ => Res.good_ok (by simp only; omega))
    obtain ⟨hlt2, hadv2⟩ := peek_facts toks hE h2 (by decide)
    exact Res.good_mono (ih _ _ (by omega)) fun b hb => by omega

theorem parseIf_term_step (toks : List Token) (hE : endsInEndOfFile toks = true) (n : Nat)
    (ih : StmtTerm toks n) (pos : Nat) (hf : 8 * (toks.length - pos) < n + 1) :
    (parseIf (n + 1) toks pos).Good fun r => toks.length - r.2 < toks.length - pos := by
  have ihExpr := (exprTerm toks hE n).1
  obtain ⟨-, -, ihBlock, -, -, -, -⟩ := ih
  unfold parseIf
  simp only [Res.bind_def]
  have h0 := advance_bounds toks pos
  refine Res.good_ite (fun _ => Res.good_error) (fun h1 => ?_)
  obtain ⟨hlt1, hadv1⟩ := peek_facts toks hE (not_not.mp h1) (by decide)
  refine Res.good_bind (ihExpr _ (by omega)) fun a ha => ?_
  refine Res.good_ite (fun _ => Res.good_error) (fun h2 => ?_)
  obtain ⟨hlt2, hadv2⟩ := peek_facts toks hE (not_not.mp h2) (by decide)
  refine Res.good_ite (fun _ => Res.good_error) (fun h3 => ?_)
  obtain ⟨hlt3, hadv3⟩ := peek_facts toks hE (not_not.mp h3) (by decide)
  refine Res.good_bind (ihBlock _ _ _ (by omega)) fun b hb => ?_
  refine Res.good_ite (fun _ => Res.good_error) (fun h4 => ?_)
  obtain ⟨hlt4, hadv4⟩ := peek_facts toks hE (not_not.mp h4) (by decide)
  refine Res.good_ite (fun h5 => ?_) (fun _ => Res.good_ok (by omega))
  have h5' := h5.2
  simp only [isKeyword, Bool.and_eq_true, decide_eq_true_eq] at h5'
  obtain ⟨hlt5, hadv5⟩ := peek_facts toks hE h5'.1 (by decide)
  refine Res.good_ite (fun _ => Res.good_error) (fun h6 => ?_)
  obtain ⟨hlt6, hadv6⟩ := peek_facts toks hE (not_not.mp h6) (by decide)
  refine Res.good_bind (ihBlock _ _ _ (by omega)) fun c hc => ?_
  refine Res.good_ite (fun _ => Res.good_error) (fun h7 => Res.good_ok ?_)
  obtain ⟨hlt7, hadv7⟩ := peek_facts toks hE (not_not.mp h7) (by decide)
  simp only at ha hb hc ⊢
  omega

theorem parseWhile_term_step (toks : List Token) (hE : endsInEndOfFile toks = true) (n : Nat)
    (ih : StmtTerm toks n) (pos : Nat) (hf : 8 * (toks.length - pos) < n + 1) :
    (parseWhile (n + 1) toks pos).Good fun r => toks.length - r.2 < toks.length - pos := by
  have ihExpr := (exprTerm toks hE n).1
  obtain ⟨-, -, ihBlock, -, -, -, -⟩ := ih
  unfold parseWhile
  simp only [Res.bind_def]
  have h0 := advance_bounds toks pos
  refine Res.good_ite (fun _ => Res.good_error) (fun h1 => ?_)
  obtain ⟨hlt1, hadv1⟩ := peek_facts toks hE (not_not.mp h1) (by decide)
  refine Res.good_bind (ihExpr _ (by omega)) fun a ha => ?_
  refine Res.good_ite (fun _ => Res.good_error) (fun h2 => ?_)
  obtain ⟨hlt2, hadv2⟩ := peek_facts toks hE (not_not.mp h2) (by decide)
  refine Res.good_ite (fun _ => Res.good_error) (fun h3 => ?_)
  obtain ⟨hlt3, hadv3⟩ := peek_facts toks hE (not_not.mp h3) (by decide)
  refine Res.good_bind (ihBlock _ _ _ (by omega)) fun b hb => ?_
  refine Res.good_ite (fun _ => Res.good_error) (fun h4 => Res.good_ok ?_)
  obtain ⟨hlt4, hadv4⟩ := peek_facts toks hE (not_not.mp h4) (by decide)
  simp only at ha hb ⊢
  omega

theorem parseFor_term_step (toks : List Token) (hE : endsInEndOfFile toks = true) (n : Nat)
    (ih : StmtTerm toks n) (pos : Nat) (hf : 8 * (toks.length - pos) < n + 1) :
    (parseFor (n + 1) toks pos).Good fun r => toks.length - r.2 < toks.length - pos := by
  have ihExpr := (exprTerm toks hE n).1
  obtain ⟨-, -, ihBlock, -, -, -, -⟩ := ih
  unfold parseFor
  simp only [Res.bind_def, Res.ok_bind]
  have h0 := advance_bounds toks pos
  refine Res.good_ite (fun _ => Res.good_error) (fun h1 => ?_)
  obtain ⟨hlt1, hadv1⟩ := peek_facts toks hE (not_not.mp h1) (by decide)
  refine Res.good_ite (fun _ => Res.good_error) (fun h2 => ?_)
  obtain ⟨hlt2, hadv2⟩ := peek_facts toks hE (not_not.mp h2) (by decide)
  refine Res.good_bind (ihExpr _ (by omega)) fun a ha => ?_
  refine Res.good_ite (fun _ => Res.good_error) (fun h3 => ?_)
  have h3' := not_or.mp h3
  obtain ⟨hlt3, hadv3⟩ := peek_facts toks hE (not_not.mp h3'.1) (by decide)
  refine Res.good_bind (ihExpr _ (by omega)) fun b hb => ?_
  refine Res.good_ite (fun h4 => ?_) (fun _ => ?_)
  · simp only [isKeyword, Bool.and_eq_true, decide_eq_true_eq] at h4
    obtain ⟨hlt4, hadv4⟩ := peek_facts toks hE h4.1 (by decide)
    refine Res.good_bind (ihExpr _ (by omega)) fun c hc => ?_
    refine Res.good_ite (fun _ => Res.good_error) (fun h5 => ?_)
    obtain ⟨hlt5, hadv5⟩ := peek_facts toks hE (not_not.mp h5) (by decide)
    refine Res.good_bind (ihBlock _ _ _ (by omega)) fun d hd => ?_
    refine Res.good_ite (fun _ => Res.good_error) (fun h6 => Res.good_ok ?_)
    obtain ⟨hlt6, hadv6⟩ := peek_facts toks hE (not_not.mp h6) (by decide)
    simp only at ha hb hc hd ⊢
    omega
  · refine Res.good_ite (fun _ => Res.good_error) (fun h5 => ?_)
    obtain ⟨hlt5, hadv5⟩ := peek_facts toks hE (not_not.mp h5) (by decide)
    refine Res.good_bind (ihBlock _ _ _ (by omega)) fun d hd => ?_
    refine Res.good_ite (fun _ => Res.good_error) (fun h6 => Res.good_ok ?_)
    obtain ⟨hlt6, hadv6⟩ := peek_facts toks hE (not_not.mp h6) (by decide)
    simp only at ha hb hd ⊢
    omega

theorem parseFunction_term_step (toks : List Token) (hE : endsInEndOfFile toks = true)
    (n : Nat) (ih : StmtTerm toks n) (pos : Nat) (hf : 8 * (toks.length - pos) < n + 1) :
    (parseFunction (n + 1) toks pos).Good fun r => toks.length - r.2 < toks.length - pos := by
  obtain ⟨-, -, ihBlock, -, -, -, -⟩ := ih
  unfold parseFunction
  simp only [Res.bind_def, Res.ok_bind]
  have h0 := advance_bounds toks pos
  refine Res.good_ite (fun _ => Res.good_error) (fun h1 => ?_)
  obtain ⟨hlt1, hadv1⟩ := peek_facts toks hE (not_not.mp h1) (by decide)
  refine Res.good_ite (fun _ => Res.good_error) (fun h2 => ?_)
  obtain ⟨hlt2, hadv2⟩ := peek_facts toks hE (not_not.mp h2) (by decide)
  refine Res.good_ite (fun _ => ?_) (fun _ => ?_)
  · refine Res.good_bind (parseParams_term toks hE n _ [] (by omega)) fun a ha => ?_
    refine Res.good_ite (fun _ => Res.good_error) (fun h3 => ?_)
    obtain ⟨hlt3, hadv3⟩ := peek_facts toks hE (not_not.mp h3) (by decide)
    refine Res.good_ite (fun _ => Res.good_error) (fun h4 => ?_)
    obtain ⟨hlt4, hadv4⟩ := peek_facts toks hE (not_not.mp h4) (by decide)
    refine Res.good_bind (ihBlock _ _ _ (by omega)) fun b hb => ?_
    refine Res.good_ite (fun _ => Res.good_error) (fun h5 => Res.good_ok ?_)
    obtain ⟨hlt5, hadv5⟩ := peek_facts toks hE (not_not.mp h5) (by decide)
    simp only at ha hb ⊢
    omega
  · refine Res.good_ite (fun _ => Res.good_error) (fun h3 => ?_)
    obtain ⟨hlt3, hadv3⟩ := peek_facts toks hE (not_not.mp h3) (by decide)
    refine Res.good_ite (fun _ => Res.good_error) (fun h4 => ?_)
    obtain ⟨hlt4, hadv4⟩ := peek_facts toks hE (not_not.mp h4) (by decide)
    refine Res.good_bind (ihBlock _ _ _ (by omega)) fun b hb => ?_
    refine Res.good_ite (fun _ => Res.good_error) (fun h5 => Res.good_ok ?_)
    obtain ⟨hlt5, hadv5⟩ := peek_facts toks hE (not_not.mp h5) (by decide)
    simp only at hb ⊢
    omega

theorem parseStatementTail_term_step (toks : List Token) (hE : endsInEndOfFile toks = true)
    (n : Nat) (ih : StmtTerm toks n) (pos : Nat) (hf : 8 * (toks.length - pos) + 1 < n + 1) :
    (parseStatementTail (n + 1) toks pos).Good fun r =>
      toks.length - r.2 ≤ toks.length - pos
        ∧ (r.1 ≠ none → toks.length - r.2 < toks.length - pos) := by
  obtain ⟨-, -, -, ihIf, ihWhile, ihFor, -⟩ := ih
  unfold parseStatementTail
  simp only [Res.bind_def]
  refine Res.good_ite (fun _ => ?_) (fun _ => Res.good_ite (fun _ => ?_)
    (fun _ => Res.good_ite (fun _ => ?_) (fun _ => Res.good_ite (fun _ => ?_)
      (fun _ => Res.good_ok ⟨Nat.le_refl _, fun h => absurd rfl h⟩))))
  · exact Res.good_bind (parsePrint_term toks hE n pos (by omega)) fun a ha =>
      Res.good_ok ⟨by omega, fun _ => by omega⟩
  · exact Res.good_bind (ihIf pos (by omega)) fun a ha =>
      Res.good_ok ⟨by omega, fun _ => by omega⟩
  · exact Res.good_bind (ihWhile pos (by omega)) fun a ha =>
      Res.good_ok ⟨by omega, fun _ => by omega⟩
  · exact Res.good_bind (ihFor pos (by omega)) fun a ha =>
      Res.good_ok ⟨by omega, fun _ => by omega⟩

theorem parseStatement_term_step (toks : List Token) (hE : endsInEndOfFile toks = true)
    (n : Nat) (ih : StmtTerm toks n) (pos : Nat) (hf : 8 * (toks.length - pos) + 5 < n + 1) :
    (parseStatement (n + 1) toks pos).Good fun r =>
      toks.length - r.2 ≤ toks.length - pos
        ∧ (r.1 ≠ none → toks.length - r.2 < toks.length - pos) := by
  have ihExpr := (exprTerm toks hE n).1
  have ihPrim := (exprTerm toks hE n).2.2.2.1
  obtain ⟨-, ihTail, -, -, -, -, ihFunction⟩ := ih
  unfold parseStatement
  simp only [Res.bind_def]
  refine Res.good_ite (fun _ => ?_) (fun _ => Res.good_ite (fun _ => ?_)
    (fun _ => Res.good_ite (fun _ => ?_) (fun _ => Res.good_ite (fun h => ?_)
      (fun _ => Res.good_ite (fun h => ?_) (fun _ => ihTail pos (by omega))))))
  · exact Res.good_bind (ihFunction pos (by omega)) fun a ha =>
      Res.good_ok ⟨by omega, fun _ => by omega⟩
  · exact Res.good_bind (parseReturn_term toks hE n pos (by omega)) fun a ha =>
      Res.good_ok ⟨by omega, fun _ => by omega⟩
  · exact Res.good_bind (parseVarDecl_term toks hE n pos (by omega)) fun a ha =>
      Res.good_ok ⟨by omega, fun _ => by omega⟩
  · obtain ⟨hlt1, hadv1⟩ := peek_facts toks hE h.1 (by decide)
    have h2 : (peek toks (pos + 1)).type = .Assign := h.2
    obtain ⟨hlt2, hadv2⟩ := peek_facts toks hE h2 (by decide)
    rw [hadv1, hadv2]
    refine Res.good_bind (ihExpr _ (by omega)) fun a ha => ?_
    have := advance_bounds toks a.2
    exact Res.good_ite (fun _ => Res.good_ok ⟨by omega, fun _ => by omega⟩)
      (fun _ => Res.good_error)
  · obtain ⟨hlt1, hadv1⟩ := peek_facts toks hE h.1 (by decide)
    refine Res.good_bind (ihPrim pos (by omega)) fun a ha => ?_
    refine Res.good_ite (fun h3 => ?_) (fun _ => ?_)
    · obtain ⟨hlt3, hadv3⟩ := peek_facts toks hE h3 (by decide)
      refine Res.good_bind (ihExpr _ (by omega)) fun b hb => ?_
      have := advance_bounds toks b.2
      exact Res.good_ite (fun _ => Res.good_ok ⟨by omega, fun _ => by omega⟩)
        (fun _ => Res.good_error)
    · exact Res.good_mono (ihTail a.2 (by omega)) fun b hb => ⟨by omega, fun hn => by
        have := hb.2 hn
        omega⟩

theorem parseBlock_term_step (toks : List Token)
    (n : Nat) (ih : StmtTerm toks n) (pos : Nat) (term : Terminator) (body : List ASTNode)
    (hf : 8 * (toks.length - pos) + 6 < n + 1) :
    (parseBlock (n + 1) toks pos term body).Good fun r =>
      toks.length - r.2 ≤ toks.length - pos := by
  obtain ⟨ihStmt, -, ihBlock, -, -, -, -⟩ := ih
  unfold parseBlock
  simp only [Res.bind_def]
  refine Res.good_ite (fun h => ?_) (fun _ => Res.good_ok (Nat.le_refl _))
  have hne : isAtEnd toks pos = false := by simpa using h.1
  obtain ⟨hlt, -⟩ := not_isAtEnd_facts toks hne
  refine Res.good_bind (ihStmt pos (by omega)) fun r hr => ?_
  obtain ⟨stmt, p1⟩ := r
  obtain ⟨hw, hs⟩ := hr
  simp only at hw hs
  cases stmt with
  | none =>
    have hp := advance_progress toks pos p1 hne hw
    dsimp only
    exact Res.good_mono (ihBlock _ _ _ (by omega)) fun b hb => by omega
  | some node =>
    have hs' := hs (by simp)
    have hb1 := advance_bounds toks p1
    dsimp only
    cases term with
    | none => exact Res.good_mono (ihBlock _ _ _ (by omega)) fun b hb => by omega
    | optional =>
      exact Res.good_ite
        (fun _ => Res.good_mono (ihBlock _ _ _ (by omega)) fun b hb => by omega)
        (fun _ => Res.good_mono (ihBlock _ _ _ (by omega)) fun b hb => by omega)
    | required msg =>
      exact Res.good_ite
        (fun _ => Res.good_mono (ihBlock _ _ _ (by omega)) fun b hb => by omega)
        (fun _ => Res.good_error)

theorem stmtTerm (toks : List Token) (hE : endsInEndOfFile toks = true) :
    ∀ n, StmtTerm toks n := by
  intro n
  induction n with
  | zero =>
    exact ⟨fun _ h => by omega, fun _ h => by omega, fun _ _ _ h => by omega,
      fun _ h => by omega, fun _ h => by omega, fun _ h => by omega, fun _ h => by omega⟩
  | succ n ih =>
    exact ⟨parseStatement_term_step toks hE n ih, parseStatementTail_term_step toks hE n ih,
      parseBlock_term_step toks n ih, parseIf_term_step toks hE n ih,
      parseWhile_term_step toks hE n ih, parseFor_term_step toks hE n ih,
      parseFunction_term_step toks hE n ih⟩

theorem parseLoop_term (toks : List Token) (hE : endsInEndOfFile toks = true) (n pos : Nat)
    (nodes : List ASTNode) (hf : 8 * (toks.length - pos) + 6 < n) :
    parseLoop n toks pos nodes ≠ .outOfFuel := by
  induction n generalizing pos nodes with
  | zero => omega
  | succ n ih =>
    unfold parseLoop
    simp only [Res.bind_def]
    by_cases h : (!isAtEnd toks pos) = true
    · rw [if_pos h]
      have hne : isAtEnd toks pos = false := by simpa using h
      obtain ⟨hlt, -⟩ := not_isAtEnd_facts toks hne
      have hstmt := (stmtTerm toks hE n).1 pos (by omega)
      cases hres : parseStatement n toks pos with
      | outOfFuel => exact absurd hres hstmt.1
      | error e => exact fun hc => by cases hc
      | ok r =>
        obtain ⟨stmt, p1⟩ := r
        obtain ⟨hw, hs⟩ := hstmt.2 _ hres
        simp only at hw hs
        cases stmt with
        | none =>
          have hp := advance_progress toks pos p1 hne hw
          dsimp only [Res.bind]
          exact ih _ _ (by omega)
        | some node =>
          have hs' := hs (by simp)
          dsimp only [Res.bind]
          exact ih _ _ (by omega)
    · rw [if_neg h]
      exact fun hc => by cases hc

theorem parse_term (toks : List Token) (hE : endsInEndOfFile toks = true) (fuel : Nat)
    (hf : 8 * toks.length + 6 < fuel) : parse fuel toks ≠ .outOfFuel :=
  parseLoop_term toks hE fuel 0 [] (by omega)

theorem parseStatement_stable (n : Nat) (toks : List Token) (pos : Nat)
    (r : Res String (Option ASTNode × Nat)) (h : parseStatement n toks pos = r)
    (hr : r ≠ .outOfFuel) (m : Nat) (hm : n ≤ m) : parseStatement m toks pos = r :=
  Res.stable_of_mono (fun k => parseStatement k toks pos)
    (fun k => (stmtParserMono k).1 toks pos) n r h hr m hm

theorem parseExpression_stable (n : Nat) (toks : List Token) (pos : Nat)
    (r : Res String (ExprNode × Nat)) (h : parseExpression n toks pos = r)
    (hr : r ≠ .outOfFuel) (m : Nat) (hm : n ≤ m) : parseExpression m toks pos = r :=
  Res.stable_of_mono (fun k => parseExpression k toks pos)
    (fun k => (exprParserMono k).1 toks pos) n r h hr m hm

theorem parseBinary_stable (n : Nat) (toks : List Token) (pos prec : Nat)
    (r : Res String (ExprNode × Nat)) (h : parseBinary n toks pos prec = r)
    (hr : r ≠ .outOfFuel) (m : Nat) (hm : n ≤ m) : parseBinary m toks pos prec = r :=
  Res.stable_of_mono (fun k => parseBinary k toks pos prec)
    (fun k => (exprParserMono k).2.1 toks pos prec) n r h hr m hm

/-- A statement parse that returns has not moved backwards, and has moved forwards if it
returns a node. -/
theorem parseStatement_progress (toks : List Token) (hE : endsInEndOfFile toks = true)
    (fuel pos : Nat) (stmt : Option ASTNode) (p1 : Nat)
    (h : parseStatement fuel toks pos = .ok (stmt, p1)) :
    toks.length - p1 ≤ toks.length - pos
      ∧ (stmt ≠ none → toks.length - p1 < toks.length - pos) := by
  have hbig := parseStatement_stable fuel toks pos _ h (by simp)
    (fuel + (8 * toks.length + 6)) (by omega)
  exact ((stmtTerm toks hE _).1 pos (by omega)).2 _ hbig

theorem parseExpression_progress (toks : List Token) (hE : endsInEndOfFile toks = true)
    (fuel pos : Nat) (e : ExprNode) (p1 : Nat)
    (h : parseExpression fuel toks pos = .ok (e, p1)) :
    toks.length - p1 < toks.length - pos := by
  have hbig := parseExpression_stable fuel toks pos _ h (by simp)
    (fuel + (8 * toks.length + 6)) (by omega)
  exact ((exprTerm toks hE _).1 pos (by omega)).2 _ hbig

theorem parseBinary_progress (toks : List Token) (hE : endsInEndOfFile toks = true)
    (fuel pos prec : Nat) (e : ExprNode) (p1 : Nat)
    (h : parseBinary fuel toks pos prec = .ok (e, p1)) :
    toks.length - p1 < toks.length - pos := by
  have hbig := parseBinary_stable fuel toks pos prec _ h (by simp)
    (fuel + (8 * toks.length + 6)) (by omega)
  exact ((exprTerm toks hE _).2.1 pos prec (by omega)).2 _ hbig

/-! ## Required delimiters -/

theorem parsePrint_delims (n : Nat) (toks : List Token) (pos : Nat) (r : ASTNode × Nat)
    (h : parsePrint n toks pos = .ok r) : PrintDelimiters toks pos := by
  unfold parsePrint at h
  simp only [Res.bind_def] at h
  split at h
  · cases h
  rename_i h1
  rw [Res.bind_eq_ok] at h
  obtain ⟨⟨e, p⟩, he, h2⟩ := h
  simp only at h2
  split at h2
  · cases h2
  rename_i h3
  exact ⟨not_not.mp h1, n, e, p, he, not_not.mp h3⟩

theorem parseWhile_delims (n : Nat) (toks : List Token) (pos : Nat) (r : ASTNode × Nat)
    (h : parseWhile (n + 1) toks pos = .ok r) : WhileDelimiters toks pos := by
  rw [parseWhile] at h
  simp only [Res.bind_def] at h
  split at h
  · cases h
  rename_i h1
  rw [Res.bind_eq_ok] at h
  obtain ⟨⟨c, p1⟩, hc, h2⟩ := h
  simp only at h2
  split at h2
  · cases h2
  rename_i h3
  split at h2
  · cases h2
  rename_i h4
  rw [Res.bind_eq_ok] at h2
  obtain ⟨⟨body, p2⟩, hb, h5⟩ := h2
  simp only at h5
  split at h5
  · cases h5
  rename_i h6
  exact ⟨not_not.mp h1, n, c, p1, hc, not_not.mp h3, not_not.mp h4, body, p2, hb,
    not_not.mp h6⟩

theorem parseIf_delims (n : Nat) (toks : List Token) (pos : Nat) (r : ASTNode × Nat)
    (h : parseIf (n + 1) toks pos = .ok r) : IfDelimiters toks pos := by
  rw [parseIf] at h
  simp only [Res.bind_def] at h
  split at h
  · cases h
  rename_i h1
  rw [Res.bind_eq_ok] at h
  obtain ⟨⟨c, p1⟩, hc, h2⟩ := h
  simp only at h2
  split at h2
  · cases h2
  rename_i h3
  split at h2
  · cases h2
  rename_i h4
  rw [Res.bind_eq_ok] at h2
  obtain ⟨⟨body, p2⟩, hb, h5⟩ := h2
  simp only at h5
  split at h5
  · cases h5
  rename_i h6
  refine ⟨not_not.mp h1, n, c, p1, hc, not_not.mp h3, not_not.mp h4, body, p2, hb,
    not_not.mp h6, ?_⟩
  intro helse
  split at h5
  · split at h5
    · cases h5
    rename_i h7
    rw [Res.bind_eq_ok] at h5
    obtain ⟨⟨els, p3⟩, hels, h8⟩ := h5
    simp only at h8
    split at h8
    · cases h8
    rename_i h9
    exact ⟨not_not.mp h7, els, p3, hels, not_not.mp h9⟩
  · rename_i hno
    exact absurd (by simpa using helse) hno

theorem parseFor_delims (n : Nat) (toks : List Token) (pos : Nat) (r : ASTNode × Nat)
    (h : parseFor (n + 1) toks pos = .ok r) : ForDelimiters toks pos := by
  rw [parseFor] at h
  simp only [Res.bind_def, Res.ok_bind] at h
  split at h
  · cases h
  split at h
  · cases h
  rw [Res.bind_eq_ok] at h
  obtain ⟨⟨start, p1⟩, hstart, h2⟩ := h
  simp only at h2
  split at h2
  · cases h2
  rw [Res.bind_eq_ok] at h2
  obtain ⟨⟨limit, p2⟩, hlimit, h3⟩ := h2
  simp only at h3
  split at h3
  · rename_i hk
    rw [Res.bind_eq_ok] at h3
    obtain ⟨⟨step, p⟩, hstep, h4⟩ := h3
    simp only at h4
    split at h4
    · cases h4
    rename_i h5
    rw [Res.bind_eq_ok] at h4
    obtain ⟨⟨body, p3⟩, hbody, h6⟩ := h4
    simp only at h6
    split at h6
    · cases h6
    rename_i h7
    exact ⟨n, start, p1, limit, p2, p, hstart, hlimit, Or.inl ⟨hk, step, hstep⟩,
      not_not.mp h5, body, p3, hbody, not_not.mp h7⟩
  · rename_i hk
    split at h3
    · cases h3
    rename_i h5
    rw [Res.bind_eq_ok] at h3
    obtain ⟨⟨body, p3⟩, hbody, h6⟩ := h3
    simp only at h6
    split at h6
    · cases h6
    rename_i h7
    exact ⟨n, start, p1, limit, p2, p2, hstart, hlimit, Or.inr ⟨by simpa using hk, rfl⟩,
      not_not.mp h5, body, p3, hbody, not_not.mp h7⟩

theorem parseFunction_delims (n : Nat) (toks : List Token) (pos : Nat) (r : ASTNode × Nat)
    (h : parseFunction (n + 1) toks pos = .ok r) : FunctionDelimiters toks pos := by
  rw [parseFunction] at h
  simp only [Res.bind_def, Res.ok_bind] at h
  split at h
  · cases h
  split at h
  · cases h
  rename_i h1
  split at h
  · rename_i hk
    rw [Res.bind_eq_ok] at h
    obtain ⟨⟨params, p⟩, hparams, h2⟩ := h
    simp only at h2
    split at h2
    · cases h2
    rename_i h3
    split at h2
    · cases h2
    rename_i h4
    rw [Res.bind_eq_ok] at h2
    obtain ⟨⟨body, p2⟩, hbody, h5⟩ := h2
    simp only at h5
    split at h5
    · cases h5
    rename_i h6
    exact ⟨not_not.mp h1, n, p, Or.inl ⟨hk, params, hparams⟩, not_not.mp h3, not_not.mp h4,
      body, p2, hbody, not_not.mp h6⟩
  · rename_i h3
    split at h
    · cases h
    rename_i h4
    rw [Res.bind_eq_ok] at h
    obtain ⟨⟨body, p2⟩, hbody, h5⟩ := h
    simp only at h5
    split at h5
    · cases h5
    rename_i h6
    exact ⟨not_not.mp h1, n, _, Or.inr rfl, not_not.mp h3, not_not.mp h4,
      body, p2, hbody, not_not.mp h6⟩

/-- A block loop stops at a closing brace or at the end of the input. -/
theorem parseBlock_end (n : Nat) (toks : List Token) (pos : Nat) (term : Terminator)
    (body b : List ASTNode) (p : Nat) (h : parseBlock n toks pos term body = .ok (b, p)) :
    (peek toks p).type = .RBrace ∨ isAtEnd toks p = true := by
  induction n generalizing pos body with
  | zero =>
    unfold parseBlock at h
    cases h
  | succ n ih =>
    rw [parseBlock] at h
    simp only [Res.bind_def] at h
    split at h
    · rw [Res.bind_eq_ok] at h
      obtain ⟨⟨stmt, p1⟩, -, h2⟩ := h
      cases stmt with
      | none => exact ih _ _ h2
      | some node =>
        cases term with
        | none => exact ih _ _ h2
        | optional =>
          simp only at h2
          split at h2
          · exact ih _ _ h2
          · exact ih _ _ h2
        | required msg =>
          simp only at h2
          split at h2
          · exact ih _ _ h2
          · cases h2
    · rename_i hc
      cases h
      by_cases hb : (peek toks p).type = .RBrace
      · exact Or.inl hb
      · right
        by_contra hne
        exact hc ⟨by simpa using hne, hb⟩

theorem isKeyword_facts (toks : List Token) (pos : Nat) (kw : String)
    (h : isKeyword toks pos kw = true) :
    (peek toks pos).type = .Keyword ∧ (peek toks pos).value = kw := by
  simpa [isKeyword] using h

theorem parseStatement_tail (n : Nat) (toks : List Token) (pos : Nat) (kw : String)
    (h : isKeyword toks pos kw = true) (h1 : kw ≠ "func") (h2 : kw ≠ "return")
    (h3 : kw ≠ "let") :
    parseStatement (n + 1) toks pos = parseStatementTail n toks pos := by
  obtain ⟨ht, hv⟩ := isKeyword_facts toks pos kw h
  rw [parseStatement]
  simp [isKeyword, ht, hv, h1, h2, h3]

theorem parseStatement_print (n : Nat) (toks : List Token) (pos : Nat)
    (h : isKeyword toks pos "print" = true) :
    parseStatement (n + 2) toks pos
      = (parsePrint n toks pos).bind fun r => .ok (some r.1, r.2) := by
  rw [parseStatement_tail (n + 1) toks pos "print" h (by decide) (by decide) (by decide),
    parseStatementTail, if_pos h]
  rfl

theorem parseStatement_if (n : Nat) (toks : List Token) (pos : Nat)
    (h : isKeyword toks pos "if" = true) :
    parseStatement (n + 2) toks pos
      = (parseIf n toks pos).bind fun r => .ok (some r.1, r.2) := by
  obtain ⟨ht, hv⟩ := isKeyword_facts toks pos "if" h
  rw [parseStatement_tail (n + 1) toks pos "if" h (by decide) (by decide) (by decide),
    parseStatementTail]
  simp [isKeyword, ht, hv]
  rfl

theorem parseStatement_while (n : Nat) (toks : List Token) (pos : Nat)
    (h : isKeyword toks pos "while" = true) :
    parseStatement (n + 2) toks pos
      = (parseWhile n toks pos).bind fun r => .ok (some r.1, r.2) := by
  obtain ⟨ht, hv⟩ := isKeyword_facts toks pos "while" h
  rw [parseStatement_tail (n + 1) toks pos "while" h (by decide) (by decide) (by decide),
    parseStatementTail]
  simp [isKeyword, ht, hv]
  rfl

theorem parseStatement_for (n : Nat) (toks : List Token) (pos : Nat)
    (h : isKeyword toks pos "for" = true) :
    parseStatement (n + 2) toks pos
      = (parseFor n toks pos).bind fun r => .ok (some r.1, r.2) := by
  obtain ⟨ht, hv⟩ := isKeyword_facts toks pos "for" h
  rw [parseStatement_tail (n + 1) toks pos "for" h (by decide) (by decide) (by decide),
    parseStatementTail]
  simp [isKeyword, ht, hv]
  rfl

theorem parseStatement_func (n : Nat) (toks : List Token) (pos : Nat)
    (h : isKeyword toks pos "func" = true) :
    parseStatement (n + 1) toks pos
      = (parseFunction n toks pos).bind fun r => .ok (some r.1, r.2) := by
  rw [parseStatement, if_pos h]
  rfl

theorem parseLoop_error (fuel : Nat) (toks : List Token) (pos : Nat) (nodes : List ASTNode)
    (e : String) (hne : isAtEnd toks pos = false)
    (h : parseStatement fuel toks pos = .error e) :
    parseLoop (fuel + 1) toks pos nodes = .error e := by
  rw [parseLoop]
  simp [hne, h, Res.bind_def, Res.bind]

theorem parseLoop_some (fuel : Nat) (toks : List Token) (pos : Nat) (nodes : List ASTNode)
    (node : ASTNode) (p1 : Nat) (hne : isAtEnd toks pos = false)
    (h : parseStatement fuel toks pos = .ok (some node, p1)) :
    parseLoop (fuel + 1) toks pos nodes = parseLoop fuel toks p1 (nodes ++ [node]) := by
  rw [parseLoop]
  simp [hne, h, Res.bind_def, Res.bind]

theorem parseLoop_none (fuel : Nat) (toks : List Token) (pos : Nat) (nodes : List ASTNode)
    (p1 : Nat) (hne : isAtEnd toks pos = false)
    (h : parseStatement fuel toks pos = .ok (none, p1)) :
    parseLoop (fuel + 1) toks pos nodes = parseLoop fuel toks (advance toks p1) nodes := by
  rw [parseLoop]
  simp [hne, h, Res.bind_def, Res.bind]

theorem parseBlock_error (fuel : Nat) (toks : List Token) (pos : Nat) (term : Terminator)
    (body : List ASTNode) (e : String) (hne : isAtEnd toks pos = false)
    (hb : (peek toks pos).type ≠ .RBrace) (h : parseStatement fuel toks pos = .error e) :
    parseBlock (fuel + 1) toks pos term body = .error e := by
  rw [parseBlock]
  simp [hne, hb, h, Res.bind_def, Res.bind]

theorem parseLoop_stable (n : Nat) (toks : List Token) (pos : Nat) (nodes : List ASTNode)
    (r : Res String (List ASTNode)) (h : parseLoop n toks pos nodes = r)
    (hr : r ≠ .outOfFuel) (m : Nat) (hm : n ≤ m) : parseLoop m toks pos nodes = r :=
  Res.stable_of_mono (fun k => parseLoop k toks pos nodes)
    (fun k => parseLoop_mono k toks pos nodes) n r h hr m hm

/-- Whatever the top-level loop returns from a position it reaches is what `parse` returns. -/
theorem topLevelAt_result (toks : List Token) (pos : Nat) (nodes : List ASTNode)
    (h : TopLevelAt toks pos nodes) (r : Res String (List ASTNode)) (hr : r ≠ .outOfFuel)
    (f : Nat) (hf : parseLoop f toks pos nodes = r) : ∃ f', parse f' toks = r := by
  induction h generalizing r f with
  | start => exact ⟨f, hf⟩
  | afterNode pos fuel nodes node p1 _ hne hstmt ih =>
    refine ih r hr (max f fuel + 1) ?_
    rw [parseLoop_some (max f fuel) toks pos nodes node p1 hne
      (parseStatement_stable fuel toks pos _ hstmt (by simp) _ (Nat.le_max_right _ _))]
    exact parseLoop_stable f toks p1 _ r hf hr _ (Nat.le_max_left _ _)
  | afterSkip pos fuel nodes p1 _ hne hstmt ih =>
    refine ih r hr (max f fuel + 1) ?_
    rw [parseLoop_none (max f fuel) toks pos nodes p1 hne
      (parseStatement_stable fuel toks pos _ hstmt (by simp) _ (Nat.le_max_right _ _))]
    exact parseLoop_stable f toks _ _ r hf hr _ (Nat.le_max_left _ _)

/-- An exception of the statement parser at a position the top-level loop reaches is the
result of `parse`, with every fuel that lets `parse` return. -/
theorem topLevelAt_raises (toks : List Token) (hE : endsInEndOfFile toks = true) (pos : Nat)
    (nodes : List ASTNode) (h : TopLevelAt toks pos nodes) (hne : isAtEnd toks pos = false)
    (f : Nat) (e : String) (he : parseStatement f toks pos = .error e) (fuel : Nat)
    (hfuel : 8 * toks.length + 6 < fuel) : parse fuel toks = .error e := by
  obtain ⟨f', hf'⟩ := topLevelAt_result toks pos nodes h (.error e) (by simp) (f + 1)
    (parseLoop_error f toks pos nodes e hne he)
  have hterm := parse_term toks hE fuel hfuel
  exact (Res.unique_of_mono (fun k => parse k toks) (fun k => parseLoop_mono k toks 0 [])
    f' fuel _ _ hf' (by simp) rfl hterm).symm

/-! ## Identifier tokens are not keywords -/

theorem twoChar_type (L : Lexer) (second : Char) (long short : Token) (t : Token) (L1 : Lexer)
    (h : twoChar L second long short = (t, L1)) : t = long ∨ t = short := by
  unfold twoChar at h
  simp only at h
  split at h
  · cases h
    exact Or.inl rfl
  · cases h
    exact Or.inr rfl

theorem nextTokenFuel_identifier (fuel : Nat) (L0 : Lexer) (t : Token) (L1 : Lexer)
    (h : nextTokenFuel fuel L0 = some (t, L1)) (ht : t.type = .Identifier) :
    t.value ∉ KEYWORDS := by
  induction fuel generalizing L0 with
  | zero =>
    unfold nextTokenFuel at h
    cases h
  | succ fuel ih =>
    rw [nextTokenFuel] at h
    simp only at h
    generalize skipWhitespace L0.rest L0.line L0.column = L at h
    have two : ∀ (second : Char) (long short : Token), long.type ≠ .Identifier →
        short.type ≠ .Identifier → some (twoChar L second long short) = some (t, L1) →
        False := by
      intro second long short h1 h2 heq
      injection heq with heq
      rcases twoChar_type L second long short t L1 heq with rfl | rfl
      · exact h1 ht
      · exact h2 ht
    by_cases hc : L.peek = '\x00'
    · rw [if_pos hc] at h
      cases h
      cases ht
    rw [if_neg hc] at h
    clear hc
    by_cases hc : L.peek = '#'
    · rw [if_pos hc] at h
      cases h
      cases ht
    rw [if_neg hc] at h
    clear hc
    by_cases hc : L.peek = '/' ∧ L.peekNext = '/'
    · rw [if_pos hc] at h
      exact ih _ h
    rw [if_neg hc] at h
    clear hc
    by_cases hc : (isalpha L.peek || decide (L.peek = '_')) = true
    · rw [if_pos hc] at h
      split at h
      · cases h
        cases ht
      split at h
      · cases h
        cases ht
      · rename_i hk
        cases h
        exact hk
    rw [if_neg hc] at h
    clear hc
    by_cases hc : isdigit L.peek = true
    · rw [if_pos hc] at h
      cases h
      simp only at ht
      split at ht <;> cases ht
    rw [if_neg hc] at h
    clear hc
    by_cases hc : L.peek = '\x22'
    · rw [if_pos hc] at h
      cases h
      cases ht
    rw [if_neg hc] at h
    clear hc
    by_cases hc : L.peek = '='
    · rw [if_pos hc] at h
      exact (two _ _ _ (by simp) (by simp) h).elim
    rw [if_neg hc] at h
    clear hc
    by_cases hc : L.peek = '!'
    · rw [if_pos hc] at h
      exact (two _ _ _ (by simp) (by simp) h).elim
    rw [if_neg hc] at h
    clear hc
    by_cases hc : L.peek = '<'
    · rw [if_pos hc] at h
      exact (two _ _ _ (by simp) (by simp) h).elim
    rw [if_neg hc] at h
    clear hc
    by_cases hc : L.peek = '>'
    · rw [if_pos hc] at h
      exact (two _ _ _ (by simp) (by simp) h).elim
    rw [if_neg hc] at h
    clear hc
    by_cases hc : L.peek = '&'
    · rw [if_pos hc] at h
      exact (two _ _ _ (by simp) (by simp) h).elim
    rw [if_neg hc] at h
    clear hc
    by_cases hc : L.peek = '|'
    · rw [if_pos hc] at h
      exact (two _ _ _ (by simp) (by simp) h).elim
    rw [if_neg hc] at h
    clear hc
    by_cases hc : L.peek = '+' ∨ L.peek = '-' ∨ L.peek = '*' ∨ L.peek = '/'
    · rw [if_pos hc] at h
      cases h
      cases ht
    rw [if_neg hc] at h
    clear hc
    by_cases hc : L.peek = '('
    · rw [if_pos hc] at h
      cases h
      cases ht
    rw [if_neg hc] at h
    clear hc
    by_cases hc : L.peek = ')'
    · rw [if_pos hc] at h
      cases h
      cases ht
    rw [if_neg hc] at h
    clear hc
    by_cases hc : L.peek = '['
    · rw [if_pos hc] at h
      cases h
      cases ht
    rw [if_neg hc] at h
    clear hc
    by_cases hc : L.peek = ']'
    · rw [if_pos hc] at h
      cases h
      cases ht
    rw [if_neg hc] at h
    clear hc
    by_cases hc : L.peek = '\x7b'
    · rw [if_pos hc] at h
      cases h
      cases ht
    rw [if_neg hc] at h
    clear hc
    by_cases hc : L.peek = '\x7d'
    · rw [if_pos hc] at h
      cases h
      cases ht
    rw [if_neg hc] at h
    clear hc
    by_cases hc : L.peek = ','
    · rw [if_pos hc] at h
      cases h
      cases ht
    rw [if_neg hc] at h
    cases h
    cases ht

theorem tokenizeLoop_identifier (fuel : Nat) (L : Lexer) (toks : List Token)
    (h : tokenizeLoop fuel L = some toks) :
    ∀ t ∈ toks, t.type = .Identifier → t.value ∉ KEYWORDS := by
  induction fuel generalizing L toks with
  | zero =>
    unfold tokenizeLoop at h
    cases h
  | succ fuel ih =>
    rw [tokenizeLoop] at h
    cases hn : nextToken L with
    | none =>
      rw [hn] at h
      cases h
    | some r =>
      obtain ⟨tok, L1⟩ := r
      rw [hn] at h
      simp only at h
      have htok := nextTokenFuel_identifier _ L tok L1 hn
      split at h
      · cases h
        intro t hmem
        rw [List.mem_singleton.mp hmem]
        exact htok
      · cases hrest : tokenizeLoop fuel L1 with
        | none =>
          rw [hrest] at h
          cases h
        | some rest =>
          rw [hrest] at h
          cases h
          intro t hmem
          rcases List.mem_cons.mp hmem with rfl | hmem
          · exact htok
          · exact ih L1 rest hrest t hmem

theorem tokenize_identifier (src : String) (toks : List Token) (h : tokenize src = some toks) :
    ∀ t ∈ toks, t.type = .Identifier → t.value ∉ KEYWORDS :=
  tokenizeLoop_identifier _ _ toks h

/-! ## Names of declared functions -/

theorem parseFunction_declares (n : Nat) (toks : List Token) (pos : Nat) :
    (parseFunction n toks pos).Sat fun r => DeclaresIdentifier toks r.1 := by
  cases n with
  | zero =>
    unfold parseFunction
    exact Res.sat_outOfFuel
  | succ n =>
    unfold parseFunction
    simp only [Res.bind_def, Res.ok_bind]
    refine Res.sat_ite (fun _ => Res.sat_error) (fun h1 => ?_)
    have hid := not_not.mp h1
    repeat' (first
      | exact Res.sat_error
      | (apply Res.sat_ite <;> intro _)
      | (refine Res.sat_bind (P := fun _ => True) (fun _ _ => trivial) ?_; intro _ _)
      | (apply Res.sat_ok; intro name hname
         simp only [functionName, Option.some.injEq] at hname
         exact ⟨_, hid, hname⟩))

theorem parseVarDecl_kind (n : Nat) (toks : List Token) (pos : Nat) :
    (parseVarDecl n toks pos).Sat fun r => functionName r.1 = none := by
  unfold parseVarDecl
  simp only [Res.bind_def, Res.ok_bind]
  repeat' (first
    | exact Res.sat_error
    | (apply Res.sat_ite <;> intro _)
    | (refine Res.sat_bind (P := fun _ => True) (fun _ _ => trivial) ?_; intro _ _)
    | (apply Res.sat_ok; rfl))

theorem parsePrint_kind (n : Nat) (toks : List Token) (pos : Nat) :
    (parsePrint n toks pos).Sat fun r => functionName r.1 = none := by
  unfold parsePrint
  simp only [Res.bind_def, Res.ok_bind]
  repeat' (first
    | exact Res.sat_error
    | (apply Res.sat_ite <;> intro _)
    | (refine Res.sat_bind (P := fun _ => True) (fun _ _ => trivial) ?_; intro _ _)
    | (apply Res.sat_ok; rfl))

theorem parseReturn_kind (n : Nat) (toks : List Token) (pos : Nat) :
    (parseReturn n toks pos).Sat fun r => functionName r.1 = none := by
  unfold parseReturn
  simp only [Res.bind_def, Res.ok_bind]
  repeat' (first
    | exact Res.sat_error
    | (apply Res.sat_ite <;> intro _)
    | (refine Res.sat_bind (P := fun _ => True) (fun _ _ => trivial) ?_; intro _ _)
    | (apply Res.sat_ok; rfl))

theorem parseIf_kind (n : Nat) (toks : List Token) (pos : Nat) :
    (parseIf n toks pos).Sat fun r => functionName r.1 = none := by
  cases n with
  | zero =>
    unfold parseIf
    exact Res.sat_outOfFuel
  | succ n =>
    unfold parseIf
    simp only [Res.bind_def, Res.ok_bind]
    repeat' (first
      | exact Res.sat_error
      | (apply Res.sat_ite <;> intro _)
      | (refine Res.sat_bind (P := fun _ => True) (fun _ _ => trivial) ?_; intro _ _)
      | (apply Res.sat_ok; rfl))

theorem parseWhile_kind (n : Nat) (toks : List Token) (pos : Nat) :
    (parseWhile n toks pos).Sat fun r => functionName r.1 = none := by
  cases n with
  | zero =>
    unfold parseWhile
    exact Res.sat_outOfFuel
  | succ n =>
    unfold parseWhile
    simp only [Res.bind_def, Res.ok_bind]
    repeat' (first
      | exact Res.sat_error
      | (apply Res.sat_ite <;> intro _)
      | (refine Res.sat_bind (P := fun _ => True) (fun _ _ => trivial) ?_; intro _ _)
      | (apply Res.sat_ok; rfl))

theorem parseFor_kind (n : Nat) (toks : List Token) (pos : Nat) :
    (parseFor n toks pos).Sat fun r => functionName r.1 = none := by
  cases n with
  | zero =>
    unfold parseFor
    exact Res.sat_outOfFuel
  | succ n =>
    unfold parseFor
    simp only [Res.bind_def, Res.ok_bind]
    repeat' (first
      | exact Res.sat_error
      | (apply Res.sat_ite <;> intro _)
      | (refine Res.sat_bind (P := fun _ => True) (fun _ _ => trivial) ?_; intro _ _)
      | (apply Res.sat_ok; rfl))

theorem parseStatementTail_kind (n : Nat) (toks : List Token) (pos : Nat) :
    (parseStatementTail n toks pos).Sat fun r =>
      ∀ node, r.1 = some node → functionName node = none := by
  cases n with
  | zero =>
    unfold parseStatementTail
    exact Res.sat_outOfFuel
  | succ n =>
    unfold parseStatementTail
    simp only [Res.bind_def]
    repeat' (first
      | (apply Res.sat_ite <;> intro _)
      | (refine Res.sat_bind (parsePrint_kind _ _ _) ?_; intro _ _)
      | (refine Res.sat_bind (parseIf_kind _ _ _) ?_; intro _ _)
      | (refine Res.sat_bind (parseWhile_kind _ _ _) ?_; intro _ _)
      | (refine Res.sat_bind (parseFor_kind _ _ _) ?_; intro _ _)
      | (apply Res.sat_ok; simp_all))

theorem parseStatement_declares (n : Nat) (toks : List Token) (pos : Nat) :
    (parseStatement n toks pos).Sat fun r =>
      ∀ node, r.1 = some node → DeclaresIdentifier toks node := by
  have hnone : ∀ node, functionName node = none → DeclaresIdentifier toks node := by
    intro node h name hname
    rw [h] at hname
    cases hname
  cases n with
  | zero =>
    unfold parseStatement
    exact Res.sat_outOfFuel
  | succ n =>
    unfold parseStatement
    simp only [Res.bind_def]
    repeat' (first
      | exact Res.sat_error
      | exact Res.sat_mono (parseStatementTail_kind _ _ _)
          (fun r hr node hnode => hnone node (hr node hnode))
      | (apply Res.sat_ite <;> intro _)
      | (refine Res.sat_bind (parseFunction_declares _ _ _) ?_; intro _ _)
      | (refine Res.sat_bind (parseReturn_kind _ _ _) ?_; intro _ _)
      | (refine Res.sat_bind (parseVarDecl_kind _ _ _) ?_; intro _ _)
      | (refine Res.sat_bind (P := fun _ => True) (fun _ _ => trivial) ?_; intro _ _)
      | (apply Res.sat_ok; intro node hnode; simp only [Option.some.injEq] at hnode
         subst hnode
         first | assumption | (apply hnone; first | assumption | rfl)))

theorem parseLoop_declares (n : Nat) (toks : List Token) (pos : Nat) (nodes : List ASTNode)
    (hnodes : ∀ node ∈ nodes, DeclaresIdentifier toks node) :
    (parseLoop n toks pos nodes).Sat fun r => ∀ node ∈ r, DeclaresIdentifier toks node := by
  induction n generalizing pos nodes with
  | zero =>
    unfold parseLoop
    exact Res.sat_outOfFuel
  | succ n ih =>
    unfold parseLoop
    simp only [Res.bind_def]
    refine Res.sat_ite (fun _ => ?_) (fun _ => Res.sat_ok hnodes)
    refine Res.sat_bind (parseStatement_declares n toks pos) fun r hr => ?_
    obtain ⟨stmt, pos1⟩ := r
    cases stmt with
    | none => exact ih _ _ hnodes
    | some node =>
      refine ih _ _ ?_
      intro x hx
      rcases List.mem_append.mp hx with hx | hx
      · exact hnodes x hx
      · rw [List.mem_singleton.mp hx]
        exact hr node rfl

theorem peek_mem (toks : List Token) (pos : Nat) (h : (peek toks pos).type ≠ .EndOfFile) :
    peek toks pos ∈ toks := by
  unfold peek at h ⊢
  simp only [Nat.add_zero] at h ⊢
  cases toks with
  | nil => simp at h
  | cons t ts =>
    split
    · have hm := List.getLast_mem (List.cons_ne_nil t ts)
      rw [List.getLastD_eq_getLast?, List.getLast?_eq_getLast _ (List.cons_ne_nil t ts)]
      exact hm
    · rename_i hlt
      have hlt' : pos < (t :: ts).length := by omega
      rw [List.getD_eq_getElem _ _ hlt']
      exact List.getElem_mem _

theorem declared_none (nodes : List ASTNode) (name : String)
    (h : ∀ node ∈ nodes, functionName node ≠ some name) : declared nodes name = none := by
  induction nodes with
  | nil => rfl
  | cons node rest ih =>
    have hrest := ih fun x hx => h x (List.mem_cons_of_mem _ hx)
    have hnode := h node (List.mem_cons_self _ _)
    cases node with
    | FunctionNode n params body =>
      simp only [declared, hrest]
      have : n ≠ name := fun hc => hnode (by rw [functionName, hc])
      rw [if_neg this]
    | VarDeclNode x v => exact hrest
    | PrintNode e => exact hrest
    | IfNode c t e => exact hrest
    | WhileNode c b => exact hrest
    | ForNode i c inc b => exact hrest
    | ReturnNode v => exact hrest

/-- No program text declares a function under a keyword: `len` is never a declared name. -/
theorem parseSource_declares_no_keyword (fuel : Nat) (src : String) (nodes : List ASTNode)
    (h : parseSource fuel src = .ok nodes) (kw : String) (hkw : kw ∈ KEYWORDS) :
    declared nodes kw = none := by
  unfold parseSource at h
  cases htok : tokenize src with
  | none =>
    rw [htok] at h
    cases h
  | some toks =>
    rw [htok] at h
    simp only at h
    have hid := tokenize_identifier src toks htok
    have hdecl := parseLoop_declares fuel toks 0 [] (by simp) nodes h
    apply declared_none
    intro node hnode hname
    obtain ⟨p, hp1, hp2⟩ := hdecl node hnode kw hname
    have hmem := peek_mem toks p (by rw [hp1]; decide)
    exact hid _ hmem hp1 (by rw [hp2]; exact hkw)

theorem parsePrimary_identifier (fuel : Nat) (toks : List Token) (pos : Nat)
    (hid : (peek toks pos).type = .Identifier)
    (hnext : (peek toks (advance toks pos)).type ≠ .LBracket) :
    parsePrimary (fuel + 2) toks pos
      = .ok (.IdentifierNode (peek toks pos).value, advance toks pos) := by
  have h1 : ¬ (peek toks pos).type = .LBracket := by rw [hid]; decide
  have h2 : isKeyword toks pos "len" = false := by
    unfold isKeyword
    rw [hid]
    rfl
  rw [parsePrimary, if_neg h1, h2]
  simp only [Bool.false_eq_true, if_false]
  rw [primary, if_pos hid]
  show parseIndexLoop (fuel + 1) toks (advance toks pos) _ = _
  rw [parseIndexLoop, if_neg hnext]

theorem parseExpression_identifier (fuel : Nat) (toks : List Token) (pos : Nat)
    (hid : (peek toks pos).type = .Identifier)
    (hnext : (peek toks (advance toks pos)).type = .LParen) :
    parseExpression (fuel + 5) toks pos
      = .ok (.IdentifierNode (peek toks pos).value, advance toks pos) := by
  rw [parseExpression_succ]
  exact parseBinary_operand 2 toks pos 0 _ _
    (parsePrimary_identifier 0 toks pos hid (by rw [hnext]; decide))
    (by rw [hnext]; simp) (fuel + 4) (by omega)

/-! ## The parameter loop of a call -/

theorem Res.bind_assoc {ε α β γ : Type} (r : Res ε α) (k : α → Res ε β) (l : β → Res ε γ) :
    (r.bind k).bind l = r.bind fun a => (k a).bind l := by
  cases r <;> rfl

theorem bindParams_cons (fuel : Nat) (p : String) (ps : List String) (a : ExprNode)
    (as : List ExprNode) (st : Interpreter) :
    bindParams (fuel + 1) (p :: ps) (a :: as) st
      = (eval fuel a st).bind fun r => bindParams fuel ps as (r.2.setVar p r.1) := by
  rw [bindParams]
  rfl

theorem bindParams_nil (fuel : Nat) (as : List ExprNode) (st : Interpreter) :
    bindParams (fuel + 1) [] as st = .ok st := by
  rw [bindParams]
  intro p ps a as1 h
  cases h

theorem bindParams_short (fuel : Nat) (ps : List String) (st : Interpreter) :
    bindParams (fuel + 1) ps [] st = .ok st := by
  rw [bindParams]
  intro p ps1 a as1 _ h
  cases h

theorem bindParams_append (n : Nat) (pre : List String) (apre : List ExprNode)
    (ps : List String) (as : List ExprNode) (st : Interpreter)
    (hlen : pre.length = apre.length) :
    bindParams (n + 1 + pre.length) (pre ++ ps) (apre ++ as) st
      = (bindParams (n + 1 + pre.length) pre apre st).bind fun s =>
          bindParams (n + 1) ps as s := by
  induction pre generalizing apre st with
  | nil =>
    cases apre with
    | nil =>
      show bindParams (n + 1) ps as st = (bindParams (n + 1) [] [] st).bind _
      rw [bindParams_nil]
      rfl
    | cons a apre => cases hlen
  | cons p pre ih =>
    cases apre with
    | nil => cases hlen
    | cons a apre =>
      have hlen' : pre.length = apre.length := by simpa using hlen
      show bindParams (n + 1 + pre.length + 1) (p :: (pre ++ ps)) (a :: (apre ++ as)) st
        = (bindParams (n + 1 + pre.length + 1) (p :: pre) (a :: apre) st).bind _
      rw [bindParams_cons, bindParams_cons, Res.bind_assoc]
      congr 1
      funext r
      exact ih apre _ hlen'

theorem bindParams_keeps (fuel : Nat) (ps : List String) (as : List ExprNode)
    (st st' : Interpreter) (q : String) (hq : q ∉ ps) (has : noAssignList as = true)
    (h : bindParams fuel ps as st = .ok st') : find st'.vars q = find st.vars q := by
  induction fuel generalizing ps as st with
  | zero =>
    unfold bindParams at h
    cases h
  | succ fuel ih =>
    cases ps with
    | nil =>
      rw [bindParams_nil] at h
      cases h
      rfl
    | cons p ps =>
      cases as with
      | nil =>
        rw [bindParams_short] at h
        cases h
        rfl
      | cons a as =>
        rw [bindParams_cons] at h
        obtain ⟨r, hr, hrest⟩ := Res.bind_eq_ok.mp h
        obtain ⟨v, s1⟩ := r
        have hna : noAssign a = true ∧ noAssignList as = true := by
          simpa [noAssignList] using has
        have hvars : s1.vars = st.vars := ((interpInv fuel).1 a st v s1 hr).2.2.2 hna.1
        have hne : q ≠ p := fun hc => hq (hc ▸ List.mem_cons_self _ _)
        have hq' : q ∉ ps := fun hc => hq (List.mem_cons_of_mem _ hc)
        rw [ih ps as _ hq' hna.2 hrest]
        show find (assign s1.vars p v) q = _
        rw [find_assign_ne _ _ _ _ hne, hvars]

/-! ## Validity of the reference of an element assignment -/

theorem eval_restores_step (fuel : Nat) (ih : RestoresInv fuel) (e : ExprNode)
    (st : Interpreter) (v : Value) (st' : Interpreter)
    (h : eval (fuel + 1) e st = .ok (v, st')) (hc : noDeclaredCall st.functions e = true) :
    st'.restores = st.restores := by
  obtain ⟨ihEval, ihElems⟩ := ih
  cases e with
  | NumberNode value =>
    rw [eval_NumberNode] at h
    split at h
    · cases h; rfl
    · cases h
  | StringNode value =>
    rw [eval_StringNode] at h
    cases h; rfl
  | IdentifierNode name =>
    rw [eval_IdentifierNode] at h
    split at h
    · cases h; rfl
    · cases h
  | ArrayNode elements =>
    rw [eval_ArrayNode, Res.bind_eq_ok] at h
    obtain ⟨⟨cells, st1⟩, h1, h2⟩ := h
    cases h2
    exact ihElems _ _ _ _ _ h1 (by simpa [noDeclaredCall] using hc)
  | IndexNode array index =>
    have hc' : noDeclaredCall st.functions array = true
        ∧ noDeclaredCall st.functions index = true := by
      simpa [noDeclaredCall] using hc
    rw [eval_IndexNode, Res.bind_eq_ok] at h
    obtain ⟨⟨arrVal, st1⟩, h1, h⟩ := h
    rw [Res.bind_eq_ok] at h
    obtain ⟨⟨idxVal, st2⟩, h2, h3⟩ := h
    have hf1 : st1.functions = st.functions := ((interpInv fuel).1 _ _ _ _ h1).2.1
    have r1 := ihEval _ _ _ _ h1 hc'.1
    have r2 := ihEval _ _ _ _ h2 (by rw [hf1]; exact hc'.2)
    simp only at h3
    split at h3
    · rw [Res.bind_eq_ok] at h3
      obtain ⟨d, -, h4⟩ := h3
      split at h4
      · cases h4
      · split at h4
        · cases h4
          exact r2.trans r1
        · cases h4
    · cases h3
  | CallNode func args =>
    have hc' : find st.functions func = none
        ∧ noDeclaredCallList st.functions args = true := by
      simpa [noDeclaredCall] using hc
    rw [eval_CallNode_builtin _ _ _ _ hc'.1] at h
    split at h
    · split at h
      · rw [Res.bind_eq_ok] at h
        obtain ⟨⟨arrVal, s1⟩, h1, h2⟩ := h
        simp only at h2
        split at h2
        · cases h2
          exact ihEval _ _ _ _ h1 (by simpa [noDeclaredCallList] using hc'.2)
        · cases h2
      · cases h
    · cases h
  | BinaryExprNode op left right =>
    by_cases hop : op = "[]="
    · subst hop
      obtain ⟨name, index, rfl⟩ := eval_assign_shape _ _ _ _ _ h
      rw [eval_assign] at h
      split at h
      · cases h
      · rw [Res.bind_eq_ok] at h
        obtain ⟨⟨idxVal, s1⟩, h1, h⟩ := h
        rw [Res.bind_eq_ok] at h
        obtain ⟨d, -, h⟩ := h
        split at h
        · cases h
        · split at h
          · cases h
          · split at h
            · cases h
            · rw [Res.bind_eq_ok] at h
              obtain ⟨⟨rv, s2⟩, h2, h3⟩ := h
              split at h3
              · cases h3
              · rename_i hkeep
                cases h3
                exact not_not.mp hkeep
      · cases h
    · have hc' : noDeclaredCall st.functions left = true
          ∧ noDeclaredCall st.functions right = true := by
        simpa [noDeclaredCall] using hc
      rw [eval_binary _ _ _ _ _ hop] at h
      rw [Res.bind_eq_ok] at h
      obtain ⟨⟨lv, s1⟩, h1, h⟩ := h
      rw [Res.bind_eq_ok] at h
      obtain ⟨⟨rv, s2⟩, h2, h⟩ := h
      rw [Res.bind_eq_ok] at h
      obtain ⟨w, -, h3⟩ := h
      cases h3
      have hf1 : s1.functions = st.functions := ((interpInv fuel).1 _ _ _ _ h1).2.1
      exact (ihEval _ _ _ _ h2 (by rw [hf1]; exact hc'.2)).trans (ihEval _ _ _ _ h1 hc'.1)

theorem restoresInv : ∀ fuel, RestoresInv fuel := by
  intro fuel
  induction fuel with
  | zero =>
    exact ⟨fun e st v st' h => absurd h (by intro h; cases h),
      fun es cells st cells' st' h => absurd h (by intro h; cases h)⟩
  | succ fuel ih =>
    refine ⟨eval_restores_step fuel ih, ?_⟩
    intro es cells st cells' st' h hc
    unfold evalElements at h
    cases es with
    | nil => cases h; rfl
    | cons el rest =>
      have hc' : noDeclaredCall st.functions el = true
          ∧ noDeclaredCallList st.functions rest = true := by
        simpa [noDeclaredCallList] using hc
      simp only [Res.bind_def, Res.bind_eq_ok] at h
      obtain ⟨⟨v, s1⟩, h1, h2⟩ := h
      have hf1 : s1.functions = st.functions := ((interpInv fuel).1 _ _ _ _ h1).2.1
      exact (ih.2 _ _ _ _ _ h2 (by rw [hf1]; exact hc'.2)).trans (ih.1 _ _ _ _ h1 hc'.1)

/-- The reference `vec` of an element assignment dangles once the index expression has run a
call that returned: when the index is not negative, `vec.size()` is read through it and the
model gives the outcome that stands for undefined behaviour. -/
theorem eval_assign_dangling (fuel : Nat) (name : String) (index right : ExprNode)
    (st : Interpreter) (cells : List Value) (d : ℚ) (s1 : Interpreter)
    (hbound : find st.vars name = some (.arr cells))
    (hidx : eval fuel index st = .ok (.num d, s1)) (hd : 0 ≤ toInt d)
    (hr : s1.restores ≠ st.restores) :
    eval (fuel + 1) (.BinaryExprNode "[]=" (.IndexNode (.IdentifierNode name) index) right) st
      = .error (danglingReference, s1) := by
  rw [eval_assign, hbound]
  simp only [hidx, Res.bind, getDouble, Res.inState, Res.map, id]
  rw [if_neg (by omega), if_pos hr]

/-- With `a` bound to `[1, 2, 3]` and `func f(x) { return x; }` declared, `a[0] = f(5)` and
`a[f(0)] = 9` use the reference after the call has returned: the outcome is the one that
stands for undefined behaviour, with every fuel from 5 on. -/
theorem eval_assign_after_call (fuel : Nat) (hfuel : 5 ≤ fuel) :
    (eval fuel (.BinaryExprNode "[]=" (.IndexNode (.IdentifierNode "a") (.NumberNode "0"))
        (.CallNode "f" [.NumberNode "5"])) callDemo).map (fun e => e.1) (fun r => r.1)
      = .error danglingReference
    ∧ (eval fuel (.BinaryExprNode "[]="
          (.IndexNode (.IdentifierNode "a") (.CallNode "f" [.NumberNode "0"]))
          (.NumberNode "9")) callDemo).map (fun e => e.1) (fun r => r.1)
        = .error danglingReference := by
  have hmono : ∀ (e : ExprNode) (k : Nat), Res.le
      ((eval k e callDemo).map (fun e => e.1) (fun r => r.1))
      ((eval (k + 1) e callDemo).map (fun e => e.1) (fun r => r.1)) :=
    fun e k => Res.map_le _ _ ((interpMono k).1 _ _)
  exact ⟨Res.stable_of_mono _ (hmono _) 5 _ (by decide!) (by simp) fuel hfuel,
    Res.stable_of_mono _ (hmono _) 5 _ (by decide!) (by simp) fuel hfuel⟩

/-! ## Claims about the lexer -/

/-- C1: for every source string `tokenize` returns (it neither runs out of fuel nor throws; the
lexer has no `throw`) a sequence `front ++ [last]` whose last token is `EndOfFile` and whose
earlier tokens are not; a character that starts no recognised token yields exactly one `Unknown`
token holding that character and consumes that character only, at any position and in
particular at the start of a source. -/
theorem tokenize_total_single_EndOfFile :
    (∀ src : String, ∃ front last, tokenize src = some (front ++ [last])
        ∧ last.type = .EndOfFile ∧ ∀ t ∈ front, t.type ≠ .EndOfFile)
    ∧ (∀ (c : Char) (cs : List Char) (line column : Nat), startsToken c = false →
        nextToken ⟨c :: cs, line, column⟩
          = some (⟨.Unknown, String.singleton c, line, column⟩, ⟨cs, line, column + 1⟩))
    ∧ (∀ (c : Char) (cs : List Char), startsToken c = false →
        ∃ toks, tokenize (String.mk (c :: cs))
          = some (⟨.Unknown, String.singleton c, 1, 1⟩ :: toks)) := by
  refine ⟨fun src => tokenizeLoop_total _ _ (Nat.lt_succ_self _), nextToken_unknown, ?_⟩
  intro c cs hc
  obtain ⟨front, last, hloop, _, _⟩ :=
    tokenizeLoop_total (cs.length + 1) ⟨cs, 1, 2⟩ (Nat.lt_succ_self _)
  refine ⟨front ++ [last], ?_⟩
  have hlen : (String.mk (c :: cs)).length = cs.length + 1 := by
    simp [String.length]
  unfold tokenize
  rw [hlen]
  unfold tokenizeLoop
  rw [nextToken_unknown c cs 1 1 hc]
  simp only [if_neg (show ¬ (TokenType.Unknown = TokenType.EndOfFile) by decide)]
  rw [hloop]
  rfl

/-- C1, at the source `;`: the semicolon starts no recognised token and is lexed as `Unknown`. -/
theorem tokenize_total_single_EndOfFile_witness :
    startsToken ';' = false
    ∧ nextToken ⟨[';'], 1, 1⟩ = some (⟨.Unknown, ";", 1, 1⟩, ⟨[], 1, 2⟩) :=
  ⟨by decide, tokenize_total_single_EndOfFile.2.1 ';' [] 1 1 (by decide)⟩

/-! ## Claims about whole programs -/

/-- C2: with any fuel from 100 on, the source text of the conditional-dispatch example runs
through `tokenize`, `parse` and `interpret` without error and writes exactly one line, `big`. -/
theorem conditional_dispatch_prints_big (fuel : Nat) (h : 100 ≤ fuel) :
    runSource fuel
      "let x=5; if (x>3) \x7b print(\"big\"); \x7d else \x7b print(\"small\"); \x7d"
      = .ok ["big"] :=
  runSource_stable 100 _ _ (by decide!) (by decide) fuel h

/-- C2, with fuel 100. -/
theorem conditional_dispatch_prints_big_witness :
    100 ≤ 100
    ∧ runSource 100
        "let x=5; if (x>3) \x7b print(\"big\"); \x7d else \x7b print(\"small\"); \x7d"
      = .ok ["big"] :=
  ⟨by decide, conditional_dispatch_prints_big 100 (by decide)⟩

/-- C3 (the code at the failing input): the factorial source text does not reach the
interpreter, the parser throws at the `;` after `return 1`, so no amount of fuel makes the run
print `120`; and the syntax tree the text stands for, given to the interpreter directly, prints
`0`. -/
theorem factorial_source_rejected :
    runSource 200
        "func fact(n)\x7b if (n<=1)\x7breturn 1;\x7d return n*fact(n-1); \x7d print(fact(5));"
      = .error ("Expected ';' after return statement", [])
    ∧ (∀ fuel, runSource fuel
        "func fact(n)\x7b if (n<=1)\x7breturn 1;\x7d return n*fact(n-1); \x7d print(fact(5));"
      ≠ .ok ["120"])
    ∧ runProgram 200 factorialProgram = .ok ["0"]
    ∧ (∀ fuel, runProgram fuel factorialProgram ≠ .ok ["120"]) := by
  have h1 : runSource 200
      "func fact(n)\x7b if (n<=1)\x7breturn 1;\x7d return n*fact(n-1); \x7d print(fact(5));"
      = .error ("Expected ';' after return statement", []) := by decide!
  have h2 : runProgram 200 factorialProgram = .ok ["0"] := by decide!
  refine ⟨h1, ?_, h2, ?_⟩
  · intro fuel h
    exact absurd (runSource_unique 200 fuel _ _ _ h1 (by decide) h (by decide)) (by decide)
  · intro fuel h
    exact absurd (runProgram_unique 200 fuel _ _ _ h2 (by decide) h (by decide)) (by decide)

/-- C4 (counterexample): the source text `for i=5 to 1 step -1 { print(i); }` prints nothing, the
parser throws at the `-` that opens the step expression; no amount of fuel gives the output
`5`, `4`, `3`, `2`, `1`. -/
theorem descending_step_text_rejected :
    runSource 100 "for i=5 to 1 step -1 \x7b print(i); \x7d"
      = .error ("Unexpected token in expression", [])
    ∧ ∀ fuel, runSource fuel "for i=5 to 1 step -1 \x7b print(i); \x7d"
      ≠ .ok ["5", "4", "3", "2", "1"] := by
  have h1 : runSource 100 "for i=5 to 1 step -1 \x7b print(i); \x7d"
      = .error ("Unexpected token in expression", []) := by decide!
  refine ⟨h1, ?_⟩
  intro fuel h
  exact absurd (runSource_unique 100 fuel _ _ _ h1 (by decide) h (by decide)) (by decide)

/-- C4 (amended): with any fuel from 100 on, the for node with loop variable `i`, start `1`,
end `3` and body `print(i)` prints `1`, `2`, `3` in that order; the for node from `5` to `1`
whose step expression `0-1` evaluates to `-1` prints `5`, `4`, `3`, `2`, `1` in that order; both
run without error, and the header `for i=5 to 1 step 0-1` is what the parser accepts for the
descending loop. -/
theorem ranged_loops_on_syntax_trees (fuel : Nat) (h : 100 ≤ fuel) :
    runProgram fuel [printLoop (.NumberNode "1") (.NumberNode "3") none]
      = .ok ["1", "2", "3"]
    ∧ runProgram fuel [printLoop (.NumberNode "5") (.NumberNode "1")
        (some (.BinaryExprNode "-" (.NumberNode "0") (.NumberNode "1")))]
      = .ok ["5", "4", "3", "2", "1"]
    ∧ parseSource fuel "for i=5 to 1 step 0-1 \x7b \x7d"
      = .ok [.ForNode "i" (.NumberNode "5")
          (.BinaryExprNode "step" (.NumberNode "1")
            (.BinaryExprNode "-" (.NumberNode "0") (.NumberNode "1"))) []] :=
  ⟨runProgram_stable 100 _ _ (by decide!) (by decide) fuel h,
    runProgram_stable 100 _ _ (by decide!) (by decide) fuel h,
    parseSource_stable 100 _ _ (by decide!) (by decide) fuel h⟩

/-- C4 (amended), with fuel 100. -/
theorem ranged_loops_on_syntax_trees_witness :
    100 ≤ 100
    ∧ runProgram 100 [printLoop (.NumberNode "1") (.NumberNode "3") none]
      = .ok ["1", "2", "3"]
    ∧ runProgram 100 [printLoop (.NumberNode "5") (.NumberNode "1")
        (some (.BinaryExprNode "-" (.NumberNode "0") (.NumberNode "1")))]
      = .ok ["5", "4", "3", "2", "1"] :=
  ⟨by decide, (ranged_loops_on_syntax_trees 100 (by decide)).1,
    (ranged_loops_on_syntax_trees 100 (by decide)).2.1⟩

/-- C5 (the code at the failing input): with `func g() { return 1; }` and
`func f() { return g(); }`, the call `f()` has the value `0`, and with no amount of fuel the
value `1` of the executed return statement, which is the value of `g()`. -/
theorem return_of_call_yields_zero :
    runProgram 100 returnCallProgram = .ok ["0"]
    ∧ valueAfter 100 returnCallProgram (.CallNode "f" []) = .ok (.num 0)
    ∧ valueAfter 100 returnCallProgram (.CallNode "g" []) = .ok (.num 1)
    ∧ ∀ fuel, valueAfter fuel returnCallProgram (.CallNode "f" []) ≠ .ok (.num 1) := by
  have h1 : valueAfter 100 returnCallProgram (.CallNode "f" []) = .ok (.num 0) := by decide!
  refine ⟨by decide!, h1, by decide!, ?_⟩
  intro fuel h
  exact absurd (valueAfter_unique 100 fuel _ _ _ _ h1 (by decide) h (by decide)) (by decide!)

/-- C6 (the code at the failing input): in `func f() { if (1) { return 1; print("after"); } }`
the statement after the return still runs, the call `f()` prints `after` before it returns; no
amount of fuel gives the output `1` alone. -/
theorem statement_after_return_runs :
    runProgram 100 returnInBranchProgram = .ok ["after", "1"]
    ∧ ∀ fuel, runProgram fuel returnInBranchProgram ≠ .ok ["1"] := by
  have h1 : runProgram 100 returnInBranchProgram = .ok ["after", "1"] := by decide!
  refine ⟨h1, ?_⟩
  intro fuel h
  exact absurd (runProgram_unique 100 fuel _ _ _ h1 (by decide) h (by decide)) (by decide)

/-- C8 (the code at the failing input): with the end written `3` the loop variable is `3` after
`for i=1 to 3 { }`; with the end written `1+2` and no step the body never runs and `i` stays
unbound, whatever the fuel; with an explicit `step 1` the same end `1+2` is honoured. -/
theorem binary_end_without_step_ignored :
    runSource 100 "for i=1 to 3 \x7b \x7d print(i);" = .ok ["3"]
    ∧ runSource 100 "for i=1 to 1+2 \x7b \x7d print(i);" = .error ("Undefined variable: i", [])
    ∧ (∀ fuel, runSource fuel "for i=1 to 1+2 \x7b \x7d print(i);" ≠ .ok ["3"])
    ∧ runProgram 100 [printLoop (.NumberNode "1")
        (.BinaryExprNode "+" (.NumberNode "1") (.NumberNode "2")) none] = .ok []
    ∧ runProgram 100 [printLoop (.NumberNode "1")
        (.BinaryExprNode "+" (.NumberNode "1") (.NumberNode "2")) (some (.NumberNode "1"))]
      = .ok ["1", "2", "3"] := by
  have h1 : runSource 100 "for i=1 to 1+2 \x7b \x7d print(i);"
      = .error ("Undefined variable: i", []) := by decide!
  refine ⟨by decide!, h1, ?_, by decide!, by decide!⟩
  intro fuel h
  exact absurd (runSource_unique 100 fuel _ _ _ h1 (by decide) h (by decide)) (by decide)

/-! ## Claims about calls, loops and arrays -/

/-- C7: a call of a user-defined function that returns normally leaves the environment equal to
the environment just before the call (whatever the parameters and the body bound or overwrote),
and the call stack as it was, in particular of the same depth. -/
theorem call_restores_environment (fuel : Nat) (func : String) (args : List ExprNode)
    (st st' : Interpreter) (v : Value) (decl : List String × List ASTNode)
    (hf : find st.functions func = some decl)
    (h : eval fuel (.CallNode func args) st = .ok (v, st')) :
    st'.vars = st.vars ∧ st'.callStack = st.callStack
      ∧ st'.callStack.length = st.callStack.length := by
  obtain ⟨params, body⟩ := decl
  cases fuel with
  | zero => exact absurd h (by intro h; cases h)
  | succ n =>
    obtain ⟨-, -, ihBind, ihBody, -, -, -, -⟩ := interpInv n
    rw [eval_CallNode_user _ _ _ _ _ _ hf] at h
    split at h
    · cases h
    · rw [Res.bind_eq_ok] at h
      obtain ⟨s1, h1, h⟩ := h
      rw [Res.bind_eq_ok] at h
      obtain ⟨s2, h2, h3⟩ := h
      have i1 := ihBind _ _ _ _ h1
      have i2 := ihBody _ _ _ h2
      have hcs : s2.callStack = st.vars :: st.callStack := by
        rw [i2.1]
        exact i1.1
      cases h3
      refine ⟨?_, ?_, ?_⟩ <;> simp [Interpreter.popScope, hcs]

/-- C7, at the call `f(5)` of `func f(x) { let y = 1; let x = 2; return x; }` with `x = 7` in
the caller: the call yields `2` and the environment is again `x = 7`. -/
theorem call_restores_environment_witness :
    eval 10 (.CallNode "f" [.NumberNode "5"]) scopeDemo
        = .ok (.num 2, { scopeDemo with returnValue := .num 2, restores := 1 })
      ∧ ({ scopeDemo with returnValue := .num 2, restores := 1 } : Interpreter).vars
          = [("x", .num 7)]
      ∧ ({ scopeDemo with returnValue := .num 2, restores := 1 } : Interpreter).callStack = []
      ∧ ({ scopeDemo with returnValue := .num 2, restores := 1 } : Interpreter).callStack.length
          = 0 :=
  ⟨by decide!,
    call_restores_environment 10 "f" [.NumberNode "5"] scopeDemo
      { scopeDemo with returnValue := .num 2, restores := 1 } (.num 2) _ rfl (by decide!)⟩

/-- C9: when `b` has been bound to the array held by `a` (`let b = a;`), an element assignment
`a[index] = right;` that succeeds leaves the binding of `b` as it was: the same cells, so every
element read through `b` and the length of `b` are unchanged. (The index and value expressions
contain no nested element assignment; the parser never nests one in an expression.) For the
statements `let a=[1,2,3]; let b=a; a[0]=9;`, given to the interpreter as the syntax trees
`aliasProgram`, `b[0]` then evaluates to `1`, `a[0]` to `9` and `len(b)` to `3`. -/
theorem alias_unchanged_by_element_assignment :
    (∀ (fuel1 fuel2 : Nat) (st st1 st2 : Interpreter) (a b : String) (cells : List Value)
        (index right : ExprNode),
        a ≠ b → b ≠ "" → noAssign index = true → noAssign right = true →
        find st.vars a = some (.arr cells) →
        exec fuel1 (.VarDeclNode b (.IdentifierNode a)) st = .ok st1 →
        exec fuel2 (elementAssign a index right) st1 = .ok st2 →
        find st1.vars b = some (.arr cells) ∧ find st2.vars b = some (.arr cells))
    ∧ (∀ fuel, 10 ≤ fuel →
        valueAfter fuel aliasProgram (.IndexNode (.IdentifierNode "b") (.NumberNode "0"))
          = .ok (.num 1)
        ∧ valueAfter fuel aliasProgram (.IndexNode (.IdentifierNode "a") (.NumberNode "0"))
          = .ok (.num 9)
        ∧ valueAfter fuel aliasProgram (.CallNode "len" [.IdentifierNode "b"])
          = .ok (.num 3)) := by
  refine ⟨?_, fun fuel hf =>
    ⟨valueAfter_stable 10 _ _ _ (by decide!) (by decide) fuel hf,
      valueAfter_stable 10 _ _ _ (by decide!) (by decide) fuel hf,
      valueAfter_stable 10 _ _ _ (by decide!) (by decide) fuel hf⟩⟩
  intro fuel1 fuel2 st st1 st2 a b cells index right hab hb hpi hpr harr hbind hassign
  obtain ⟨n1, v1, s1, -, he1, rfl⟩ := exec_VarDeclNode_ok _ _ _ _ _ hbind
  have hv1 : v1 = .arr cells ∧ s1 = st := by
    cases n1 with
    | zero => exact absurd he1 (by intro h; cases h)
    | succ m =>
      rw [eval_IdentifierNode, harr] at he1
      cases he1
      exact ⟨rfl, rfl⟩
  obtain ⟨rfl, rfl⟩ := hv1
  have hb1 : find (assign s1.vars b (.arr cells)) b = some (.arr cells) := find_assign_same _ _ _
  refine ⟨hb1, ?_⟩
  obtain ⟨n2, v2, s2, -, he2, rfl⟩ := exec_VarDeclNode_ok _ _ _ _ _ hassign
  simp only
  rw [find_assign_ne _ _ _ _ hb]
  cases n2 with
  | zero => exact absurd he2 (by intro h; cases h)
  | succ m =>
    rw [eval_assign] at he2
    split at he2
    · cases he2
    · rw [Res.bind_eq_ok] at he2
      obtain ⟨⟨idxVal, t1⟩, h1, he2⟩ := he2
      rw [Res.bind_eq_ok] at he2
      obtain ⟨d, -, he2⟩ := he2
      split at he2
      · cases he2
      · split at he2
        · cases he2
        · split at he2
          · cases he2
          · rw [Res.bind_eq_ok] at he2
            obtain ⟨⟨rv, t2⟩, h2, h3⟩ := he2
            split at h3
            · cases h3
            · cases h3
              have i1 := ((interpInv m).1 _ _ _ _ h1).2.2.2 hpi
              have i2 := ((interpInv m).1 _ _ _ _ h2).2.2.2 hpr
              simp only at i1 i2 ⊢
              rw [find_setCell_ne _ _ _ _ _ (Ne.symm hab), i2, i1]
              exact hb1
    · cases he2

/-- C9, at the statements `let b = a; a[0] = 9;` run after `let a = [1,2,3];`. -/
theorem alias_unchanged_by_element_assignment_witness :
    find ({ Interpreter.init with
              vars := [("a", .arr [.num 1, .num 2, .num 3])] } : Interpreter).vars "a"
        = some (.arr [.num 1, .num 2, .num 3])
    ∧ find ({ Interpreter.init with
              vars := [("a", .arr [.num 9, .num 2, .num 3]),
                       ("b", .arr [.num 1, .num 2, .num 3]), ("", .num 9)] } : Interpreter).vars
          "b"
        = some (.arr [.num 1, .num 2, .num 3]) :=
  ⟨by decide!,
    (alias_unchanged_by_element_assignment.1 10 10
      { Interpreter.init with vars := [("a", .arr [.num 1, .num 2, .num 3])] }
      { Interpreter.init with
        vars := [("a", .arr [.num 1, .num 2, .num 3]), ("b", .arr [.num 1, .num 2, .num 3])] }
      { Interpreter.init with
        vars := [("a", .arr [.num 9, .num 2, .num 3]),
                 ("b", .arr [.num 1, .num 2, .num 3]), ("", .num 9)] }
      "a" "b" [.num 1, .num 2, .num 3] (.NumberNode "0") (.NumberNode "9")
      (by decide) (by decide) (by decide!) (by decide!) (by decide!) (by decide!)
      (by decide!)).2⟩

/-- C10: `len` of an array literal with `n` element expressions evaluates to `n`; and when the
literal has been bound to a variable, after any sequence of successful element assignments to
that variable `len` of the variable still evaluates to `n`. (`len` is the built-in: no
user-defined function of that name is registered.) -/
theorem len_fixed_at_construction :
    (∀ (fuel : Nat) (elements : List ExprNode) (st st' : Interpreter) (v : Value),
        find st.functions "len" = none →
        eval fuel (.CallNode "len" [.ArrayNode elements]) st = .ok (v, st') →
        v = .num (elements.length : ℚ))
    ∧ (∀ (fuel1 fuel2 fuel3 : Nat) (a : String) (elements : List ExprNode)
        (assignments : List (ExprNode × ExprNode)) (st st1 st2 : Interpreter),
        a ≠ "" → find st.functions "len" = none →
        exec fuel1 (.VarDeclNode a (.ArrayNode elements)) st = .ok st1 →
        execAll fuel2 (assignments.map fun p => elementAssign a p.1 p.2) st1 = .ok st2 →
        eval (fuel3 + 2) (.CallNode "len" [.IdentifierNode a]) st2
          = .ok (.num (elements.length : ℚ), st2)) := by
  constructor
  · intro fuel elements st st' v hlen h
    cases fuel with
    | zero => exact absurd h (by intro h; cases h)
    | succ n =>
      rw [eval_CallNode_builtin _ _ _ _ hlen, if_pos rfl] at h
      simp only [Res.bind_eq_ok] at h
      obtain ⟨⟨w, s1⟩, h1, h2⟩ := h
      obtain ⟨cells, rfl, hc⟩ := eval_ArrayNode_ok _ _ _ _ _ h1
      simp only at h2
      cases h2
      rw [hc]
  · intro fuel1 fuel2 fuel3 a elements assignments st st1 st2 ha hlen hdecl hassign
    obtain ⟨n1, v1, s1, -, he1, rfl⟩ := exec_VarDeclNode_ok _ _ _ _ _ hdecl
    obtain ⟨cells, rfl, hc⟩ := eval_ArrayNode_ok _ _ _ _ _ he1
    have hfn1 : s1.functions = st.functions := ((interpInv n1).1 _ _ _ _ he1).2.1
    obtain ⟨hl, hfn2⟩ := execAll_elementAssign a ha _ _ _ _ hassign
    simp only at hl hfn2
    have hlen0 : arrayLength (assign s1.vars a (.arr cells)) a = some elements.length := by
      simp only [arrayLength, findArray, find_assign_same, Option.map_some', hc]
    rw [hlen0] at hl
    obtain ⟨cells2, hf2, hc2⟩ := arrayLength_eq_some _ _ _ hl
    have hlen2 : find st2.functions "len" = none := by rw [hfn2, hfn1]; exact hlen
    rw [eval_CallNode_builtin _ _ _ _ hlen2, if_pos rfl]
    simp only
    rw [eval_IdentifierNode, hf2]
    simp only [Res.bind]
    rw [hc2]

/-- C10, at `let a = [1,2,3];` followed by `a[0] = 9; a[2] = 7;`: `len(a)` is `3`. -/
theorem len_fixed_at_construction_witness :
    eval 2 (.CallNode "len" [.IdentifierNode "a"])
        { Interpreter.init with vars := [("a", .arr [.num 9, .num 2, .num 7]), ("", .num 7)] }
      = .ok (.num 3,
        { Interpreter.init with vars := [("a", .arr [.num 9, .num 2, .num 7]), ("", .num 7)] }) :=
  len_fixed_at_construction.2 10 10 0 "a" [.NumberNode "1", .NumberNode "2", .NumberNode "3"]
    [(.NumberNode "0", .NumberNode "9"), (.NumberNode "2", .NumberNode "7")]
    Interpreter.init
    { Interpreter.init with vars := [("a", .arr [.num 1, .num 2, .num 3])] }
    { Interpreter.init with vars := [("a", .arr [.num 9, .num 2, .num 7]), ("", .num 7)] }
    (by decide) (by decide!) (by decide!) (by decide!)

/-! ## Claims about element assignment -/

/-- C11 (counterexample): with `a` bound to `[1, 2, 3]`, the index `-0.5` is a
number outside `0 .. 2`, and the element assignment `a[-0.5] = 9` raises no error: it yields `9`
and writes slot `0`, with every fuel from 2 on, because the bounds are tested on the index after
the cast to `int`, which truncates `-0.5` to `0`. -/
theorem fraction_below_zero_writes_first_slot :
    eval 1 (.NumberNode "-0.5") arrayDemo = .ok (.num (-1 / 2), arrayDemo)
    ∧ toInt (-1 / 2) = 0
    ∧ ∀ fuel, 2 ≤ fuel →
        eval fuel (.BinaryExprNode "[]=" (.IndexNode (.IdentifierNode "a") (.NumberNode "-0.5"))
            (.NumberNode "9")) arrayDemo
          = .ok (.num 9,
              { arrayDemo with vars := [("a", .arr [.num 9, .num 2, .num 3])] }) := by
  refine ⟨by decide!, by decide!, fun fuel hfuel => ?_⟩
  exact Res.stable_of_mono
    (fun k => eval k (.BinaryExprNode "[]="
      (.IndexNode (.IdentifierNode "a") (.NumberNode "-0.5")) (.NumberNode "9")) arrayDemo)
    (fun k => (interpMono k).1 _ _) 2 _ (by decide!) (by simp) fuel hfuel

/-- C11 (amended): evaluation of the element assignment `name[index] = right` whose index and
value expressions contain no call of a declared function. If `name` is bound to an array
`cells`, the index evaluates to a number whose integer part `i` (the cast to `int`, truncation
toward zero) satisfies `0 ≤ i < cells.length` and the value expression evaluates to `v`, then
the assignment yields `v` and afterwards `name` is bound to the array it was bound to after the
two operands were evaluated (`cells` itself when they contain no element assignment), with `v`
in slot `i` and every other slot unchanged, and every other variable is as the operands left
it. If `name` is unbound or bound to a number or a string, an exception is thrown in the
unchanged state, whatever the operands are; if `i` is outside `0 .. cells.length - 1`, the
exception `Array index out of bounds` is thrown in the state the index expression left, whose
environment is the initial one when the index contains no element assignment (for `i < 0` this
holds whatever the index expression calls: the length is not read then). -/
theorem element_assignment_effect (fuel : Nat) (name : String) (index right : ExprNode)
    (st : Interpreter) :
    (∀ cells d s1 v s2, noDeclaredCall st.functions index = true →
        noDeclaredCall st.functions right = true →
        find st.vars name = some (.arr cells) →
        eval fuel index st = .ok (.num d, s1) →
        0 ≤ toInt d → toInt d < (cells.length : Int) →
        eval fuel right s1 = .ok (v, s2) →
        ∃ st' cells2,
          eval (fuel + 1) (.BinaryExprNode "[]=" (.IndexNode (.IdentifierNode name) index) right)
              st = .ok (v, st')
          ∧ find s2.vars name = some (.arr cells2)
          ∧ cells2.length = cells.length
          ∧ (noAssign index = true → noAssign right = true → s2.vars = st.vars ∧ cells2 = cells)
          ∧ find st'.vars name = some (.arr (cells2.set (toInt d).toNat v))
          ∧ (cells2.set (toInt d).toNat v).get? (toInt d).toNat = some v
          ∧ (∀ j, j ≠ (toInt d).toNat →
              (cells2.set (toInt d).toNat v).get? j = cells2.get? j)
          ∧ (∀ other, other ≠ name → find st'.vars other = find s2.vars other))
    ∧ (find st.vars name = none →
        eval (fuel + 1) (.BinaryExprNode "[]=" (.IndexNode (.IdentifierNode name) index) right)
          st = .error ("Undefined array: " ++ name, st))
    ∧ (∀ w, find st.vars name = some w → w.isArr = false →
        eval (fuel + 1) (.BinaryExprNode "[]=" (.IndexNode (.IdentifierNode name) index) right)
          st = .error ("Variable is not an array", st))
    ∧ (∀ cells d s1, find st.vars name = some (.arr cells) →
        eval fuel index st = .ok (.num d, s1) →
        (toInt d < 0
          ∨ (noDeclaredCall st.functions index = true ∧ (cells.length : Int) ≤ toInt d)) →
        eval (fuel + 1) (.BinaryExprNode "[]=" (.IndexNode (.IdentifierNode name) index) right)
            st = .error ("Array index out of bounds", s1)
        ∧ (noAssign index = true → s1.vars = st.vars)) := by
  refine ⟨?_, ?_, ?_, ?_⟩
  · intro cells d s1 v s2 hci hcr hbound hidx h0 hlt hright
    have inv1 := (interpInv fuel).1 _ _ _ _ hidx
    have inv2 := (interpInv fuel).1 _ _ _ _ hright
    have hr1 : s1.restores = st.restores := (restoresInv fuel).1 _ _ _ _ hidx hci
    have hr2 : s2.restores = st.restores :=
      ((restoresInv fuel).1 _ _ _ _ hright (by rw [inv1.2.1]; exact hcr)).trans hr1
    obtain ⟨cells1, hf1, hl1⟩ :=
      find_arr_of_arrayLength st.vars s1.vars name cells hbound (inv1.2.2.1 name)
    obtain ⟨cells2, hf2, hl2⟩ :=
      find_arr_of_arrayLength s1.vars s2.vars name cells1 hf1 (inv2.2.2.1 name)
    have hi : (toInt d).toNat < cells2.length := by
      rw [hl2, hl1]
      omega
    refine ⟨{ s2 with vars := setCell s2.vars name (toInt d).toNat v }, cells2, ?_, hf2,
      hl2.trans hl1, ?_, find_setCell_same _ _ _ _ _ hf2, ?_, ?_, ?_⟩
    · rw [eval_assign, hbound]
      simp only [hidx, Res.bind, getDouble, Res.inState, Res.map, id, findArray, hf1,
        Option.getD_some, hl1, hright]
      rw [if_neg (by omega), if_neg (not_not.mpr hr1), if_neg (by omega),
        if_neg (not_not.mpr hr2)]
    · intro hp1 hp2
      have hv2 : s2.vars = st.vars := (inv2.2.2.2 hp2).trans (inv1.2.2.2 hp1)
      refine ⟨hv2, ?_⟩
      rw [hv2, hbound] at hf2
      injection hf2 with hf2
      injection hf2 with hf2
      exact hf2.symm
    · simp [List.getElem?_set, hi]
    · intro j hj
      simp [List.getElem?_set, Ne.symm hj]
    · intro other hother
      exact find_setCell_ne _ _ _ _ _ hother
  · intro hnone
    rw [eval_assign, hnone]
  · intro w hw hshape
    rw [eval_assign, hw]
    cases w with
    | arr cells => cases hshape
    | num d => rfl
    | str s => rfl
  · intro cells d s1 hbound hidx hout
    have inv1 := (interpInv fuel).1 _ _ _ _ hidx
    obtain ⟨cells1, hf1, hl1⟩ :=
      find_arr_of_arrayLength st.vars s1.vars name cells hbound (inv1.2.2.1 name)
    refine ⟨?_, inv1.2.2.2⟩
    rw [eval_assign, hbound]
    simp only [hidx, Res.bind, getDouble, Res.inState, Res.map, id, findArray, hf1,
      Option.getD_some, hl1]
    by_cases hneg : toInt d < 0
    · rw [if_pos hneg]
    · rcases hout with hout | ⟨hci, hout⟩
      · exact absurd hout hneg
      · have hr1 : s1.restores = st.restores := (restoresInv fuel).1 _ _ _ _ hidx hci
        rw [if_neg hneg, if_neg (not_not.mpr hr1), if_pos (by omega)]

/-- C11 (amended), at `a[1] = 9` with `a` bound to `[1, 2, 3]`: the value is `9` and `a` is
`[1, 9, 3]` afterwards. -/
theorem element_assignment_effect_witness :
    ∃ st', eval 2 (.BinaryExprNode "[]=" (.IndexNode (.IdentifierNode "a") (.NumberNode "1"))
          (.NumberNode "9")) arrayDemo = .ok (.num 9, st')
      ∧ find st'.vars "a" = some (.arr [.num 1, .num 9, .num 3]) := by
  obtain ⟨st', cells2, h1, -, -, h4, h5, -⟩ :=
    (element_assignment_effect 1 "a" (.NumberNode "1") (.NumberNode "9") arrayDemo).1
      [.num 1, .num 2, .num 3] 1 arrayDemo (.num 9) arrayDemo rfl rfl rfl (by decide!)
      (by decide!) (by decide!) (by decide!)
  obtain ⟨-, rfl⟩ := h4 rfl rfl
  exact ⟨st', h1, h5.trans (by decide!)⟩

/-! ## Claims about the parser -/

/-- C12: on a primary `p0` followed by operators `o1 … on` of one precedence, each followed by a
primary `pi`, and then by a token that is no operator, `parseExpression` returns the left-nested
tree `(((p0 o1 p1) o2 p2) … on pn)` with every fuel from the fuel of the primaries plus `n + 4`
on; on `p0 o1 p1 o2 p2` it returns `p0 o1 (p1 o2 p2)` if `o2` has the higher precedence and
`(p0 o1 p1) o2 p2` otherwise; the table gives `||` 1, `&&` 2, `==` and `!=` 3, the four order
comparisons 4, `+` and `-` 5, `*` and `/` 6; `a + b * c` parses as `a + (b * c)` and `a * b + c`
as `(a * b) + c`. -/
theorem precedence_and_left_nesting :
    (∀ fuel toks prec pos p0 pos0 chain last,
        parsePrimary fuel toks pos = .ok (p0, pos0) →
        OperandChain fuel toks prec pos0 chain last →
        (peek toks last).type ≠ .Operator →
        ∀ m, fuel + chain.length + 4 ≤ m →
          parseExpression m toks pos = .ok (leftNested p0 chain, last))
    ∧ (∀ fuel toks pos p0 p1 p2 pos0 pos1 pos2 o1 o2,
        parsePrimary fuel toks pos = .ok (p0, pos0) →
        (peek toks pos0).type = .Operator → (peek toks pos0).value = o1 →
        parsePrimary fuel toks (advance toks pos0) = .ok (p1, pos1) →
        (peek toks pos1).type = .Operator → (peek toks pos1).value = o2 →
        parsePrimary fuel toks (advance toks pos1) = .ok (p2, pos2) →
        (peek toks pos2).type ≠ .Operator →
        ∀ m, fuel + 7 ≤ m →
          parseExpression m toks pos
            = .ok (if getPrecedence o1 < getPrecedence o2
                then .BinaryExprNode o1 p0 (.BinaryExprNode o2 p1 p2)
                else .BinaryExprNode o2 (.BinaryExprNode o1 p0 p1) p2, pos2))
    ∧ ["||", "&&", "==", "!=", "<", ">", "<=", ">=", "+", "-", "*", "/"].map getPrecedence
        = [1, 2, 3, 3, 4, 4, 4, 4, 5, 5, 6, 6]
    ∧ (∀ fuel, 100 ≤ fuel → parseExpressionSource fuel "a + b * c"
        = .ok (.BinaryExprNode "+" (.IdentifierNode "a")
            (.BinaryExprNode "*" (.IdentifierNode "b") (.IdentifierNode "c")), [""]))
    ∧ (∀ fuel, 100 ≤ fuel → parseExpressionSource fuel "a * b + c"
        = .ok (.BinaryExprNode "+"
            (.BinaryExprNode "*" (.IdentifierNode "a") (.IdentifierNode "b"))
            (.IdentifierNode "c"), [""])) := by
  refine ⟨?_, ?_, by decide, ?_, ?_⟩
  · intro fuel toks prec pos p0 pos0 chain last h0 hchain hend m hm
    exact parseExpression_chain fuel toks prec pos p0 pos0 chain last h0 hchain hend m hm
  · intro fuel toks pos p0 p1 p2 pos0 pos1 pos2 o1 o2 h0 ht1 hv1 h1 ht2 hv2 h2 hend m hm
    exact parseExpression_two_operators fuel toks pos p0 p1 p2 pos0 pos1 pos2 o1 o2 h0 ht1 hv1
      h1 ht2 hv2 h2 hend m hm
  · intro fuel hfuel
    exact parseExpressionSource_stable 100 _ _ (by decide!) (by decide) fuel hfuel
  · intro fuel hfuel
    exact parseExpressionSource_stable 100 _ _ (by decide!) (by decide) fuel hfuel

/-- C12, on the tokens of `a - b + c`, a chain of two operators of precedence 5. -/
theorem precedence_and_left_nesting_witness :
    parseExpression 8 chainTokens 0
      = .ok (.BinaryExprNode "+"
          (.BinaryExprNode "-" (.IdentifierNode "a") (.IdentifierNode "b"))
          (.IdentifierNode "c"), 5) :=
  precedence_and_left_nesting.1 2 chainTokens 5 0 (.IdentifierNode "a") 1
    [("-", .IdentifierNode "b"), ("+", .IdentifierNode "c")] 5 (by decide!)
    ⟨by decide!, by decide!, by decide!, 3, by decide!,
      ⟨by decide!, by decide!, by decide!, 5, by decide!, rfl⟩⟩
    (by decide!) 8 (by decide)

/-- C13 (the code at the failing inputs): after an array literal and after a `len(...)` call
`parsePrimary` returns without reading a postfix index, so `[1,2][0]` and `len(a)[0]` parse to
the array literal and to the call alone and leave the tokens `[`, `0`, `]` unread, and the text
`print([1,2][0]);` is rejected, whatever the fuel. After an identifier, a number, a string, a
parenthesized expression and a boolean literal the index operators are read, and nest to the
left. -/
theorem index_after_array_literal_unread :
    parseExpressionSource 100 "[1,2][0]"
      = .ok (.ArrayNode [.NumberNode "1", .NumberNode "2"], ["[", "0", "]", ""])
    ∧ (∀ fuel rest, parseExpressionSource fuel "[1,2][0]"
        ≠ .ok (.IndexNode (.ArrayNode [.NumberNode "1", .NumberNode "2"]) (.NumberNode "0"),
            rest))
    ∧ parseExpressionSource 100 "len(a)[0]"
      = .ok (.CallNode "len" [.IdentifierNode "a"], ["[", "0", "]", ""])
    ∧ (∀ fuel rest, parseExpressionSource fuel "len(a)[0]"
        ≠ .ok (.IndexNode (.CallNode "len" [.IdentifierNode "a"]) (.NumberNode "0"), rest))
    ∧ (∀ fuel, 100 ≤ fuel →
        parseSource fuel "print([1,2][0]);" = .error "Expected ')' after print expression")
    ∧ parseExpressionSource 100 "a[0][1]"
      = .ok (.IndexNode (.IndexNode (.IdentifierNode "a") (.NumberNode "0")) (.NumberNode "1"),
          [""])
    ∧ parseExpressionSource 100 "5[0]" = .ok (.IndexNode (.NumberNode "5") (.NumberNode "0"), [""])
    ∧ parseExpressionSource 100 "\"s\"[0]"
      = .ok (.IndexNode (.StringNode "s") (.NumberNode "0"), [""])
    ∧ parseExpressionSource 100 "true[0]"
      = .ok (.IndexNode (.NumberNode "1") (.NumberNode "0"), [""])
    ∧ parseExpressionSource 100 "([1,2])[0]"
      = .ok (.IndexNode (.ArrayNode [.NumberNode "1", .NumberNode "2"]) (.NumberNode "0"),
          [""]) := by
  have h1 : parseExpressionSource 100 "[1,2][0]"
      = .ok (.ArrayNode [.NumberNode "1", .NumberNode "2"], ["[", "0", "]", ""]) := by decide!
  have h2 : parseExpressionSource 100 "len(a)[0]"
      = .ok (.CallNode "len" [.IdentifierNode "a"], ["[", "0", "]", ""]) := by decide!
  refine ⟨h1, ?_, h2, ?_, ?_, by decide!, by decide!, by decide!, by decide!, by decide!⟩
  · intro fuel rest h
    exact absurd (parseExpressionSource_unique 100 fuel _ _ _ h1 (by decide) h (by simp))
      (by simp)
  · intro fuel rest h
    exact absurd (parseExpressionSource_unique 100 fuel _ _ _ h2 (by decide) h (by simp))
      (by simp)
  · intro fuel hfuel
    exact parseSource_stable 100 _ _ (by decide!) (by decide) fuel hfuel

/-- C14 (the code at the failing input): `let x=5` and `print(x)` each parse alone to one node
and `@` is an unrecognised token; the text with the stray token between them parses to the two
nodes, but the two statements written one directly after the other parse to the declaration
alone, because `parseVarDecl` consumes the token that follows its expression when that token is
not the operator `;`: here the keyword `print`. -/
theorem stray_token_changes_program :
    parseSource 100 "let x=5" = .ok [.VarDeclNode "x" (.NumberNode "5")]
    ∧ parseSource 100 "print(x)" = .ok [.PrintNode (.IdentifierNode "x")]
    ∧ (tokenize "@").map (fun toks => toks.map fun t => (t.type, t.value))
        = some [(.Unknown, "@"), (.EndOfFile, "")]
    ∧ parseSource 100 "let x=5 @ print(x)"
        = .ok [.VarDeclNode "x" (.NumberNode "5"), .PrintNode (.IdentifierNode "x")]
    ∧ parseSource 100 "let x=5 print(x)" = .ok [.VarDeclNode "x" (.NumberNode "5")]
    ∧ (∀ fuel, parseSource fuel "let x=5 print(x)"
        ≠ .ok [.VarDeclNode "x" (.NumberNode "5"), .PrintNode (.IdentifierNode "x")]) := by
  have h1 : parseSource 100 "let x=5 print(x)" = .ok [.VarDeclNode "x" (.NumberNode "5")] := by
    decide!
  refine ⟨by decide!, by decide!, by decide!, by decide!, h1, ?_⟩
  intro fuel h
  exact absurd (parseSource_unique 100 fuel _ _ _ h1 (by decide) h (by decide)) (by decide)

/-- C15 (the code at the failing inputs): a while statement whose body statement is written
with its `;` is rejected, whatever the fuel, with `print` and with `let` in the body: the lexer
gives `;` the type `Unknown` and the block loop requires the operator `;`. The same text
without the `;` is rejected with the same message, and the empty body is accepted. -/
theorem while_body_with_semicolons_rejected :
    (∀ fuel, 100 ≤ fuel → parseSource fuel "while (x) \x7b print(x); \x7d"
        = .error "Expected ';' after statement in while block")
    ∧ (∀ fuel, 100 ≤ fuel → parseSource fuel "while (x) \x7b let y = 1; print(y); \x7d"
        = .error "Expected ';' after statement in while block")
    ∧ (∀ fuel, parseSource fuel "while (x) \x7b print(x); \x7d"
        ≠ .ok [.WhileNode (.IdentifierNode "x") [.PrintNode (.IdentifierNode "x")]])
    ∧ (∀ fuel, 100 ≤ fuel → parseSource fuel "while (x) \x7b print(x) \x7d"
        = .error "Expected ';' after statement in while block")
    ∧ (∀ fuel, 100 ≤ fuel → parseSource fuel "while (x) \x7b \x7d"
        = .ok [.WhileNode (.IdentifierNode "x") []])
    ∧ (tokenize ";").map (fun toks => toks.map fun t => (t.type, t.value))
        = some [(.Unknown, ";"), (.EndOfFile, "")] := by
  have h1 : parseSource 100 "while (x) \x7b print(x); \x7d"
      = .error "Expected ';' after statement in while block" := by decide!
  refine ⟨?_, ?_, ?_, ?_, ?_, by decide!⟩
  · intro fuel hfuel
    exact parseSource_stable 100 _ _ h1 (by decide) fuel hfuel
  · intro fuel hfuel
    exact parseSource_stable 100 _ _ (by decide!) (by decide) fuel hfuel
  · intro fuel h
    exact absurd (parseSource_unique 100 fuel _ _ _ h1 (by decide) h (by decide)) (by decide)
  · intro fuel hfuel
    exact parseSource_stable 100 _ _ (by decide!) (by decide) fuel hfuel
  · intro fuel hfuel
    exact parseSource_stable 100 _ _ (by decide!) (by decide) fuel hfuel

/-- C16 (the code at the failing inputs): the assignment branch of `parseStatement` never
returns. On every token vector, at every position where an identifier is followed by `=`, the
statement parser throws or fails in the expression, because the expression parser stops only at
a token that is not an operator and the branch then requires the operator `;`. The source text
`x = 1;` is rejected with `Expected ';' after assignment`, whatever the fuel. -/
theorem bare_reassignment_rejected :
    (∀ fuel toks pos, (peek toks pos).type = .Identifier → (peek toks pos 1).type = .Assign →
        ∀ r, parseStatement fuel toks pos ≠ .ok r)
    ∧ parseSource 100 "x = 1;" = .error "Expected ';' after assignment"
    ∧ (∀ fuel, parseSource fuel "x = 1;" ≠ .ok [.VarDeclNode "x" (.NumberNode "1")]) := by
  have h1 : parseSource 100 "x = 1;" = .error "Expected ';' after assignment" := by decide!
  refine ⟨?_, h1, ?_⟩
  · intro fuel toks pos hid hassign r h
    cases fuel with
    | zero =>
      unfold parseStatement at h
      cases h
    | succ n =>
      unfold parseStatement at h
      have hk : ∀ kw, isKeyword toks pos kw = false := by
        intro kw
        simp [isKeyword, hid]
      simp only [hk, Bool.false_eq_true, if_false, hid, hassign, and_self, if_true,
        Res.bind_def, Res.bind_eq_ok] at h
      obtain ⟨⟨value, p⟩, hv, h2⟩ := h
      simp only [isSemicolon_after_expression _ _ _ _ _ hv, Bool.false_eq_true, if_false] at h2
      cases h2
  · intro fuel h
    exact absurd (parseSource_unique 100 fuel _ _ _ h1 (by decide) h (by decide)) (by decide)

/-! ## Claims about operators and conditions -/

/-- C17: when the operands of a binary node evaluate to `l` and `r`, the operators `==` and `!=`
yield `1` or `0` if both are numbers or both are strings (`1` exactly when they are equal, resp.
different) and throw the invalid-operands exception for every other combination; the operators
`-`, `*`, `/`, `<`, `>`, `<=`, `>=` yield a value if both are numbers and throw it otherwise;
`+` throws it exactly when an operand is an array. -/
theorem invalid_operands_table (fuel : Nat) (left right : ExprNode) (st s1 s2 : Interpreter)
    (l r : Value)
    (hl : eval fuel left st = .ok (l, s1)) (hr : eval fuel right s1 = .ok (r, s2)) :
    (∀ a b : ℚ, l = .num a → r = .num b →
        eval (fuel + 1) (.BinaryExprNode "==" left right) st
          = .ok (.num (if a = b then 1 else 0), s2)
        ∧ eval (fuel + 1) (.BinaryExprNode "!=" left right) st
          = .ok (.num (if a ≠ b then 1 else 0), s2))
    ∧ (∀ a b : String, l = .str a → r = .str b →
        eval (fuel + 1) (.BinaryExprNode "==" left right) st
          = .ok (.num (if a = b then 1 else 0), s2)
        ∧ eval (fuel + 1) (.BinaryExprNode "!=" left right) st
          = .ok (.num (if a ≠ b then 1 else 0), s2))
    ∧ (∀ op, op ∈ ["==", "!="] →
        ¬ ((l.isNum ∧ r.isNum) ∨ (l.isStr ∧ r.isStr)) →
        eval (fuel + 1) (.BinaryExprNode op left right) st = invalidOperands op s2)
    ∧ (∀ op, op ∈ ["-", "*", "/", "<", ">", "<=", ">="] →
        (l.isNum ∧ r.isNum →
          ∃ d : ℚ, eval (fuel + 1) (.BinaryExprNode op left right) st = .ok (.num d, s2))
        ∧ (¬ (l.isNum ∧ r.isNum) →
          eval (fuel + 1) (.BinaryExprNode op left right) st = invalidOperands op s2))
    ∧ (eval (fuel + 1) (.BinaryExprNode "+" left right) st = invalidOperands "+" s2
        ↔ (l.isArr ∨ r.isArr)) := by
  refine ⟨?_, ?_, ?_, ?_, ?_⟩
  · intro a b ha hb
    subst ha; subst hb
    constructor
    · rw [eval_binary_values fuel _ _ _ _ _ _ _ _ (by decide) hl hr]
      by_cases h : a = b <;> simp [binaryOp, boolNum, Res.inState, Res.map, Res.bind, h]
    · rw [eval_binary_values fuel _ _ _ _ _ _ _ _ (by decide) hl hr]
      by_cases h : a = b <;> simp [binaryOp, boolNum, Res.inState, Res.map, Res.bind, h]
  · intro a b ha hb
    subst ha; subst hb
    constructor
    · rw [eval_binary_values fuel _ _ _ _ _ _ _ _ (by decide) hl hr]
      by_cases h : a = b <;> simp [binaryOp, boolNum, Res.inState, Res.map, Res.bind, h]
    · rw [eval_binary_values fuel _ _ _ _ _ _ _ _ (by decide) hl hr]
      by_cases h : a = b <;> simp [binaryOp, boolNum, Res.inState, Res.map, Res.bind, h]
  · intro op hop hshape
    simp only [List.mem_cons, List.mem_singleton, List.not_mem_nil, or_false] at hop
    rcases hop with rfl | rfl <;>
      rw [eval_binary_values fuel _ _ _ _ _ _ _ _ (by decide) hl hr] <;>
      cases l <;> cases r <;>
      simp_all [binaryOp, invalidOperands, Value.isNum, Value.isStr, Res.inState, Res.map,
        Res.bind]
  · intro op hop
    simp only [List.mem_cons, List.mem_singleton, List.not_mem_nil, or_false] at hop
    rcases hop with rfl | rfl | rfl | rfl | rfl | rfl | rfl <;>
      rw [eval_binary_values fuel _ _ _ _ _ _ _ _ (by decide) hl hr] <;>
      cases l <;> cases r <;>
      simp [binaryOp, boolNum, invalidOperands, Value.isNum, Res.inState, Res.map, Res.bind]
  · rw [eval_binary_values fuel _ _ _ _ _ _ _ _ (by decide) hl hr]
    cases l <;> cases r <;>
      simp [binaryOp, invalidOperands, Value.isArr, Res.inState, Res.map, Res.bind]

/-- C17, at the operands `1` and `"1"` of `1 == "1"`, `1 < "1"` and `1 + "1"`. -/
theorem invalid_operands_table_witness :
    eval 2 (.BinaryExprNode "==" (.NumberNode "1") (.StringNode "1")) Interpreter.init
        = invalidOperands "==" Interpreter.init
    ∧ eval 2 (.BinaryExprNode "<" (.NumberNode "1") (.StringNode "1")) Interpreter.init
        = invalidOperands "<" Interpreter.init
    ∧ eval 2 (.BinaryExprNode "+" (.NumberNode "1") (.StringNode "1")) Interpreter.init
        ≠ invalidOperands "+" Interpreter.init := by
  have h := invalid_operands_table 1 (.NumberNode "1") (.StringNode "1") Interpreter.init
    Interpreter.init Interpreter.init (.num 1) (.str "1") (by decide!) (by decide!)
  refine ⟨h.2.2.1 "==" (by simp) (by decide), (h.2.2.2.1 "<" (by simp)).2 (by decide), ?_⟩
  intro hplus
  exact absurd (h.2.2.2.2.1 hplus) (by decide)

/-- C18: when the operands of a binary node evaluate to `l` and `r`, whatever their shapes,
`&&` yields `1` if both are truthy and `0` otherwise and `||` yields `1` if at least one is
truthy and `0` otherwise, so neither throws the invalid-operands exception; a number is truthy
iff it is nonzero, a string iff it is nonempty, and an array never. -/
theorem logical_operators_by_truthiness (fuel : Nat) (left right : ExprNode)
    (st s1 s2 : Interpreter) (l r : Value)
    (hl : eval fuel left st = .ok (l, s1)) (hr : eval fuel right s1 = .ok (r, s2)) :
    eval (fuel + 1) (.BinaryExprNode "&&" left right) st
        = .ok (.num (if truthy l = true ∧ truthy r = true then 1 else 0), s2)
    ∧ eval (fuel + 1) (.BinaryExprNode "||" left right) st
        = .ok (.num (if truthy l = true ∨ truthy r = true then 1 else 0), s2)
    ∧ (∀ d : ℚ, truthy (.num d) = true ↔ d ≠ 0)
    ∧ (∀ s : String, truthy (.str s) = true ↔ s ≠ "")
    ∧ (∀ cells : List Value, truthy (.arr cells) = false) := by
  refine ⟨?_, ?_, ?_, ?_, ?_⟩
  · rw [eval_binary_values fuel _ _ _ _ _ _ _ _ (by decide) hl hr]
    cases h1 : truthy l <;> cases h2 : truthy r <;>
      simp [binaryOp, boolNum, Res.inState, Res.map, Res.bind, h1, h2]
  · rw [eval_binary_values fuel _ _ _ _ _ _ _ _ (by decide) hl hr]
    cases h1 : truthy l <;> cases h2 : truthy r <;>
      simp [binaryOp, boolNum, Res.inState, Res.map, Res.bind, h1, h2]
  · intro d; simp [truthy]
  · intro s; simp [truthy]
  · intro cells; rfl

/-- C18, at the operands of `[1] && "a"` and `[1] || "a"`: an array and a nonempty string. -/
theorem logical_operators_by_truthiness_witness :
    eval 4 (.BinaryExprNode "&&" (.ArrayNode [.NumberNode "1"]) (.StringNode "a"))
        Interpreter.init = .ok (.num 0, Interpreter.init)
    ∧ eval 4 (.BinaryExprNode "||" (.ArrayNode [.NumberNode "1"]) (.StringNode "a"))
        Interpreter.init = .ok (.num 1, Interpreter.init) := by
  have h := logical_operators_by_truthiness 3 (.ArrayNode [.NumberNode "1"]) (.StringNode "a")
    Interpreter.init Interpreter.init Interpreter.init (.arr [.num 1]) (.str "a")
    (by decide!) (by decide!)
  exact ⟨h.1.trans (by decide!), h.2.1.trans (by decide!)⟩

/-- C19: when the condition evaluates to `v`, an if statement executes the statements of its
then-branch alone if `v` is a nonzero number or a nonempty string, and those of its else-branch
alone if `v` is the number `0`, the empty string or an array; a while statement ends without
executing its body in the second case and executes the body and tests the condition again in
the first (unless a return is pending after the body). -/
theorem branch_by_truthiness (fuel : Nat) (condition : ExprNode)
    (thenBranch elseBranch body : List ASTNode) (st s1 : Interpreter) (v : Value)
    (h : eval fuel condition st = .ok (v, s1)) :
    (((∃ d : ℚ, v = .num d ∧ d ≠ 0) ∨ (∃ s : String, v = .str s ∧ s ≠ "")) →
        exec (fuel + 1) (.IfNode condition thenBranch elseBranch) st
          = execAll fuel thenBranch s1
        ∧ exec (fuel + 2) (.WhileNode condition body) st
          = (execAll fuel body s1).bind fun s2 =>
              if s2.hasReturn then .ok s2 else whileLoop fuel condition body s2)
    ∧ ((v = .num 0 ∨ v = .str "" ∨ ∃ cells, v = .arr cells) →
        exec (fuel + 1) (.IfNode condition thenBranch elseBranch) st
          = execAll fuel elseBranch s1
        ∧ exec (fuel + 2) (.WhileNode condition body) st = .ok s1) := by
  have hif : exec (fuel + 1) (.IfNode condition thenBranch elseBranch) st
      = if truthy v then execAll fuel thenBranch s1 else execAll fuel elseBranch s1 := by
    rw [exec_IfNode, h]
    rfl
  have hwhile : exec (fuel + 2) (.WhileNode condition body) st
      = if !truthy v then .ok s1
        else (execAll fuel body s1).bind fun s2 =>
          if s2.hasReturn then .ok s2 else whileLoop fuel condition body s2 := by
    rw [exec_WhileNode, whileLoop_succ, h]
    rfl
  constructor
  · intro hv
    have ht : truthy v = true := by
      rcases hv with ⟨d, rfl, hd⟩ | ⟨s, rfl, hs⟩ <;> simp [truthy, *]
    rw [hif, hwhile, ht]
    exact ⟨rfl, rfl⟩
  · intro hv
    have ht : truthy v = false := by
      rcases hv with rfl | rfl | ⟨cells, rfl⟩ <;> simp [truthy]
    rw [hif, hwhile, ht]
    exact ⟨rfl, rfl⟩

/-- C19, at the condition `[1]` of `if ([1]) { print("then"); } else { print("else"); }` and of
`while ([1]) { print("then"); }`. -/
theorem branch_by_truthiness_witness :
    exec 4 (.IfNode (.ArrayNode [.NumberNode "1"]) [.PrintNode (.StringNode "then")]
        [.PrintNode (.StringNode "else")]) Interpreter.init
      = execAll 3 [.PrintNode (.StringNode "else")] Interpreter.init
    ∧ exec 5 (.WhileNode (.ArrayNode [.NumberNode "1"]) [.PrintNode (.StringNode "then")])
        Interpreter.init = .ok Interpreter.init :=
  (branch_by_truthiness 3 (.ArrayNode [.NumberNode "1"]) [.PrintNode (.StringNode "then")]
    [.PrintNode (.StringNode "else")] [.PrintNode (.StringNode "then")]
    Interpreter.init Interpreter.init (.arr [.num 1]) (by decide!)).2
    (Or.inr (Or.inr ⟨_, rfl⟩))

/-! ## Claims about exceptions -/

/-- C20 (the code at the failing input): in `print(1); for i=1 to y+1 { } print(2);` the name
`y` is bound nowhere and the for statement is executed, yet the run ends without an exception and
prints `1` and `2`, whatever the fuel: the end expression `y+1` is a binary node without a step
and is never evaluated. With the end written `y`, and with `print(y);` in place of the loop, the
run stops with `Undefined variable: y` after the line `1` and before the line `2`. -/
theorem undefined_name_in_loop_end_ignored :
    (∀ fuel, 100 ≤ fuel →
        runSource fuel "print(1); for i=1 to y+1 \x7b \x7d print(2);" = .ok ["1", "2"])
    ∧ (∀ fuel msg out, runSource fuel "print(1); for i=1 to y+1 \x7b \x7d print(2);"
        ≠ .error (msg, out))
    ∧ (∀ fuel, 100 ≤ fuel → runSource fuel "print(1); for i=1 to y \x7b \x7d print(2);"
        = .error ("Undefined variable: y", ["1"]))
    ∧ (∀ fuel, 100 ≤ fuel → runSource fuel "print(1); print(y); print(2);"
        = .error ("Undefined variable: y", ["1"])) := by
  have h1 : runSource 100 "print(1); for i=1 to y+1 \x7b \x7d print(2);" = .ok ["1", "2"] := by
    decide!
  refine ⟨?_, ?_, ?_, ?_⟩
  · intro fuel hfuel
    exact runSource_stable 100 _ _ h1 (by decide) fuel hfuel
  · intro fuel msg out h
    exact absurd (runSource_unique 100 fuel _ _ _ h1 (by decide) h (by simp)) (by simp)
  · intro fuel hfuel
    exact runSource_stable 100 _ _ (by decide!) (by decide) fuel hfuel
  · intro fuel hfuel
    exact runSource_stable 100 _ _ (by decide!) (by decide) fuel hfuel

/-! ## Claims about the function registry -/

/-- C21: `interpret` runs the statement loop from the state in which every top-level function
declaration is registered and nothing else has changed; a lookup in that registry gives the last
declaration of the name in the program, and it gives the same after any statements have run,
because no completed evaluation or execution changes the registry; a call whose name is in the
registry runs the registered body, wherever the declaration stands in the text; executing a
declaration node changes nothing and the statement loop skips it. The program whose call
precedes the declaration prints `7`, the two mutually recursive functions call each other, and
of two declarations of one name the later one is called. -/
theorem functions_registered_before_execution :
    (∀ fuel ast st, interpret fuel ast st = interpretLoop fuel ast (registerFunctions ast st))
    ∧ (∀ ast name,
        find (registerFunctions ast Interpreter.init).functions name = declared ast name)
    ∧ (∀ ast st, (registerFunctions ast st).vars = st.vars
        ∧ (registerFunctions ast st).out = st.out
        ∧ (registerFunctions ast st).hasReturn = st.hasReturn)
    ∧ (∀ fuel ast stmts st',
        interpretLoop fuel stmts (registerFunctions ast Interpreter.init) = .ok st' →
        ∀ name, find st'.functions name = declared ast name)
    ∧ (∀ fuel e st v st', eval fuel e st = .ok (v, st') → st'.functions = st.functions)
    ∧ (∀ fuel node st st', exec fuel node st = .ok st' → st'.functions = st.functions)
    ∧ (∀ fuel func args st params body, find st.functions func = some (params, body) →
        args.length = params.length →
        eval (fuel + 1) (.CallNode func args) st
          = (bindParams fuel params args st.pushScope).bind fun s1 =>
            (execBody fuel body { s1 with hasReturn := false }).bind fun s2 =>
            .ok (if s2.hasReturn then s2.returnValue else .num 0,
              { s2 with hasReturn := false }.popScope))
    ∧ (∀ fuel name params body st,
        exec (fuel + 1) (.FunctionNode name params body) st = .ok st)
    ∧ (∀ fuel name params body rest st,
        interpretLoop fuel (.FunctionNode name params body :: rest) st
          = interpretLoop fuel rest st)
    ∧ (∀ fuel, 100 ≤ fuel → runProgram fuel forwardCallProgram = .ok ["7"])
    ∧ (∀ fuel, 100 ≤ fuel → runProgram fuel mutualProgram = .ok ["ping", "pong", "ping"])
    ∧ (∀ fuel, 100 ≤ fuel → runProgram fuel redeclaredProgram = .ok ["2"]) := by
  refine ⟨fun _ _ _ => rfl, ?_, ?_, ?_, ?_, ?_, ?_, exec_FunctionNode, fun _ _ _ _ _ _ => rfl,
    ?_, ?_, ?_⟩
  · intro ast name
    rw [find_registerFunctions]
    cases declared ast name <;> rfl
  · intro ast st
    have h := registerFunctions_keeps ast st
    exact ⟨h.1, h.2.2.2.2, h.2.2.1⟩
  · intro fuel ast stmts st' h name
    rw [interpretLoop_functions fuel stmts _ st' h, find_registerFunctions]
    cases declared ast name <;> rfl
  · intro fuel e st v st' h
    exact ((interpInv fuel).1 e st v st' h).2.1
  · intro fuel node st st' h
    exact ((interpInv fuel).2.2.2.2.2.2.2 node st st' h).2
  · intro fuel func args st params body hf hlen
    rw [eval_CallNode_user fuel func args st params body hf, if_neg (by simpa using hlen)]
  · intro fuel hfuel
    exact runProgram_stable 100 _ _ (by decide!) (by decide) fuel hfuel
  · intro fuel hfuel
    exact runProgram_stable 100 _ _ (by decide!) (by decide) fuel hfuel
  · intro fuel hfuel
    exact runProgram_stable 100 _ _ (by decide!) (by decide) fuel hfuel

/-- C21, at the program whose call precedes the declaration: the registry of the state in which
its first statement runs holds the declaration of `f`. -/
theorem functions_registered_before_execution_witness :
    find (registerFunctions forwardCallProgram Interpreter.init).functions "f"
        = some ([], [.ReturnNode (.NumberNode "7")])
    ∧ runProgram 100 forwardCallProgram = .ok ["7"] :=
  ⟨(functions_registered_before_execution.2.1 forwardCallProgram "f").trans (by decide),
    functions_registered_before_execution.2.2.2.2.2.2.2.2.2.1 100 (by decide)⟩

/-! ## Claims about the grammar -/

/-- C22 (the code at the failing inputs): whenever `parseVarDecl` returns, it has consumed the
token that follows the expression (`advance` past it; only the end-of-file token stays), whatever
that token is. So in `let x=5 print(x)` the keyword `print` is consumed with the declaration and
the parser returns the declaration alone, whatever the fuel, and in `let x=5 let y=6` the second
`let` is consumed and the rest is rejected as an assignment; with the `;` written, both
statements are returned. -/
theorem let_consumes_next_token :
    (∀ fuel toks pos node pos', parseVarDecl fuel toks pos = .ok (node, pos') →
        ∃ value p,
          parseExpression fuel toks (advance toks (advance toks (advance toks pos)))
            = .ok (value, p)
          ∧ node = .VarDeclNode (peek toks (advance toks pos)).value value
          ∧ pos' = advance toks p)
    ∧ (∀ fuel, 100 ≤ fuel →
        parseSource fuel "let x=5 print(x)" = .ok [.VarDeclNode "x" (.NumberNode "5")])
    ∧ (∀ fuel, parseSource fuel "let x=5 print(x)"
        ≠ .ok [.VarDeclNode "x" (.NumberNode "5"), .PrintNode (.IdentifierNode "x")])
    ∧ (∀ fuel, 100 ≤ fuel →
        parseSource fuel "let x=5 let y=6" = .error "Expected ';' after assignment")
    ∧ (∀ fuel, 100 ≤ fuel → parseSource fuel "let x=5; print(x)"
        = .ok [.VarDeclNode "x" (.NumberNode "5"), .PrintNode (.IdentifierNode "x")]) := by
  have h1 : parseSource 100 "let x=5 print(x)" = .ok [.VarDeclNode "x" (.NumberNode "5")] := by
    decide!
  refine ⟨parseVarDecl_consumes, ?_, ?_, ?_, ?_⟩
  · intro fuel hfuel
    exact parseSource_stable 100 _ _ h1 (by decide) fuel hfuel
  · intro fuel h
    exact absurd (parseSource_unique 100 fuel _ _ _ h1 (by decide) h (by decide)) (by decide)
  · intro fuel hfuel
    exact parseSource_stable 100 _ _ (by decide!) (by decide) fuel hfuel
  · intro fuel hfuel
    exact parseSource_stable 100 _ _ (by decide!) (by decide) fuel hfuel

/-! ## Claims about parse errors -/

/-- C23: on a token vector that ends in an end-of-file token, with any fuel above eight times
the number of tokens plus six: at a position that holds the keyword `print`, `if`, `while`, `for`
or `func`, the statement parser throws unless every required delimiter of the form is in place
(parentheses around the print expression and the conditions, the opening brace of each block,
and the closing brace where the block loop stops); a block loop stops at a closing brace or at
the end of the input, so a block without its closing brace runs into the end-of-file token; an
exception thrown for a statement of a block is the exception of the block, and an exception
thrown where the top-level loop stands is the result of `parse`, which then returns no node
list. The texts `print 1`, `print(1`, `if (x) print(x)`, `let x=1; if (x) { print(x)`,
`while (x { }`, `for i=1 to 3 { `, `func f() { print(1)`, `if (x) { } else { print(1)` and
`if (x) { print 1 }` are rejected. -/
theorem missing_delimiter_raises :
    (∀ toks, endsInEndOfFile toks = true → ∀ fuel, 8 * toks.length + 6 < fuel →
      (∀ pos, isKeyword toks pos "print" = true → ¬ PrintDelimiters toks pos →
          ∃ msg, parseStatement fuel toks pos = .error msg)
      ∧ (∀ pos, isKeyword toks pos "if" = true → ¬ IfDelimiters toks pos →
          ∃ msg, parseStatement fuel toks pos = .error msg)
      ∧ (∀ pos, isKeyword toks pos "while" = true → ¬ WhileDelimiters toks pos →
          ∃ msg, parseStatement fuel toks pos = .error msg)
      ∧ (∀ pos, isKeyword toks pos "for" = true → ¬ ForDelimiters toks pos →
          ∃ msg, parseStatement fuel toks pos = .error msg)
      ∧ (∀ pos, isKeyword toks pos "func" = true → ¬ FunctionDelimiters toks pos →
          ∃ msg, parseStatement fuel toks pos = .error msg)
      ∧ (∀ f p term body b p2, parseBlock f toks p term body = .ok (b, p2) →
          (peek toks p2).type = .RBrace ∨ (peek toks p2).type = .EndOfFile)
      ∧ (∀ pos term body msg, isAtEnd toks pos = false → (peek toks pos).type ≠ .RBrace →
          parseStatement fuel toks pos = .error msg →
          parseBlock (fuel + 1) toks pos term body = .error msg)
      ∧ (∀ pos nodes msg, TopLevelAt toks pos nodes → isAtEnd toks pos = false →
          parseStatement fuel toks pos = .error msg →
          parse fuel toks = .error msg ∧ ∀ result, parse fuel toks ≠ .ok result))
    ∧ (∀ fuel, 100 ≤ fuel →
        parseSource fuel "print 1" = .error "Expected '(' after 'print'"
        ∧ parseSource fuel "print(1" = .error "Expected ')' after print expression"
        ∧ parseSource fuel "if (x) print(x)" = .error "Expected '\x7b' after if condition"
        ∧ parseSource fuel "let x=1; if (x) \x7b print(x)"
            = .error "Expected '\x7d' after if block"
        ∧ parseSource fuel "while (x \x7b \x7d" = .error "Expected ')' after while condition"
        ∧ parseSource fuel "for i=1 to 3 \x7b " = .error "Expected '\x7d' after for block"
        ∧ parseSource fuel "func f() \x7b print(1)"
            = .error "Expected '\x7d' after function body"
        ∧ parseSource fuel "if (x) \x7b \x7d else \x7b print(1)"
            = .error "Expected '\x7d' after else block"
        ∧ parseSource fuel "if (x) \x7b print 1 \x7d" = .error "Expected '(' after 'print'") := by
  constructor
  · intro toks hE fuel hf
    have hterm : ∀ pos, parseStatement fuel toks pos ≠ .outOfFuel := fun pos =>
      ((stmtTerm toks hE fuel).1 pos (by omega)).1
    have key : ∀ pos, (∀ r, parseStatement fuel toks pos ≠ .ok r) →
        ∃ msg, parseStatement fuel toks pos = .error msg := by
      intro pos hno
      cases hres : parseStatement fuel toks pos with
      | ok r => exact absurd hres (hno r)
      | error msg => exact ⟨msg, rfl⟩
      | outOfFuel => exact absurd hres (hterm pos)
    obtain ⟨n, rfl⟩ : ∃ n, fuel = n + 2 := ⟨fuel - 2, by omega⟩
    refine ⟨?_, ?_, ?_, ?_, ?_, ?_, ?_, ?_⟩
    · intro pos hk hno
      refine key pos fun r hr => hno ?_
      rw [parseStatement_print n toks pos hk, Res.bind_eq_ok] at hr
      obtain ⟨a, ha, -⟩ := hr
      exact parsePrint_delims n toks pos a ha
    · intro pos hk hno
      refine key pos fun r hr => hno ?_
      rw [parseStatement_if n toks pos hk, Res.bind_eq_ok] at hr
      obtain ⟨a, ha, -⟩ := hr
      cases n with
      | zero =>
        unfold parseIf at ha
        cases ha
      | succ k => exact parseIf_delims k toks pos a ha
    · intro pos hk hno
      refine key pos fun r hr => hno ?_
      rw [parseStatement_while n toks pos hk, Res.bind_eq_ok] at hr
      obtain ⟨a, ha, -⟩ := hr
      cases n with
      | zero =>
        unfold parseWhile at ha
        cases ha
      | succ k => exact parseWhile_delims k toks pos a ha
    · intro pos hk hno
      refine key pos fun r hr => hno ?_
      rw [parseStatement_for n toks pos hk, Res.bind_eq_ok] at hr
      obtain ⟨a, ha, -⟩ := hr
      cases n with
      | zero =>
        unfold parseFor at ha
        cases ha
      | succ k => exact parseFor_delims k toks pos a ha
    · intro pos hk hno
      refine key pos fun r hr => hno ?_
      rw [parseStatement_func (n + 1) toks pos hk, Res.bind_eq_ok] at hr
      obtain ⟨a, ha, -⟩ := hr
      exact parseFunction_delims n toks pos a ha
    · intro f p term body b p2 h
      rcases parseBlock_end f toks p term body b p2 h with h1 | h1
      · exact Or.inl h1
      · right
        simp only [isAtEnd, Bool.or_eq_true, decide_eq_true_eq] at h1
        rcases h1 with h1 | h1
        · exact peek_past_end toks hE p2 h1
        · exact h1
    · intro pos term body msg hne hb h
      exact parseBlock_error (n + 2) toks pos term body msg hne hb h
    · intro pos nodes msg hat hne h
      have := topLevelAt_raises toks hE pos nodes hat hne (n + 2) msg h (n + 2) hf
      refine ⟨this, fun result hc => ?_⟩
      rw [this] at hc
      cases hc
  · intro fuel hfuel
    exact ⟨parseSource_stable 100 _ _ (by decide!) (by decide) fuel hfuel,
      parseSource_stable 100 _ _ (by decide!) (by decide) fuel hfuel,
      parseSource_stable 100 _ _ (by decide!) (by decide) fuel hfuel,
      parseSource_stable 100 _ _ (by decide!) (by decide) fuel hfuel,
      parseSource_stable 100 _ _ (by decide!) (by decide) fuel hfuel,
      parseSource_stable 100 _ _ (by decide!) (by decide) fuel hfuel,
      parseSource_stable 100 _ _ (by decide!) (by decide) fuel hfuel,
      parseSource_stable 100 _ _ (by decide!) (by decide) fuel hfuel,
      parseSource_stable 100 _ _ (by decide!) (by decide) fuel hfuel⟩

/-- C23, on the tokens of `let x = 1; print 2`: the top-level loop reaches the keyword `print`
at position 5 after the declaration, no `(` follows it, and `parse` throws. -/
theorem missing_delimiter_raises_witness :
    ∃ msg, parse 80 missingParenTokens = .error msg := by
  have hgen := missing_delimiter_raises.1 missingParenTokens (by decide!) 80 (by decide!)
  obtain ⟨msg, hmsg⟩ := hgen.1 5 (by decide!) (fun h => absurd h.1 (by decide!))
  have hat : TopLevelAt missingParenTokens 5 [.VarDeclNode "x" (.NumberNode "1")] :=
    TopLevelAt.afterNode 0 10 [] (.VarDeclNode "x" (.NumberNode "1")) 5 TopLevelAt.start
      (by decide!) (by decide!)
  exact ⟨msg, (hgen.2.2.2.2.2.2.2 5 _ msg hat (by decide!) hmsg).1⟩

/-! ## Claims about literals -/

/-- C24: at a digit the lexer returns a token whose text `taken` is a prefix of the input made
of digits and at most one point, tagged `Decimal` if the text contains a point and `Number`
otherwise; the literal ends before a character that is not a digit, and it ends before a point
only if it already contains one. A point where a token starts is an `Unknown` token of its own.
So `1.2.3` is `Decimal 1.2`, `Unknown .`, `Number 3`, `EndOfFile`. -/
theorem number_literal_one_point :
    (∀ c cs line column, isdigit c = true →
        ∃ taken L',
          nextToken ⟨c :: cs, line, column⟩
            = some (⟨if '.' ∈ taken then .Decimal else .Number, String.mk taken, line, column⟩,
                L')
          ∧ taken ++ L'.rest = c :: cs
          ∧ (∀ x ∈ taken, isdigit x = true ∨ x = '.')
          ∧ taken.count '.' ≤ 1
          ∧ (∀ x rest, L'.rest = x :: rest → isdigit x = false ∧ (x = '.' → '.' ∈ taken)))
    ∧ (∀ cs line column, nextToken ⟨'.' :: cs, line, column⟩
        = some (⟨.Unknown, ".", line, column⟩, ⟨cs, line, column + 1⟩))
    ∧ (tokenize "1.2.3").map (fun toks => toks.map fun t => (t.type, t.value))
        = some [(.Decimal, "1.2"), (.Unknown, "."), (.Number, "3"), (.EndOfFile, "")]
    ∧ (tokenize "12 3.4 5.").map (fun toks => toks.map fun t => (t.type, t.value))
        = some [(.Number, "12"), (.Decimal, "3.4"), (.Decimal, "5."), (.EndOfFile, "")] := by
  refine ⟨?_, ?_, by decide!, by decide!⟩
  · intro c cs line column hc
    obtain ⟨taken, h1, h2, h3, h4, h5, h6⟩ := readNumber_spec (c :: cs) line column "" false
    refine ⟨taken, (readNumber (c :: cs) line column "" false).2.2, ?_, h2, h3, h4, ?_⟩
    · rw [nextToken_digit c cs line column hc, h1, h5]
      simp
    · intro x rest hx
      obtain ⟨g1, g2⟩ := h6 x rest hx
      refine ⟨g1, fun hp => ?_⟩
      have := g2 hp
      rw [h5] at this
      simpa using this
  · intro cs line column
    exact nextToken_unknown '.' cs line column (by decide)

/-- C24, at the input `1.2.3`. -/
theorem number_literal_one_point_witness :
    ∃ taken L', nextToken ⟨['1', '.', '2', '.', '3'], 1, 1⟩
        = some (⟨if '.' ∈ taken then .Decimal else .Number, String.mk taken, 1, 1⟩, L')
      ∧ taken ++ L'.rest = ['1', '.', '2', '.', '3'] ∧ taken.count '.' ≤ 1 := by
  obtain ⟨taken, L', h1, h2, -, h4, -⟩ :=
    number_literal_one_point.1 '1' ['.', '2', '.', '3'] 1 1 (by decide)
  exact ⟨taken, L', h1, h2, h4⟩

/-- C25: at a double quote followed by a closed body, the closing quote and any rest, the lexer
returns the `String` token whose text is the body with each backslash removed and the character
after it copied unchanged, and continues after the closing quote; an escaped quote is part of
the body. For a body without backslash, double quote and end-of-input character the text is
the body. So the literal with the body `a\nb` has the text `anb`, and the one with the body
`a\"b` the text `a"b`. -/
theorem string_literal_unescaped :
    (∀ body rest line column, closedBody body = true →
        ∃ line' column',
          nextToken ⟨'\x22' :: (body ++ '\x22' :: rest), line, column⟩
            = some (⟨.String, String.mk (unescape body), line, column⟩,
                ⟨rest, line', column'⟩))
    ∧ (∀ body : List Char, (∀ c ∈ body, c ≠ '\x5c' ∧ c ≠ '\x22' ∧ c ≠ '\x00') →
        closedBody body = true ∧ unescape body = body)
    ∧ (∀ x rest, unescape ('\x5c' :: x :: rest) = x :: unescape rest)
    ∧ unescape ['a', '\x5c', 'n', 'b'] = ['a', 'n', 'b']
    ∧ (tokenize "\"a\\nb\"").map (fun toks => toks.map fun t => (t.type, t.value))
        = some [(.String, "anb"), (.EndOfFile, "")]
    ∧ (tokenize "\"a\\\"b\" x").map (fun toks => toks.map fun t => (t.type, t.value))
        = some [(.String, "a\"b"), (.Identifier, "x"), (.EndOfFile, "")] := by
  refine ⟨?_, unescape_plain, unescape_escape, by decide, by decide!, by decide!⟩
  intro body rest line column h
  obtain ⟨l', k', hr⟩ := readString_closed body rest line (column + 1) "" h
  refine ⟨nextLine '\x22' l', nextColumn '\x22' k', ?_⟩
  rw [nextToken_quote, hr]
  simp [Lexer.get]

/-- C25, at the literal with the body `a\nb`. -/
theorem string_literal_unescaped_witness :
    ∃ line' column',
      nextToken ⟨['\x22', 'a', '\x5c', 'n', 'b', '\x22'], 1, 1⟩
        = some (⟨.String, "anb", 1, 1⟩, ⟨[], line', column'⟩) := by
  obtain ⟨l, k, h⟩ :=
    string_literal_unescaped.1 ['a', '\x5c', 'n', 'b'] [] 1 1 (by decide)
  have hu : String.mk (unescape ['a', '\x5c', 'n', 'b']) = "anb" := by decide
  rw [hu] at h
  exact ⟨l, k, h⟩

/-! ## Claims about operators -/

/-- C26 (the code at the failing inputs): `"x" + 1` evaluates to `x1.000000` and `1 + "x"` to
`1.000000x`, whatever the fuel, while `print(1)` writes `1`: for a string and a number `+`
appends the text of `std::to_string`, which has six decimals, and `print` writes the number
with the default formatting of the output stream. -/
theorem concatenation_formats_with_six_decimals :
    (∀ (s : String) (n : ℚ), binaryOp "+" (.str s) (.num n) = .ok (.str (s ++ to_string n))
        ∧ binaryOp "+" (.num n) (.str s) = .ok (.str (to_string n ++ s)))
    ∧ to_string 1 = "1.000000" ∧ coutDouble 1 = "1"
    ∧ (∀ fuel, 100 ≤ fuel → runSource fuel "print(\"x\" + 1);" = .ok ["x1.000000"])
    ∧ (∀ fuel, runSource fuel "print(\"x\" + 1);" ≠ .ok ["x1"])
    ∧ (∀ fuel, 100 ≤ fuel → runSource fuel "print(1 + \"x\");" = .ok ["1.000000x"])
    ∧ (∀ fuel, runSource fuel "print(1 + \"x\");" ≠ .ok ["1x"])
    ∧ (∀ fuel, 100 ≤ fuel → runSource fuel "print(1);" = .ok ["1"]) := by
  have h1 : runSource 100 "print(\"x\" + 1);" = .ok ["x1.000000"] := by decide!
  have h2 : runSource 100 "print(1 + \"x\");" = .ok ["1.000000x"] := by decide!
  refine ⟨fun s n => ⟨rfl, rfl⟩, by decide!, by decide!, ?_, ?_, ?_, ?_, ?_⟩
  · intro fuel hfuel
    exact runSource_stable 100 _ _ h1 (by decide) fuel hfuel
  · intro fuel h
    exact absurd (runSource_unique 100 fuel _ _ _ h1 (by decide) h (by decide)) (by decide)
  · intro fuel hfuel
    exact runSource_stable 100 _ _ h2 (by decide) fuel hfuel
  · intro fuel h
    exact absurd (runSource_unique 100 fuel _ _ _ h2 (by decide) h (by decide)) (by decide)
  · intro fuel hfuel
    exact runSource_stable 100 _ _ (by decide!) (by decide) fuel hfuel

/-! ## Claims about calls in parsed programs -/

/-- C27. Every call node in the output of the parser has the callee name `len`, for every token
sequence and every amount of fuel, also inside the bodies of blocks and declarations, and every
expression the expression parser returns has this property. An identifier followed by `(` is
parsed as an identifier reference, and the position returned is that of the `(`, which is left
unconsumed. For every program text that parses, no declaration has the name `len` (the name of a
declaration is an identifier token, and the lexer gives no identifier token the text of a
keyword), so the registry of the run has no entry for `len`, and a call of `len` with no entry
in the registry is the built-in length query: no call node of the program runs a declared
function. The text `f(1)` parses as the identifier `f` with `(`, `1`, `)` left over; a
declaration named `len` is rejected; in a program that declares `f`, `let y = f();` binds `y` to
the variable `f`, which is undefined at run time, and `print(f());` is rejected. -/
theorem call_nodes_only_len :
    (∀ fuel toks nodes, parse fuel toks = .ok nodes → stmtsCallOnlyLen nodes = true)
    ∧ (∀ fuel toks pos e p, parseExpression fuel toks pos = .ok (e, p) → callsOnlyLen e = true)
    ∧ (∀ fuel toks pos, (peek toks pos).type = .Identifier →
        (peek toks (advance toks pos)).type = .LParen →
        parseExpression (fuel + 5) toks pos
            = .ok (.IdentifierNode (peek toks pos).value, advance toks pos)
          ∧ (peek toks (advance toks pos)).type = .LParen)
    ∧ (∀ fuel src nodes, parseSource fuel src = .ok nodes →
        stmtsCallOnlyLen nodes = true
          ∧ declared nodes "len" = none
          ∧ find (registerFunctions nodes Interpreter.init).functions "len" = none)
    ∧ (∀ fuel args st, find st.functions "len" = none →
        eval (fuel + 1) (.CallNode "len" args) st
          = match args with
            | [arg] =>
              (eval fuel arg st).bind fun r =>
                match r.1 with
                | .arr cells => .ok (.num (cells.length : ℚ), r.2)
                | _ => .error ("len() expects array", r.2)
            | _ => .error ("len() takes one argument", st))
    ∧ (∀ fuel, 100 ≤ fuel →
        parseExpressionSource fuel "f(1)" = .ok (.IdentifierNode "f", ["(", "1", ")", ""])
          ∧ parseSource fuel "func len() { print(1); }"
              = .error "Expected function name after 'func'"
          ∧ parseSource fuel callSource
              = .ok [.FunctionNode "f" [] [.PrintNode (.NumberNode "1")],
                  .VarDeclNode "y" (.IdentifierNode "f"),
                  .PrintNode (.IdentifierNode "y")]
          ∧ runSource fuel callSource = .error ("Undefined variable: f", [])
          ∧ parseSource fuel printCallSource = .error "Expected ')' after print expression") := by
  refine ⟨?_, ?_, ?_, ?_, ?_, ?_⟩
  · intro fuel toks nodes h
    exact parseLoop_callsOnlyLen fuel toks 0 [] rfl nodes h
  · intro fuel toks pos e p h
    exact (exprCallInv fuel).1 toks pos (e, p) h
  · intro fuel toks pos hid hnext
    exact ⟨parseExpression_identifier fuel toks pos hid hnext, hnext⟩
  · intro fuel src nodes h
    have hdecl := parseSource_declares_no_keyword fuel src nodes h "len" (by decide)
    refine ⟨?_, hdecl, ?_⟩
    · unfold parseSource at h
      cases htok : tokenize src with
      | none =>
        rw [htok] at h
        cases h
      | some toks =>
        rw [htok] at h
        exact parseLoop_callsOnlyLen fuel toks 0 [] rfl nodes h
    · rw [find_registerFunctions, hdecl]
      rfl
  · intro fuel args st hf
    rw [eval_CallNode_builtin fuel "len" args st hf, if_pos rfl]
  · intro fuel hfuel
    have h1 : parseExpressionSource 100 "f(1)"
        = .ok (.IdentifierNode "f", ["(", "1", ")", ""]) := by decide!
    have h2 : parseSource 100 "func len() { print(1); }"
        = .error "Expected function name after 'func'" := by decide!
    have h3 : parseSource 100 callSource
        = .ok [.FunctionNode "f" [] [.PrintNode (.NumberNode "1")],
            .VarDeclNode "y" (.IdentifierNode "f"),
            .PrintNode (.IdentifierNode "y")] := by decide!
    have h4 : runSource 100 callSource = .error ("Undefined variable: f", []) := by decide!
    have h5 : parseSource 100 printCallSource
        = .error "Expected ')' after print expression" := by decide!
    exact ⟨parseExpressionSource_stable 100 _ _ h1 (by simp) fuel hfuel,
      parseSource_stable 100 _ _ h2 (by simp) fuel hfuel,
      parseSource_stable 100 _ _ h3 (by simp) fuel hfuel,
      runSource_stable 100 _ _ h4 (by simp) fuel hfuel,
      parseSource_stable 100 _ _ h5 (by simp) fuel hfuel⟩

/-- The property of C27 at the text `print(len([1, 2]));` and at the tokens of `f(1)`. -/
theorem call_nodes_only_len_witness :
    stmtsCallOnlyLen [.PrintNode (.CallNode "len" [.ArrayNode [.NumberNode "1", .NumberNode "2"]])]
        = true
      ∧ parseExpression 5 ((tokenize "f(1)").getD []) 0
          = .ok (.IdentifierNode "f", 1) := by
  have hsrc : parseSource 100 "print(len([1, 2]));"
      = .ok [.PrintNode (.CallNode "len" [.ArrayNode [.NumberNode "1", .NumberNode "2"]])] := by
    decide!
  exact ⟨(call_nodes_only_len.2.2.2.1 100 _ _ hsrc).1,
    (call_nodes_only_len.2.2.1 0 ((tokenize "f(1)").getD []) 0 (by decide!) (by decide!)).1⟩

/-! ## Claims about termination of the parser -/

/-- C28: on every token vector that ends in an end-of-file token, `parse` returns a node list or
throws with every fuel above eight times the number of tokens plus six: it does not run on.
Every loop moves forward: a statement parse at a position that is not the end returns a later
position if it returns a node, and the loops advance past the position it returns if it
returns none (top-level loop and block loops); an expression parse returns a later position
(the elements of an array literal); `advance` moves past an identifier (parameter loop), a
comma and an operator, and the right operand read by the operator loop ends later still. -/
theorem parse_terminates :
    (∀ toks, endsInEndOfFile toks = true → ∀ fuel, 8 * toks.length + 6 < fuel →
        (∃ nodes, parse fuel toks = .ok nodes) ∨ (∃ msg, parse fuel toks = .error msg))
    ∧ (∀ toks, endsInEndOfFile toks = true → ∀ fuel pos stmt p1,
        isAtEnd toks pos = false → parseStatement fuel toks pos = .ok (stmt, p1) →
        (stmt ≠ none → pos < p1) ∧ (stmt = none → pos < advance toks p1))
    ∧ (∀ toks, endsInEndOfFile toks = true → ∀ fuel pos e p1,
        parseExpression fuel toks pos = .ok (e, p1) → pos < p1 ∧ pos < toks.length)
    ∧ (∀ toks, endsInEndOfFile toks = true → ∀ pos,
        (peek toks pos).type = .Identifier ∨ (peek toks pos).type = .Comma
          ∨ (peek toks pos).type = .Operator →
        advance toks pos = pos + 1 ∧ pos < toks.length)
    ∧ (∀ toks, endsInEndOfFile toks = true → ∀ fuel pos prec e p1,
        (peek toks pos).type = .Operator →
        parseBinary fuel toks (advance toks pos) prec = .ok (e, p1) → pos + 1 < p1) := by
  refine ⟨?_, ?_, ?_, ?_, ?_⟩
  · intro toks hE fuel hf
    have h := parse_term toks hE fuel hf
    cases hres : parse fuel toks with
    | ok nodes => exact Or.inl ⟨nodes, rfl⟩
    | error msg => exact Or.inr ⟨msg, rfl⟩
    | outOfFuel => exact absurd hres h
  · intro toks hE fuel pos stmt p1 hne h
    obtain ⟨hlt, -⟩ := not_isAtEnd_facts toks hne
    obtain ⟨hw, hs⟩ := parseStatement_progress toks hE fuel pos stmt p1 h
    refine ⟨fun hsome => ?_, fun _ => ?_⟩
    · have := hs hsome
      omega
    · have := advance_progress toks pos p1 hne hw
      omega
  · intro toks hE fuel pos e p1 h
    have := parseExpression_progress toks hE fuel pos e p1 h
    omega
  · intro toks hE pos h
    rcases h with h | h | h
    · obtain ⟨h1, h2⟩ := peek_facts toks hE h (by decide)
      exact ⟨h2, h1⟩
    · obtain ⟨h1, h2⟩ := peek_facts toks hE h (by decide)
      exact ⟨h2, h1⟩
    · obtain ⟨h1, h2⟩ := peek_facts toks hE h (by decide)
      exact ⟨h2, h1⟩
  · intro toks hE fuel pos prec e p1 hop h
    obtain ⟨h1, h2⟩ := peek_facts toks hE hop (by decide)
    rw [h2] at h
    have := parseBinary_progress toks hE fuel (pos + 1) prec e p1 h
    omega

/-- C28, on the tokens of `a - b + c` (six tokens with the end-of-file token) with fuel 55. -/
theorem parse_terminates_witness :
    (∃ nodes, parse 55 chainTokens = .ok nodes) ∨ (∃ msg, parse 55 chainTokens = .error msg) :=
  parse_terminates.1 chainTokens (by decide!) 55 (by decide!)

/-! ## Claims about operators in expressions -/

/-- C29: at a position that holds an operator token `parseExpression` throws
`Unexpected token in expression` (with any fuel from 4 on), whatever the operator and whatever
follows; the lexer gives a `-` the type `Operator` and the text `-` whatever follows it; so the
texts `-1` and `for i=5 to 1 step -1 { }` are rejected with that message. -/
theorem no_unary_operator :
    (∀ fuel toks pos, 4 ≤ fuel → (peek toks pos).type = .Operator →
        parseExpression fuel toks pos = .error "Unexpected token in expression")
    ∧ (∀ cs line column, nextToken ⟨'-' :: cs, line, column⟩
        = some (⟨.Operator, "-", line, column⟩, ⟨cs, line, column + 1⟩))
    ∧ (∀ fuel, 100 ≤ fuel →
        parseExpressionSource fuel "-1" = .error "Unexpected token in expression")
    ∧ (∀ fuel, 100 ≤ fuel → parseSource fuel "for i=5 to 1 step -1 \x7b \x7d"
        = .error "Unexpected token in expression") := by
  refine ⟨?_, nextToken_minus, ?_, ?_⟩
  · intro fuel toks pos hfuel h
    obtain ⟨k, rfl⟩ : ∃ k, fuel = k + 4 := ⟨fuel - 4, by omega⟩
    exact parseExpression_operator k toks pos h
  · intro fuel hfuel
    exact parseExpressionSource_stable 100 _ _ (by decide!) (by decide) fuel hfuel
  · intro fuel hfuel
    exact parseSource_stable 100 _ _ (by decide!) (by decide) fuel hfuel

/-- C29, on the tokens of `a - b + c` at the position of the `-`. -/
theorem no_unary_operator_witness :
    parseExpression 4 chainTokens 1 = .error "Unexpected token in expression" :=
  no_unary_operator.1 4 chainTokens 1 (by decide) (by decide!)

/-- C30: a binary node with `&&` or `||` evaluates the left operand, then the right operand in
the state the left one produced, and only then applies the operator to the two values: there is
no case in which the right operand is not evaluated. So an exception of the right operand is the
result whatever the value of the left operand, and `0 && y` and `1 || y` with `y` unbound stop
with `Undefined variable: y`. -/
theorem logical_operators_never_short_circuit (fuel : Nat) (op : String)
    (hop : op = "&&" ∨ op = "||") (left right : ExprNode) (st : Interpreter) :
    eval (fuel + 1) (.BinaryExprNode op left right) st
        = ((eval fuel left st).bind fun r1 =>
            (eval fuel right r1.2).bind fun r2 =>
              .ok (.num (if op = "&&"
                  then (if truthy r1.1 = true ∧ truthy r2.1 = true then 1 else 0)
                  else (if truthy r1.1 = true ∨ truthy r2.1 = true then 1 else 0)), r2.2))
    ∧ (∀ l s1 e, eval fuel left st = .ok (l, s1) → eval fuel right s1 = .error e →
        eval (fuel + 1) (.BinaryExprNode op left right) st = .error e)
    ∧ (∀ l (y : String), find st.vars y = none → 1 ≤ fuel →
        eval fuel left st = .ok (l, st) →
        eval (fuel + 1) (.BinaryExprNode op left (.IdentifierNode y)) st
          = .error ("Undefined variable: " ++ y, st))
    ∧ (∀ n, 100 ≤ n → runSource n "print(0 && y);" = .error ("Undefined variable: y", []))
    ∧ (∀ n, 100 ≤ n → runSource n "print(1 || y);" = .error ("Undefined variable: y", [])) := by
  have hne : op ≠ "[]=" := by
    rcases hop with rfl | rfl <;> decide
  have hmain : eval (fuel + 1) (.BinaryExprNode op left right) st
        = ((eval fuel left st).bind fun r1 =>
            (eval fuel right r1.2).bind fun r2 =>
              .ok (.num (if op = "&&"
                  then (if truthy r1.1 = true ∧ truthy r2.1 = true then 1 else 0)
                  else (if truthy r1.1 = true ∨ truthy r2.1 = true then 1 else 0)), r2.2)) := by
    rw [eval_binary fuel op left right st hne]
    congr 1
    funext r1
    congr 1
    funext r2
    rcases hop with rfl | rfl <;>
      cases h1 : truthy r1.1 <;> cases h2 : truthy r2.1 <;>
      simp [binaryOp, boolNum, Res.inState, Res.map, Res.bind, h1, h2]
  refine ⟨hmain, ?_, ?_, ?_, ?_⟩
  · intro l s1 e hl hr
    rw [hmain, hl]
    show ((eval fuel right s1).bind _) = _
    rw [hr]
    rfl
  · intro l y hy hfuel hl
    obtain ⟨k, rfl⟩ : ∃ k, fuel = k + 1 := ⟨fuel - 1, by omega⟩
    have hr : eval (k + 1) (.IdentifierNode y) st = .error ("Undefined variable: " ++ y, st) := by
      rw [eval_IdentifierNode, hy]
    rw [show eval (k + 1 + 1) (.BinaryExprNode op left (.IdentifierNode y)) st
        = ((eval (k + 1) left st).bind fun r1 =>
            (eval (k + 1) (.IdentifierNode y) r1.2).bind fun r2 =>
              ((binaryOp op r1.1 r2.1).inState r2.2).bind fun v => .ok (v, r2.2)) from
      eval_binary (k + 1) op left (.IdentifierNode y) st hne, hl]
    show ((eval (k + 1) (.IdentifierNode y) st).bind _) = _
    rw [hr]
    rfl
  · intro n hn
    exact runSource_stable 100 _ _ (by decide!) (by decide) n hn
  · intro n hn
    exact runSource_stable 100 _ _ (by decide!) (by decide) n hn

/-- C30, at `0 && y` in the fresh interpreter, where `y` is unbound. -/
theorem logical_operators_never_short_circuit_witness :
    eval 3 (.BinaryExprNode "&&" (.NumberNode "0") (.IdentifierNode "y")) Interpreter.init
      = .error ("Undefined variable: y", Interpreter.init) :=
  (logical_operators_never_short_circuit 2 "&&" (Or.inl rfl) (.NumberNode "0")
    (.IdentifierNode "y") Interpreter.init).2.2.1 (.num 0) "y" rfl (by decide) (by decide!)

/-! ## Claims about the arguments of a call -/

/-- C31. In a call of a declared function whose parameters are `pre`, `p`, `post` with the
arguments `apre`, `a`, `apost` (as many as parameters), the argument `a` is evaluated in the
state `s` that the parameter loop reaches by binding the parameters `pre` to the arguments
`apre`, starting from the environment of the caller with its snapshot pushed; `p` is then bound
to the value of `a`, the remaining parameters are bound and the body runs. In that state `s` an
earlier parameter `q` holds the value `v` of its own argument `aq`, whatever the caller had
bound to `q`, provided that no parameter between `q` and `p` has the name `q` and that the
arguments between them contain no element assignment; an argument that is the name `q` then
evaluates to `v`. For `func f(x, y) { return y; }` called as `f(1, x)` where the caller has
`x = 7`, the parameter loop ends with `x = 1` and `y = 1`, the call returns `1`, and the caller
still has `x = 7` afterwards. -/
theorem argument_sees_earlier_parameters (n : Nat) (pre : List String) (apre : List ExprNode)
    (p : String) (a : ExprNode) (post : List String) (apost : List ExprNode) (func : String)
    (body : List ASTNode) (st : Interpreter)
    (hf : find st.functions func = some (pre ++ p :: post, body))
    (hpre : pre.length = apre.length) (hpost : post.length = apost.length) :
    eval (n + 3 + pre.length) (.CallNode func (apre ++ a :: apost)) st
        = ((bindParams (n + 2 + pre.length) pre apre st.pushScope).bind fun s =>
            (eval (n + 1) a s).bind fun r =>
            (bindParams (n + 1) post apost (r.2.setVar p r.1)).bind fun s1 =>
            (execBody (n + 2 + pre.length) body { s1 with hasReturn := false }).bind fun s2 =>
              .ok (if s2.hasReturn then s2.returnValue else .num 0,
                { s2 with hasReturn := false }.popScope))
      ∧ (∀ s pre1 q mid apre1 aq amid,
          bindParams (n + 2 + pre.length) pre apre st.pushScope = .ok s →
          pre = pre1 ++ q :: mid → apre = apre1 ++ aq :: amid →
          pre1.length = apre1.length → q ∉ mid → noAssignList amid = true →
          ∃ s0 v r,
            bindParams (n + 2 + pre.length) pre1 apre1 st.pushScope = .ok s0
              ∧ eval (n + 2 + mid.length) aq s0 = .ok (v, r)
              ∧ find s.vars q = some v
              ∧ eval (n + 1) (.IdentifierNode q) s = .ok (v, s))
      ∧ find parameterDemo.vars "x" = some (.num 7)
      ∧ (bindParams 3 ["x", "y"] [.NumberNode "1", .IdentifierNode "x"]
            parameterDemo.pushScope).map id (fun s => s.vars)
          = .ok [("x", .num 1), ("y", .num 1)]
      ∧ (∀ fuel, 4 ≤ fuel →
          (eval fuel (.CallNode "f" [.NumberNode "1", .IdentifierNode "x"]) parameterDemo).map
              (fun e => e.1) (fun r => (r.1, r.2.vars))
            = .ok (.num 1, [("x", .num 7)]))
      ∧ (∀ fuel, 100 ≤ fuel → runProgram fuel parameterOrderProgram = .ok ["1", "7"]) := by
  refine ⟨?_, ?_, by decide!, by decide!, ?_, ?_⟩
  · have hfuel : n + 3 + pre.length = (n + 2 + pre.length) + 1 := by omega
    have hargs : ¬ (apre ++ a :: apost).length ≠ (pre ++ p :: post).length := by
      simp [hpre, hpost]
    have hsplit := bindParams_append (n + 1) pre apre (p :: post) (a :: apost) st.pushScope hpre
    rw [hfuel, eval_CallNode_user _ _ _ _ _ _ hf, if_neg hargs]
    have hfuel2 : n + 2 + pre.length = n + 1 + 1 + pre.length := rfl
    rw [hfuel2, hsplit, Res.bind_assoc]
    congr 1
    funext s
    rw [bindParams_cons, Res.bind_assoc]
  · intro s pre1 q mid apre1 aq amid hs hpre1 hapre1 hlen1 hq hna
    subst hpre1 hapre1
    have hF : n + 2 + (pre1 ++ q :: mid).length = (n + 2 + mid.length) + 1 + pre1.length := by
      simp
      omega
    rw [hF] at hs ⊢
    rw [bindParams_append _ pre1 apre1 _ _ _ hlen1] at hs
    obtain ⟨s0, hs0, hrest⟩ := Res.bind_eq_ok.mp hs
    rw [bindParams_cons] at hrest
    obtain ⟨r, hr, hmid⟩ := Res.bind_eq_ok.mp hrest
    obtain ⟨v, s1⟩ := r
    have hfind : find s.vars q = some v := by
      rw [bindParams_keeps _ mid amid _ s q hq hna hmid]
      exact find_assign_same _ _ _
    refine ⟨s0, v, s1, ?_, hr, hfind, ?_⟩
    · exact hs0
    · rw [eval_IdentifierNode, hfind]
  · intro fuel hfuel
    have h4 : (eval 4 (.CallNode "f" [.NumberNode "1", .IdentifierNode "x"]) parameterDemo).map
        (fun e => e.1) (fun r => (r.1, r.2.vars)) = .ok (.num 1, [("x", .num 7)]) := by
      decide!
    have hmono : ∀ k, Res.le
        ((eval k (.CallNode "f" [.NumberNode "1", .IdentifierNode "x"]) parameterDemo).map
          (fun e => e.1) (fun r => (r.1, r.2.vars)))
        ((eval (k + 1) (.CallNode "f" [.NumberNode "1", .IdentifierNode "x"])
          parameterDemo).map (fun e => e.1) (fun r => (r.1, r.2.vars))) :=
      fun k => Res.map_le _ _ ((interpMono k).1 _ _)
    exact Res.stable_of_mono
      (fun k => (eval k (.CallNode "f" [.NumberNode "1", .IdentifierNode "x"])
        parameterDemo).map (fun e => e.1) (fun r => (r.1, r.2.vars)))
      hmono 4 _ h4 (by simp) fuel hfuel
  · intro fuel hfuel
    exact runProgram_stable 100 _ _ (by decide!) (by decide) fuel hfuel

/-- The property of C31 at the call `f(1, x)` of `func f(x, y) { return y; }` where the
caller has `x = 7`: the call returns `1`. -/
theorem argument_sees_earlier_parameters_witness :
    find parameterDemo.functions "f"
        = some (["x"] ++ "y" :: [], [.ReturnNode (.IdentifierNode "y")])
      ∧ eval 4 (.CallNode "f" [.NumberNode "1", .IdentifierNode "x"]) parameterDemo
          = .ok (.num 1, { parameterDemo with returnValue := .num 1, restores := 1 }) := by
  have h := (argument_sees_earlier_parameters 0 ["x"] [.NumberNode "1"] "y" (.IdentifierNode "x")
    [] [] "f" [.ReturnNode (.IdentifierNode "y")] parameterDemo rfl rfl rfl).1
  exact ⟨rfl, h.trans (by decide!)⟩

end Zen
